import Mathlib

/-!
The fetch / flatten / publish cycle of `main.go` of qingping-cloud-mqtt.

A shallow embedding of `src/main.go`.  The three functions of the program
(`accessToken`, `deviceData` and the cron closure of `main`) are written as
pure functions of a `World`, which answers every call that leaves the program
(HTTP, clock, uuid, MQTT broker, map iteration order), and they return the
list of effects they performed next to their Go results.

Library behaviour the program relies on is embedded as follows.
* `encoding/json` decoding works on JSON values (`Json`); a body that is not
  valid JSON is `Body.malformed`, and a value nested deeper than 10000 levels
  is rejected as the scanner does.  Struct decoding follows the library:
  keys are matched exactly first and case-insensitively second, unknown keys
  are skipped, `null` leaves a field untouched, a value of the wrong kind is
  an error, and a slice is decoded in place over its backing array.
  `parseJson` reads the text of a JSON document, and `Body.ofText` is the body
  a text gives.
* `float64` conversions are a parameter (`FloatLib`); `strconv64` is the
  IEEE-754 binary64 instance.
* Go strings are Lean strings; their bytes are the UTF-8 encoding.
-/

namespace Qingping

/-! ## Go errors -/

/-- A Go `error` value, by the way it was built. -/
inductive GoError where
  /-- An error created by a library or by the outside world. -/
  | lib (descr : String)
  /-- The result of `errors.New(msg)`. -/
  | new (msg : String)
  /-- The result of `errors.Wrap(cause, msg)`. -/
  | wrap (cause : GoError) (msg : String)
deriving DecidableEq, Repr

/-! ## JSON values -/

/-- A JSON number literal `[-]int[.frac][e exp]`, kept as written: Go decodes
an integer field with `strconv.ParseInt` on the literal text, so `1e3` and
`1000` are different inputs. `frac = []` means there is no fraction part. -/
structure NumLit where
  neg : Bool
  int : Nat
  frac : List (Fin 10)
  exp : Option Int
deriving DecidableEq, Repr

/-- A JSON value. Object members are kept in document order, duplicates
included. -/
inductive Json where
  | null
  | bool (b : Bool)
  | num (n : NumLit)
  | str (s : String)
  | arr (elems : List Json)
  | obj (members : List (String × Json))

mutual
/-- The nesting depth of a JSON value: the number of arrays and objects open
at its deepest point. -/
def Json.depth : Json → Nat
  | .null => 0
  | .bool _ => 0
  | .num _ => 0
  | .str _ => 0
  | .arr elems => depthElems elems + 1
  | .obj members => depthMembers members + 1
/-- The largest depth among the elements of an array. -/
def depthElems : List Json → Nat
  | [] => 0
  | j :: rest => max j.depth (depthElems rest)
/-- The largest depth among the member values of an object. -/
def depthMembers : List (String × Json) → Nat
  | [] => 0
  | (_, j) :: rest => max j.depth (depthMembers rest)
end

/-- The constant `maxNestingDepth` of the scanner of `encoding/json`. -/
def maxNestingDepth : Nat := 10000

/-- The integer literal `n`. -/
def NumLit.ofInt (n : Int) : NumLit :=
  { neg := decide (n < 0), int := n.natAbs, frac := [], exp := none }

/-- The conversion `strconv.ParseInt(lit, 10, 64)` as used by the decoder: only a
literal without fraction and exponent is an integer, and it has to fit in an
`int64`. -/
def parseInt64 (n : NumLit) : Option Int :=
  if n.frac = [] ∧ n.exp = none then
    let v : Int := if n.neg then -(n.int : Int) else (n.int : Int)
    if -(2 : Int) ^ 63 ≤ v ∧ v < (2 : Int) ^ 63 then some v else none
  else none

/-- The `float64` conversions of `strconv` that `encoding/json` calls.
`parse` is `ParseFloat(lit, 64)` (`none` when the literal is out of range,
which the decoder reports as an `UnmarshalTypeError`); `format` is the
encoder for a `float64` field (`none` for NaN and the infinities, which
`json.Marshal` rejects with an `UnsupportedValueError`); `zero` is the zero
value of the type. -/
structure FloatLib (F : Type) where
  zero : F
  parse : NumLit → Option F
  format : F → Option NumLit

/-- The round-trip law of `strconv`: the zero value and every value produced
by `parse` can be formatted, and the formatted literal parses back to the same
value. -/
def FloatLib.Lawful {F : Type} (lib : FloatLib F) : Prop :=
  (∃ l, lib.format lib.zero = some l ∧ lib.parse l = some lib.zero) ∧
  ∀ lit f, lib.parse lit = some f → ∃ l, lib.format f = some l ∧ lib.parse l = some f

/-! ## Key matching of `encoding/json` -/

/-- The function `foldRune` of `encoding/json`, exact on every rune whose fold
orbit meets ASCII: lower-case ASCII letters go to upper case, the long s
(U+017F) goes to `S` and the Kelvin sign (U+212A) to `K`. Other runes fold
inside the non-ASCII range and are left alone here, which never changes a
comparison with an ASCII field name. -/
def foldRune (c : Char) : Char :=
  if 97 ≤ c.toNat ∧ c.toNat ≤ 122 then Char.ofNat (c.toNat - 32)
  else if c.toNat = 0x17F then 'S'
  else if c.toNat = 0x212A then 'K'
  else c

/-- The function `foldName` of `encoding/json`: two keys match
case-insensitively when their folded names are equal. -/
def foldName (s : String) : List Char := s.data.map foldRune

/-- One field of a Go struct as the decoder sees it: its JSON name (the tag,
or the Go field name when there is no tag) and how a JSON value is decoded
into it (`none` is a decoding error). -/
structure Field (T : Type) where
  name : String
  set : T → Json → Option T

/-- Field lookup for an object key: an exact match is preferred, a
case-insensitive match is accepted. -/
def findField {T : Type} (fields : List (Field T)) (key : String) : Option (Field T) :=
  match fields.find? (fun f => decide (f.name = key)) with
  | some f => some f
  | none => fields.find? (fun f => decide (foldName f.name = foldName key))

/-- Decoding the members of a JSON object into a struct value, in document
order: a member whose key names a field is decoded into that field, any other
member is skipped. -/
def objectInto {T : Type} (fields : List (Field T)) (cur : T) : List (String × Json) → Option T
  | [] => some cur
  | (k, v) :: rest =>
    match findField fields k with
    | none => objectInto fields cur rest
    | some f =>
      match f.set cur v with
      | none => none
      | some next => objectInto fields next rest

/-- Decoding a JSON value into a struct: `null` leaves it unchanged, an object
is decoded member by member, anything else is a type error. -/
def unmarshalStruct {T : Type} (fields : List (Field T)) (cur : T) : Json → Option T
  | .null => some cur
  | .obj members => objectInto fields cur members
  | _ => none

/-- Decoding into a `string` field. -/
def unmarshalString (cur : String) : Json → Option String
  | .null => some cur
  | .str s => some s
  | _ => none

/-- Decoding into an `int64` field. -/
def unmarshalInt64 (cur : Int) : Json → Option Int
  | .null => some cur
  | .num n => parseInt64 n
  | _ => none

/-- Decoding into a `float64` field. -/
def unmarshalFloat64 {F : Type} (lib : FloatLib F) (cur : F) : Json → Option F
  | .null => some cur
  | .num n => lib.parse n
  | _ => none

/-- Decoding the elements of a JSON array into a slice, given what the backing
array of the slice holds from index 0 on: element `i` is decoded into the value
already stored at index `i`, or into a zero value when the backing array is
shorter. -/
def decodeElems {T : Type} (elem : T → Json → Option T) (zero : T) :
    List T → List Json → Option (List T)
  | _, [] => some []
  | backing, j :: rest =>
    match elem (backing.headD zero) j with
    | none => none
    | some x =>
      match decodeElems elem zero backing.tail rest with
      | none => none
      | some xs => some (x :: xs)

/-- Decoding into a slice field whose backing array holds `backing`: the new
elements and what the backing array keeps beyond the new length. `null` gives
the nil slice and an empty array a fresh empty slice; a non-empty array is
decoded in place and the slice is cut or grown to its length. -/
def unmarshalSlice {T : Type} (elem : T → Json → Option T) (zero : T) (backing : List T) :
    Json → Option (List T × List T)
  | .null => some ([], [])
  | .arr [] => some ([], [])
  | .arr elems =>
    match decodeElems elem zero backing elems with
    | none => none
    | some xs => some (xs, backing.drop xs.length)
  | _ => none

/-! ## The JSON-tagged types of `main.go` -/

/-- The anonymous struct `respData` of `accessToken`. -/
structure TokenResp where
  AccessToken : String
deriving DecidableEq, Repr

/-- The struct `Timestamp struct { Value int64 }` of `deviceData`; its field
has no tag, so its JSON name is `Value`. -/
structure IntValue where
  Value : Int
deriving DecidableEq, Repr

/-- The structs `struct { Value float64 }` of `deviceData`, tagged `value`. -/
structure FloatValue (F : Type) where
  Value : F
deriving DecidableEq, Repr

/-- The struct `Info` of a device entry. -/
structure DeviceInfo where
  Mac : String
deriving DecidableEq, Repr

/-- The struct `Data` of a device entry. -/
structure DeviceFields (F : Type) where
  Timestamp : IntValue
  Battery : FloatValue F
  Temperature : FloatValue F
  Humidity : FloatValue F
  TVOC : FloatValue F
  CO2 : FloatValue F
  PM25 : FloatValue F
deriving DecidableEq, Repr

/-- One element of `respData.Devices`. -/
structure Device (F : Type) where
  Info : DeviceInfo
  Data : DeviceFields F
deriving DecidableEq, Repr

/-- The anonymous struct `respData` of `deviceData`. `Devices` is the slice as
the program sees it; `spare` is what the backing array of the slice holds
beyond its length, which the decoder reuses when a later `devices` member is
longer. -/
structure DevicesResp (F : Type) where
  Devices : List (Device F)
  spare : List (Device F) := []
deriving DecidableEq, Repr

/-- The type `DeviceData` of `main.go`. -/
structure DeviceData (F : Type) where
  Timestamp : Int
  Battery : F
  Temperature : F
  Humidity : F
  TVOC : F
  CO2 : F
  PM25 : F
deriving DecidableEq, Repr

def TokenResp.zero : TokenResp := { AccessToken := "" }

def TokenResp.fields : List (Field TokenResp) :=
  [{ name := "access_token"
     set := fun s j => (unmarshalString s.AccessToken j).map fun v => { s with AccessToken := v } }]

def IntValue.fields : List (Field IntValue) :=
  [{ name := "Value"
     set := fun s j => (unmarshalInt64 s.Value j).map fun v => { s with Value := v } }]

def FloatValue.fields {F : Type} (lib : FloatLib F) : List (Field (FloatValue F)) :=
  [{ name := "value"
     set := fun s j => (unmarshalFloat64 lib s.Value j).map fun v => { s with Value := v } }]

def DeviceInfo.fields : List (Field DeviceInfo) :=
  [{ name := "mac"
     set := fun s j => (unmarshalString s.Mac j).map fun v => { s with Mac := v } }]

def DeviceFields.fields {F : Type} (lib : FloatLib F) : List (Field (DeviceFields F)) :=
  [{ name := "timestamp"
     set := fun s j => (unmarshalStruct IntValue.fields s.Timestamp j).map
       fun v => { s with Timestamp := v } },
   { name := "battery"
     set := fun s j => (unmarshalStruct (FloatValue.fields lib) s.Battery j).map
       fun v => { s with Battery := v } },
   { name := "temperature"
     set := fun s j => (unmarshalStruct (FloatValue.fields lib) s.Temperature j).map
       fun v => { s with Temperature := v } },
   { name := "humidity"
     set := fun s j => (unmarshalStruct (FloatValue.fields lib) s.Humidity j).map
       fun v => { s with Humidity := v } },
   { name := "tvoc"
     set := fun s j => (unmarshalStruct (FloatValue.fields lib) s.TVOC j).map
       fun v => { s with TVOC := v } },
   { name := "co2"
     set := fun s j => (unmarshalStruct (FloatValue.fields lib) s.CO2 j).map
       fun v => { s with CO2 := v } },
   { name := "pm25"
     set := fun s j => (unmarshalStruct (FloatValue.fields lib) s.PM25 j).map
       fun v => { s with PM25 := v } }]

def Device.fields {F : Type} (lib : FloatLib F) : List (Field (Device F)) :=
  [{ name := "info"
     set := fun s j => (unmarshalStruct DeviceInfo.fields s.Info j).map
       fun v => { s with Info := v } },
   { name := "data"
     set := fun s j => (unmarshalStruct (DeviceFields.fields lib) s.Data j).map
       fun v => { s with Data := v } }]

def FloatValue.zero {F : Type} (lib : FloatLib F) : FloatValue F := { Value := lib.zero }

def DeviceFields.zero {F : Type} (lib : FloatLib F) : DeviceFields F :=
  { Timestamp := { Value := 0 }
    Battery := FloatValue.zero lib
    Temperature := FloatValue.zero lib
    Humidity := FloatValue.zero lib
    TVOC := FloatValue.zero lib
    CO2 := FloatValue.zero lib
    PM25 := FloatValue.zero lib }

def Device.zero {F : Type} (lib : FloatLib F) : Device F :=
  { Info := { Mac := "" }, Data := DeviceFields.zero lib }

def DevicesResp.zero {F : Type} : DevicesResp F := { Devices := [] }

def DevicesResp.fields {F : Type} (lib : FloatLib F) : List (Field (DevicesResp F)) :=
  [{ name := "devices"
     set := fun s j =>
       (unmarshalSlice (unmarshalStruct (Device.fields lib)) (Device.zero lib)
         (s.Devices ++ s.spare) j).map fun v => { Devices := v.1, spare := v.2 } }]

/-- The fields of `DeviceData` as the decoder sees them (used to read a
published payload back). -/
def DeviceData.fields {F : Type} (lib : FloatLib F) : List (Field (DeviceData F)) :=
  [{ name := "timestamp"
     set := fun s j => (unmarshalInt64 s.Timestamp j).map fun v => { s with Timestamp := v } },
   { name := "battery"
     set := fun s j => (unmarshalFloat64 lib s.Battery j).map fun v => { s with Battery := v } },
   { name := "temperature"
     set := fun s j => (unmarshalFloat64 lib s.Temperature j).map
       fun v => { s with Temperature := v } },
   { name := "humidity"
     set := fun s j => (unmarshalFloat64 lib s.Humidity j).map fun v => { s with Humidity := v } },
   { name := "tvoc"
     set := fun s j => (unmarshalFloat64 lib s.TVOC j).map fun v => { s with TVOC := v } },
   { name := "co2"
     set := fun s j => (unmarshalFloat64 lib s.CO2 j).map fun v => { s with CO2 := v } },
   { name := "pm25"
     set := fun s j => (unmarshalFloat64 lib s.PM25 j).map fun v => { s with PM25 := v } }]

def DeviceData.zero {F : Type} (lib : FloatLib F) : DeviceData F :=
  { Timestamp := 0, Battery := lib.zero, Temperature := lib.zero, Humidity := lib.zero,
    TVOC := lib.zero, CO2 := lib.zero, PM25 := lib.zero }

/-- A response body as `json.Unmarshal` sees it: bytes that are not one valid
JSON document, or a JSON value. -/
inductive Body where
  | malformed
  | json (j : Json)

/-- The call `json.Unmarshal(body, &v)` for a struct `v`: the scanner rejects a
document nested deeper than `maxNestingDepth` before anything is decoded. -/
def jsonUnmarshal {T : Type} (fields : List (Field T)) (cur : T) : Body → Except GoError T
  | .malformed => .error (.lib "json: syntax error")
  | .json j =>
    if maxNestingDepth < j.depth then .error (.lib "json: exceeded max depth")
    else
      match unmarshalStruct fields cur j with
      | none => .error (.lib "json: cannot unmarshal value into Go value")
      | some v => .ok v

/-! ## `json.Marshal` of a `DeviceData` -/

/-- The members `json.Marshal` writes for a `DeviceData`, in field order;
`none` when a `float64` field cannot be encoded. -/
def DeviceData.members {F : Type} (lib : FloatLib F) (d : DeviceData F) :
    Option (List (String × NumLit)) :=
  match lib.format d.Battery, lib.format d.Temperature, lib.format d.Humidity,
      lib.format d.TVOC, lib.format d.CO2, lib.format d.PM25 with
  | some b, some te, some h, some v, some c, some p =>
    some [("timestamp", NumLit.ofInt d.Timestamp), ("battery", b), ("temperature", te),
      ("humidity", h), ("tvoc", v), ("co2", c), ("pm25", p)]
  | _, _, _, _, _, _ => none

/-- The number written by a list of decimal digits. -/
def digitsValue (ds : List (Fin 10)) : Nat := ds.foldl (fun a d => a * 10 + d.val) 0

/-- The decimal digits of a number, most significant first, put in front of
`acc`. -/
def decDigitsAux : Nat → Nat → List (Fin 10) → List (Fin 10)
  | 0, _, acc => acc
  | fuel + 1, n, acc =>
    if n < 10 then ⟨n % 10, Nat.mod_lt _ (by decide)⟩ :: acc
    else decDigitsAux fuel (n / 10) (⟨n % 10, Nat.mod_lt _ (by decide)⟩ :: acc)

/-- The decimal digits of a number, most significant first, without leading
zeros (`0` has the single digit 0). -/
def decDigits (n : Nat) : List (Fin 10) := decDigitsAux (n + 1) n []

/-- The character of a decimal digit. -/
def digitChar (d : Fin 10) : Char := Char.ofNat (48 + d.val)

/-- The decimal text of a natural number. -/
def natText (n : Nat) : List Char := (decDigits n).map digitChar

/-- The text of a number literal as the encoder writes it. -/
def NumLit.render (n : NumLit) : List Char :=
  (if n.neg then ['-'] else []) ++ natText n.int ++
  (if n.frac = [] then [] else '.' :: n.frac.map digitChar) ++
  (match n.exp with
   | none => []
   | some e => 'e' :: (if e < 0 then '-' else '+') :: natText e.natAbs)

/-- The text of the members of an object, separated by commas. -/
def renderMembers : List (String × NumLit) → List Char
  | [] => []
  | [(k, n)] => '"' :: k.data ++ '"' :: ':' :: n.render
  | (k, n) :: rest => '"' :: k.data ++ '"' :: ':' :: n.render ++ ',' :: renderMembers rest

/-- The text of a JSON object with number members. -/
def renderObject (ms : List (String × NumLit)) : String :=
  String.mk ('\x7b' :: renderMembers ms ++ ['\x7d'])

/-- The JSON value of an object with number members. -/
def objectValue (ms : List (String × NumLit)) : Json :=
  .obj (ms.map fun m => (m.1, Json.num m.2))

/-- The call `json.Marshal(deviceData)`: the payload bytes, or `none` on an
encoding error. -/
def jsonMarshal {F : Type} (lib : FloatLib F) (d : DeviceData F) : Option String :=
  (d.members lib).map renderObject

/-! ## Go maps with string keys -/

/-- A Go `map[string]V`: its entries, one per key. Iteration order is not part
of the value (see `World.rangeOrder`). -/
abbrev GoMap (V : Type) := List (String × V)

/-- The statement `m[k] = v`. -/
def GoMap.set {V : Type} : GoMap V → String → V → GoMap V
  | [], k, v => [(k, v)]
  | (k0, v0) :: rest, k, v =>
    if k0 = k then (k, v) :: rest else (k0, v0) :: GoMap.set rest k v

/-- The lookup `m[k]` with its presence flag. -/
def GoMap.get? {V : Type} : GoMap V → String → Option V
  | [], _ => none
  | (k0, v0) :: rest, k => if k0 = k then some v0 else GoMap.get? rest k

/-- The keys of a map. -/
def GoMap.keys {V : Type} (m : GoMap V) : List String := m.map Prod.fst

/-- The value `len(m)`. -/
def GoMap.len {V : Type} (m : GoMap V) : Nat := m.length

/-! ## Bytes, `net/url` and `encoding/base64` -/

/-- The bytes of a Go string. -/
def goBytes (s : String) : List Nat :=
  (s.data.map fun c => (String.utf8EncodeChar c).map UInt8.toNat).flatten

def upperHex : List Char := "0123456789ABCDEF".data

/-- The predicate `shouldEscape(c, encodeQueryComponent)` of `net/url`, on a
byte that is not a space. -/
def shouldEscape (b : Nat) : Bool :=
  !((97 ≤ b ∧ b ≤ 122) ∨ (65 ≤ b ∧ b ≤ 90) ∨ (48 ≤ b ∧ b ≤ 57) ∨
    b = 45 ∨ b = 95 ∨ b = 46 ∨ b = 126)

/-- The function `url.QueryEscape`. -/
def queryEscape (s : String) : List Char :=
  ((goBytes s).map fun b =>
    if b = 32 then ['+']
    else if shouldEscape b then ['%', upperHex.getD (b / 16) '0', upperHex.getD (b % 16) '0']
    else [Char.ofNat b]).flatten

/-- A `url.Values`: each key with its list of values. -/
abbrev Values := List (String × List String)

/-- The method `Values.Set`: the key gets the single value, replacing what it
had. -/
def Values.set : Values → String → String → Values
  | [], k, v => [(k, [v])]
  | (k0, vs0) :: rest, k, v =>
    if k0 = k then (k, [v]) :: rest else (k0, vs0) :: Values.set rest k v

/-- The pairs `key=value` of one key, each preceded by `&`. -/
def encodePairs (key : String) : List String → List Char
  | [] => []
  | v :: vs => '&' :: queryEscape key ++ '=' :: queryEscape v ++ encodePairs key vs

/-- The method `Values.Encode`: the pairs sorted by key, joined by `&`. -/
def Values.encode (vs : Values) : String :=
  let sorted := vs.insertionSort fun a b => a.1.data ≤ b.1.data
  String.mk ((sorted.map fun kv => encodePairs kv.1 kv.2).flatten.drop 1)

/-- The alphabet of `base64.StdEncoding`. -/
def encodeStd : List Char :=
  "ABCDEFGHIJKLMNOPQRSTUVWXYZabcdefghijklmnopqrstuvwxyz0123456789+/".data

/-- The character of a 6-bit value. -/
def encChar (i : Nat) : Char := encodeStd.getD (i % 64) 'A'

/-- The method `StdEncoding.EncodeToString`: three bytes become four
characters; a last group of one or two bytes is padded with `=`. -/
def base64Encode : List Nat → List Char
  | a :: b :: c :: rest =>
    let val := a * 65536 + b * 256 + c
    encChar (val / 262144) :: encChar (val / 4096) :: encChar (val / 64) :: encChar val ::
      base64Encode rest
  | [a, b] =>
    let val := a * 65536 + b * 256
    [encChar (val / 262144), encChar (val / 4096), encChar (val / 64), '=']
  | [a] =>
    let val := a * 65536
    [encChar (val / 262144), encChar (val / 4096), '=', '=']
  | [] => []

/-- The 6-bit value of a character of the alphabet. -/
def decChar (c : Char) : Option Nat :=
  let i := encodeStd.indexOf c
  if i < 64 then some i else none

/-- The method `StdEncoding.DecodeString` on text without line breaks: four
characters become three bytes; padding is accepted in the last group only. -/
def base64Decode : List Char → Option (List Nat)
  | [] => some []
  | c0 :: c1 :: c2 :: c3 :: rest =>
    match decChar c0, decChar c1 with
    | some i0, some i1 =>
      if c3 = '=' ∧ rest = [] then
        if c2 = '=' then some [(i0 * 64 + i1) / 16]
        else
          match decChar c2 with
          | some i2 =>
            let val := i0 * 4096 + i1 * 64 + i2
            some [val / 1024, val / 4 % 256]
          | none => none
      else
        match decChar c2, decChar c3, base64Decode rest with
        | some i2, some i3, some bytes =>
          let val := i0 * 262144 + i1 * 4096 + i2 * 64 + i3
          some (val / 65536 :: val / 256 % 256 :: val % 256 :: bytes)
        | _, _, _ => none
    | _, _ => none
  | _ => none

/-! ## Effects and the world -/

/-- An `http.Request` as built by the program. -/
structure Request where
  method : String
  url : String
  body : Option String
  header : List (String × String)
deriving DecidableEq, Repr

/-- The method `Header.Add` on a request. -/
def Request.addHeader (r : Request) (key value : String) : Request :=
  { r with header := r.header ++ [(key, value)] }

/-- The values of a header key. -/
def Request.headerValues (r : Request) (key : String) : List String :=
  (r.header.filter fun kv => decide (kv.1 = key)).map Prod.snd

/-- What `(&http.Client{}).Do(req)` followed by `ioutil.ReadAll(resp.Body)`
gives. The status code is not looked at by the program. -/
inductive HttpOutcome where
  | doError (err : GoError)
  | readError (err : GoError)
  | body (b : Body)

/-- The options set on the MQTT client. -/
structure ClientOptions where
  broker : String
  clientID : String
  username : String
  password : String
deriving DecidableEq, Repr

/-- The arguments of one `client.Publish` call. -/
structure Message where
  topic : String
  qos : Nat
  retained : Bool
  payload : String
deriving DecidableEq, Repr

/-- An effect of the program, in the order performed. Log events carry the
format string of the call; a publish carries the error of its token (`none`
when the broker acknowledged the message). -/
inductive Event where
  | logInfo (format : String)
  | logError (err : GoError) (format : String)
  | httpDo (req : Request)
  | mqttConnect (opts : ClientOptions)
  | mqttPublish (msg : Message) (result : Option GoError)
deriving DecidableEq, Repr

/-- Everything outside the program during one cycle. -/
structure World (F : Type) where
  /-- The error of `http.NewRequest(method, url, body)`, if any. -/
  newRequest : String → String → Option GoError
  /-- The answer to a request. -/
  httpDo : Request → HttpOutcome
  /-- The value `time.Now().UnixNano()`. -/
  nowUnixNano : Int
  /-- The value `uuid.New().String()`. -/
  uuid : String
  /-- The error of the connect token, if any. -/
  connect : ClientOptions → Option GoError
  /-- The error of a publish token, if any. -/
  publish : Message → Option GoError
  /-- The order in which `range` visits the entries of a map. -/
  rangeOrder : GoMap (DeviceData F) → List (String × DeviceData F)

/-- The variables of `main` captured by the cron closure. -/
structure Config where
  appKey : String
  appSecret : String
  mqttHost : String
  mqttPort : Int
  mqttUsername : String
  mqttPassword : String
deriving DecidableEq, Repr

/-! ## `accessToken` -/

def tokenURL : String := "https://oauth.cleargrass.com/oauth2/token"

/-- The request `accessToken` sends (lines 86 to 95). -/
def accessTokenRequest (appKey appSecret : String) : Request :=
  let params : Values := []
  let params := params.set "grant_type" "client_credentials"
  let params := params.set "scope" "device_full_access"
  let req : Request :=
    { method := "POST", url := tokenURL, body := some params.encode, header := [] }
  let authToken := String.mk (base64Encode (goBytes (appKey ++ ":" ++ appSecret)))
  let req := req.addHeader "Authorization" ("Basic " ++ authToken)
  req.addHeader "Content-Type" "application/x-www-form-urlencoded; charset=utf-8"

/-- The function `accessToken` of `main.go`: its two results and its effects. -/
def accessToken {F : Type} (w : World F) (appKey appSecret : String) :
    (String × Option GoError) × List Event :=
  match w.newRequest "POST" tokenURL with
  | some err => (("", some (.wrap err "new http request error")), [])
  | none =>
    let req := accessTokenRequest appKey appSecret
    match w.httpDo req with
    | .doError err => (("", some (.wrap err "http post error")), [.httpDo req])
    | .readError err => (("", some (.wrap err "read response body error")), [.httpDo req])
    | .body respBody =>
      let evs := [Event.httpDo req, Event.logInfo "access token response:%v"]
      match jsonUnmarshal TokenResp.fields TokenResp.zero respBody with
      | .error err => (("", some (.wrap err "response body decode error")), evs)
      | .ok respData =>
        if respData.AccessToken = "" then (("", some (.new "access token not found")), evs)
        else ((respData.AccessToken, none), evs)

/-! ## `deviceData` -/

/-- The composite literal of lines 173 to 181. -/
def Device.flatten {F : Type} (v : Device F) : DeviceData F :=
  { Timestamp := v.Data.Timestamp.Value
    Battery := v.Data.Battery.Value
    Temperature := v.Data.Temperature.Value
    Humidity := v.Data.Humidity.Value
    TVOC := v.Data.TVOC.Value
    CO2 := v.Data.CO2.Value
    PM25 := v.Data.PM25.Value }

/-- The loop of lines 171 to 182, started from the map `m`. -/
def fillMap {F : Type} (m : GoMap (DeviceData F)) : List (Device F) → GoMap (DeviceData F)
  | [] => m
  | v :: rest => fillMap (m.set v.Info.Mac v.flatten) rest

/-- The request `deviceData` sends (lines 119 to 124). -/
def deviceDataRequest (nowUnixNano : Int) (accessToken : String) : Request :=
  let timestamp := Int.tdiv nowUnixNano 1000000
  let req : Request :=
    { method := "GET"
      url := "https://apis.cleargrass.com/v1/apis/devices?timestamp=" ++ toString timestamp
      body := none, header := [] }
  req.addHeader "Authorization" ("Bearer " ++ accessToken)

/-- The function `deviceData` of `main.go`: its two results (`none` is the nil
map) and its effects. -/
def deviceData {F : Type} (lib : FloatLib F) (w : World F) (accessToken : String) :
    (Option (GoMap (DeviceData F)) × Option GoError) × List Event :=
  let req := deviceDataRequest w.nowUnixNano accessToken
  match w.newRequest "GET" req.url with
  | some err => ((none, some (.wrap err "new http request error")), [])
  | none =>
    match w.httpDo req with
    | .doError err => ((none, some (.wrap err "http get error")), [.httpDo req])
    | .readError err => ((none, some (.wrap err "read response body error")), [.httpDo req])
    | .body respBody =>
      let evs := [Event.httpDo req, Event.logInfo "device list response:%v"]
      match jsonUnmarshal (DevicesResp.fields lib) DevicesResp.zero respBody with
      | .error err => ((none, some (.wrap err "response body decode error")), evs)
      | .ok respData =>
        if respData.Devices.length = 0 then ((none, some (.new "device not found")), evs)
        else ((some (fillMap [] respData.Devices), none), evs)

/-! ## The cron closure of `main` -/

/-- The topic of a device. -/
def topicOf (mac : String) : String := "qingping/data/" ++ mac

/-- The publish loop of lines 59 to 73 over the entries in the order `range`
yields them. -/
def publishLoop {F : Type} (lib : FloatLib F) (w : World F) :
    List (String × DeviceData F) → List Event
  | [] => []
  | (mac, deviceData) :: rest =>
    match jsonMarshal lib deviceData with
    | none =>
      .logError (.lib "json: unsupported value") "payload json encode error" ::
        publishLoop lib w rest
    | some data =>
      let msg : Message := { topic := topicOf mac, qos := 1, retained := false, payload := data }
      match w.publish msg with
      | some err =>
        .mqttPublish msg (some err) :: .logError err "mqtt publish error mac:%v" ::
          publishLoop lib w rest
      | none =>
        .mqttPublish msg none :: .logInfo "mqtt publish done mac:%v payload:%v" ::
          publishLoop lib w rest

/-- The entries `range` visits: none for the nil map. -/
def rangeOf {F : Type} (w : World F) : Option (GoMap (DeviceData F)) → List (String × DeviceData F)
  | none => []
  | some m => w.rangeOrder m

/-- The client options of lines 45 to 49. -/
def clientOptions {F : Type} (cfg : Config) (w : World F) : ClientOptions :=
  { broker := "tcp://" ++ cfg.mqttHost ++ ":" ++ toString cfg.mqttPort
    clientID := "qcm-" ++ w.uuid
    username := cfg.mqttUsername
    password := cfg.mqttPassword }

/-- One run of the function registered with cron (lines 31 to 75): the
effects of the cycle, in order. -/
def cycle {F : Type} (lib : FloatLib F) (cfg : Config) (w : World F) : List Event :=
  let tok := accessToken w cfg.appKey cfg.appSecret
  .logInfo "fetch data begin" :: tok.2 ++
  match tok.1.2 with
  | some err => [.logError err "fetch access token error"]
  | none =>
    let dev := deviceData lib w tok.1.1
    .logInfo "access token:%v" :: dev.2 ++
    match dev.1.2 with
    | some err => [.logError err "fetch device data error"]
    | none =>
      let opts := clientOptions cfg w
      .logInfo "device data:%+v" :: .mqttConnect opts ::
      match w.connect opts with
      | some err => [.logError err "mqtt connect error"]
      | none =>
        .logInfo "mqtt connect done" :: publishLoop lib w (rangeOf w dev.1.1) ++
          [.logInfo "fetch data end"]

/-- The publish calls of a trace, with their results. -/
def publishes : List Event → List (Message × Option GoError)
  | [] => []
  | .mqttPublish msg result :: rest => (msg, result) :: publishes rest
  | _ :: rest => publishes rest

/-- The messages of a trace that the broker acknowledged. -/
def delivered (evs : List Event) : List Message :=
  ((publishes evs).filter fun p => p.2.isNone).map Prod.fst

/-- The requests of a trace. -/
def requests : List Event → List Request
  | [] => []
  | .httpDo req :: rest => req :: requests rest
  | _ :: rest => requests rest

/-- The connection attempts of a trace. -/
def connects : List Event → List ClientOptions
  | [] => []
  | .mqttConnect opts :: rest => opts :: connects rest
  | _ :: rest => connects rest

/-! ## The binary64 instance of the float conversions -/

/-- A `float64` value; a finite one is `(-1)^neg * mant * 2^exp` with
`mant < 2^53` and `-1074 ≤ exp ≤ 971`. -/
inductive Binary64 where
  | finite (neg : Bool) (mant : Nat) (exp : Int)
  | inf (neg : Bool)
  | nan
deriving DecidableEq, Repr

/-- The position of the highest set bit: `log2Aux n n` is `⌊log₂ n⌋` for
`n > 0`. -/
def log2Aux : Nat → Nat → Nat
  | 0, _ => 0
  | fuel + 1, n => if 2 ≤ n then log2Aux fuel (n / 2) + 1 else 0

def log2 (n : Nat) : Nat := log2Aux n n

/-- Whether `num / den ≥ base ^ k`. -/
def gePow (base num den : Nat) (k : Int) : Bool :=
  if 0 ≤ k then decide (den * base ^ k.toNat ≤ num) else decide (den ≤ num * base ^ (-k).toNat)

/-- The exponent `⌊log₂ (num / den)⌋` of a positive rational. -/
def floorLog2 (num den : Nat) : Int :=
  let l : Int := (log2 num : Int) - (log2 den : Int)
  if gePow 2 num den l then l else l - 1

/-- The integer nearest to `n / d`, ties to even, as the mantissa of
`(n / d) * 2 ^ ex`: a mantissa that reaches `2 ^ 53` is halved, and the result
is `none` beyond the largest finite value. -/
def roundQuotient (n d : Nat) (ex : Int) : Option (Nat × Int) :=
  let q := n / d
  let r := n % d
  let q := if d < 2 * r ∨ (2 * r = d ∧ q % 2 = 1) then q + 1 else q
  let ex := if q = 2 ^ 53 then ex + 1 else ex
  let q := if q = 2 ^ 53 then 2 ^ 52 else q
  if 971 < ex then none else some (q, ex)

/-- The fraction `(num / den) / 2 ^ ex` as a numerator and a denominator. -/
def scaleBy (num den : Nat) (ex : Int) : Nat × Nat :=
  if 0 ≤ ex then (num, den * 2 ^ ex.toNat) else (num * 2 ^ (-ex).toNat, den)

/-- The mantissa and exponent of the `float64` nearest to the rational
`num / den` (`den > 0`), ties to even; `none` when it is beyond the largest
finite value. -/
def roundMagnitude (num den : Nat) : Option (Nat × Int) :=
  if num = 0 then some (0, -1074)
  else
    let ex : Int := max (floorLog2 num den - 52) (-1074)
    roundQuotient (scaleBy num den ex).1 (scaleBy num den ex).2 ex

/-- The mantissa and exponent of the `float64` nearest to `digits * 10 ^ e10`. -/
def decimalMagnitude (digits : Nat) (e10 : Int) : Option (Nat × Int) :=
  if 0 ≤ e10 then roundMagnitude (digits * 10 ^ e10.toNat) 1
  else roundMagnitude digits (10 ^ (-e10).toNat)

/-- The nearest `float64` of `digits * 10 ^ e10` with the given sign. -/
def roundDecimal (neg : Bool) (digits : Nat) (e10 : Int) : Option Binary64 :=
  (decimalMagnitude digits e10).map fun m => .finite neg m.1 m.2

/-- The function `strconv.ParseFloat(lit, 64)` on a JSON number literal:
correctly rounded, an error (`none`) on overflow only. -/
def parseFloat64 (n : NumLit) : Option Binary64 :=
  roundDecimal n.neg (n.int * 10 ^ n.frac.length + digitsValue n.frac)
    (n.exp.getD 0 - (n.frac.length : Int))

/-- The shortest decimal `d * 10 ^ k` that parses back to the positive value
`mant * 2 ^ exp`, the closest one to the value when there are two of that
length. `p` is the decimal exponent of the value; lengths `n`, `n + 1`, ... are
tried, `fuel` of them (17 digits always suffice for a `float64`); past them
the exact decimal expansion of the value is taken. -/
def shortestAux (mant : Nat) (exp : Int) (p : Int) : Nat → Nat → Nat × Int
  | 0, _ => if 0 ≤ exp then (mant * 2 ^ exp.toNat, 0) else (mant * 5 ^ (-exp).toNat, exp)
  | fuel + 1, n =>
    let k : Int := p - (n : Int) + 1
    let vn := if 0 ≤ exp then mant * 2 ^ exp.toNat else mant
    let vd := if 0 ≤ exp then 1 else 2 ^ (-exp).toNat
    let un := if 0 ≤ k then vn else vn * 10 ^ (-k).toNat
    let ud := if 0 ≤ k then vd * 10 ^ k.toNat else vd
    let lo := un / ud
    let r := un % ud
    let okLo := decide (roundDecimal false lo k = some (.finite false mant exp))
    let okHi := decide (roundDecimal false (lo + 1) k = some (.finite false mant exp))
    let nearHi := decide (ud < 2 * r ∨ (2 * r = ud ∧ lo % 2 = 1))
    if okLo && okHi then (if nearHi then (lo + 1, k) else (lo, k))
    else if okLo then (lo, k)
    else if okHi then (lo + 1, k)
    else shortestAux mant exp p fuel (n + 1)

/-- Removing the trailing zeros of `d * 10 ^ k`. -/
def stripZeros : Nat → Nat → Int → Nat × Int
  | 0, d, k => (d, k)
  | fuel + 1, d, k => if d ≠ 0 ∧ d % 10 = 0 then stripZeros fuel (d / 10) (k + 1) else (d, k)

/-- The shortest digits of a positive finite value and the exponent of their
last digit. -/
def shortest (mant : Nat) (exp : Int) : Nat × Int :=
  let b : Int := (log2 mant : Int) + exp
  let est : Int := b * 30103 / 100000
  let vn := if 0 ≤ exp then mant * 2 ^ exp.toNat else mant
  let vd := if 0 ≤ exp then 1 else 2 ^ (-exp).toNat
  let p : Int :=
    if gePow 10 vn vd (est + 1) then est + 1 else if gePow 10 vn vd est then est else est - 1
  let dk := shortestAux mant exp p 17 1
  stripZeros 20 dk.1 dk.2

/-- The literal the encoder writes for the digits `d` with last-digit exponent
`k`: in the `e` format when the value is below `1e-6` or at least `1e21`, in
the `f` format otherwise. -/
def layoutDigits (neg : Bool) (d : Nat) (k : Int) : NumLit :=
  let ds := decDigits d
  let dp : Int := k + (ds.length : Int)
  if dp - 1 < -6 ∨ 21 ≤ dp - 1 then
    { neg := neg, int := (ds.headD 0).val, frac := ds.drop 1, exp := some (dp - 1) }
  else if dp ≤ 0 then
    { neg := neg, int := 0, frac := List.replicate (-dp).toNat 0 ++ ds, exp := none }
  else if (ds.length : Int) ≤ dp then
    { neg := neg, int := d * 10 ^ k.toNat, frac := [], exp := none }
  else
    { neg := neg, int := digitsValue (ds.take dp.toNat), frac := ds.drop dp.toNat, exp := none }

/-- The `float64` encoder of `encoding/json`: the shortest digits that parse
back to the value, laid out by `layoutDigits`; NaN and the infinities are
rejected. -/
def formatFloat64 : Binary64 → Option NumLit
  | .nan => none
  | .inf _ => none
  | .finite neg mant exp =>
    if mant = 0 then some { neg := neg, int := 0, frac := [], exp := none }
    else some (layoutDigits neg (shortest mant exp).1 (shortest mant exp).2)

/-- The mantissa and exponent of a finite `float64`: the mantissa is below
`2 ^ 53`, the exponent between -1074 and 971, and the mantissa is at least
`2 ^ 52` unless the exponent is the smallest one (subnormal values and zero). -/
def IsBinary64 (mant : Nat) (exp : Int) : Prop :=
  mant < 2 ^ 53 ∧ -1074 ≤ exp ∧ exp ≤ 971 ∧ (2 ^ 52 ≤ mant ∨ exp = -1074)

/-- The conversions of `strconv` for `float64`. -/
def strconv64 : FloatLib Binary64 :=
  { zero := .finite false 0 (-1074), parse := parseFloat64, format := formatFloat64 }

/-! ## Concrete worlds -/

/-- A world in which request construction, the connection and every publish
succeed, the token endpoint answers `tokenBody` and the device endpoint
answers `deviceBody`. -/
def quietWorld (F : Type) (tokenBody deviceBody : Body) : World F :=
  { newRequest := fun _ _ => none
    httpDo := fun req => if req.method = "POST" then .body tokenBody else .body deviceBody
    nowUnixNano := 1700000000123456789
    uuid := "6ba7b810-9dad-41d1-80b4-00c04fd430c8"
    connect := fun _ => none
    publish := fun _ => none
    rangeOrder := fun m => m }

/-- The token response `{"access_token":"tok123","ACCESS_TOKEN":"other"}`. -/
def twoTokenMembers : List (String × Json) :=
  [("access_token", .str "tok123"), ("ACCESS_TOKEN", .str "other")]

/-- The token response `{"ACCESS_TOKEN":"x"}`. -/
def upperTokenMembers : List (String × Json) := [("ACCESS_TOKEN", .str "x")]

/-- The token response `{"token_type":"bearer","access_token":"tok123","expires_in":7200}`. -/
def plainTokenMembers : List (String × Json) :=
  [("token_type", .str "bearer"), ("access_token", .str "tok123"),
   ("expires_in", .num (NumLit.ofInt 7200))]

/-! ## The device entry shape of the API -/

/-- A device entry of the shape
`{"info":{"mac":m},"data":{"timestamp":{"value":t},"battery":{"value":b},...}}`,
given by its address and its seven number literals. -/
structure EntryShape where
  mac : String
  timestamp : NumLit
  battery : NumLit
  temperature : NumLit
  humidity : NumLit
  tvoc : NumLit
  co2 : NumLit
  pm25 : NumLit
deriving DecidableEq, Repr

/-- The JSON value of an entry of that shape. -/
def EntryShape.json (e : EntryShape) : Json :=
  .obj [("info", .obj [("mac", .str e.mac)]),
        ("data", .obj [("timestamp", .obj [("value", .num e.timestamp)]),
                       ("battery", .obj [("value", .num e.battery)]),
                       ("temperature", .obj [("value", .num e.temperature)]),
                       ("humidity", .obj [("value", .num e.humidity)]),
                       ("tvoc", .obj [("value", .num e.tvoc)]),
                       ("co2", .obj [("value", .num e.co2)]),
                       ("pm25", .obj [("value", .num e.pm25)])])]

/-- The record `DeviceData{Timestamp:t, Battery:b, ...}` of an entry of that
shape: each field is the value of its literal (`none` when a literal is not a
value of the field type). -/
def EntryShape.record {F : Type} (lib : FloatLib F) (e : EntryShape) : Option (DeviceData F) :=
  match parseInt64 e.timestamp, lib.parse e.battery, lib.parse e.temperature,
      lib.parse e.humidity, lib.parse e.tvoc, lib.parse e.co2, lib.parse e.pm25 with
  | some t, some b, some te, some h, some v, some c, some p =>
    some { Timestamp := t, Battery := b, Temperature := te, Humidity := h, TVOC := v,
           CO2 := c, PM25 := p }
  | _, _, _, _, _, _, _ => none

/-- The device response `{"devices":[...]}` with the given entries. -/
def devicesBody (entries : List EntryShape) : Body :=
  .json (.obj [("devices", .arr (entries.map EntryShape.json))])

/-- The device entry with the given address and readings. -/
def Device.ofRecord {F : Type} (mac : String) (r : DeviceData F) : Device F :=
  { Info := { Mac := mac }
    Data :=
      { Timestamp := { Value := r.Timestamp }
        Battery := { Value := r.Battery }
        Temperature := { Value := r.Temperature }
        Humidity := { Value := r.Humidity }
        TVOC := { Value := r.TVOC }
        CO2 := { Value := r.CO2 }
        PM25 := { Value := r.PM25 } } }

/-- A number literal without exponent. -/
def decimalLit (int : Nat) (frac : List (Fin 10)) : NumLit :=
  { neg := false, int := int, frac := frac, exp := none }

/-- Three device entries, the first and the last with the same address. -/
def sampleEntries : List EntryShape :=
  [{ mac := "AA:BB", timestamp := decimalLit 1700000000000 [], battery := decimalLit 87 [5],
     temperature := decimalLit 21 [5], humidity := decimalLit 40 [], tvoc := decimalLit 0 [1],
     co2 := decimalLit 500 [], pm25 := decimalLit 5 [] },
   { mac := "CC:DD", timestamp := decimalLit 1700000000500 [], battery := decimalLit 12 [],
     temperature := decimalLit 19 [2, 5], humidity := decimalLit 55 [], tvoc := decimalLit 0 [3],
     co2 := decimalLit 420 [], pm25 := decimalLit 11 [] },
   { mac := "AA:BB", timestamp := decimalLit 1700000001000 [], battery := decimalLit 86 [],
     temperature := decimalLit 22 [], humidity := decimalLit 41 [], tvoc := decimalLit 0 [2],
     co2 := decimalLit 510 [], pm25 := decimalLit 6 [] }]

/-- The device entries an entry list decodes to. -/
def decodedEntries {F : Type} (lib : FloatLib F) (entries : List EntryShape) : List (Device F) :=
  entries.filterMap fun e => (e.record lib).map (Device.ofRecord e.mac)

/-- The message the loop publishes for a device address and payload. -/
def messageOf (mac data : String) : Message :=
  { topic := topicOf mac, qos := 1, retained := false, payload := data }

/-- What the loop does for one map entry: nothing when serialization fails,
otherwise one publish, with the broker's answer. -/
def attemptOf {F : Type} (lib : FloatLib F) (w : World F) (e : String × DeviceData F) :
    Option (Message × Option GoError) :=
  (jsonMarshal lib e.2).map fun data => (messageOf e.1 data, w.publish (messageOf e.1 data))

/-- A reading with the given battery value. -/
def sampleReading (timestamp : Int) (battery : Binary64) : DeviceData Binary64 :=
  { Timestamp := timestamp, Battery := battery, Temperature := .finite false 6051711999279104 (-48),
    Humidity := strconv64.zero, TVOC := strconv64.zero, CO2 := strconv64.zero,
    PM25 := strconv64.zero }

/-- A map of three devices; the reading of the last one holds a NaN and
cannot be serialized. -/
def sampleMap : GoMap (DeviceData Binary64) :=
  [("AA:BB", sampleReading 1000 (.finite false 6051711999279104 (-46))),
   ("CC:DD", sampleReading 2000 (.finite false 6755399441055744 (-49))),
   ("EE:FF", sampleReading 3000 .nan)]

/-- A world like `quietWorld` whose broker rejects every publish on the topic
of device `AA:BB` and whose `range` visits maps in reverse. -/
def rejectingWorld (tokenBody deviceBody : Body) : World Binary64 :=
  { quietWorld Binary64 tokenBody deviceBody with
    publish := fun msg =>
      if msg.topic = "qingping/data/AA:BB" then some (.lib "broker rejected") else none
    rangeOrder := List.reverse }

/-! ## Values a decoded reading can hold -/

/-- The range of an `int64`. -/
def IsInt64 (t : Int) : Prop := -(2 : Int) ^ 63 ≤ t ∧ t < (2 : Int) ^ 63

/-- A `float64` the decoder can leave in a field: the zero value or the value
of a literal. -/
def IsDecoded {F : Type} (lib : FloatLib F) (x : F) : Prop :=
  x = lib.zero ∨ ∃ lit, lib.parse lit = some x

/-- A reading whose fields are all values the decoder can produce. -/
def DeviceData.Decoded {F : Type} (lib : FloatLib F) (r : DeviceData F) : Prop :=
  IsInt64 r.Timestamp ∧ IsDecoded lib r.Battery ∧ IsDecoded lib r.Temperature ∧
  IsDecoded lib r.Humidity ∧ IsDecoded lib r.TVOC ∧ IsDecoded lib r.CO2 ∧ IsDecoded lib r.PM25

/-- The members of a published payload, in order. -/
def readingMembers (t : Int) (b te h v c p : NumLit) : List (String × NumLit) :=
  [("timestamp", NumLit.ofInt t), ("battery", b), ("temperature", te), ("humidity", h),
   ("tvoc", v), ("co2", c), ("pm25", p)]

/-- A configuration of the bridge. -/
def sampleConfig : Config :=
  { appKey := "key", appSecret := "secret", mqttHost := "localhost", mqttPort := 1883,
    mqttUsername := "user", mqttPassword := "pass" }

/-- A world like `quietWorld` whose broker refuses the connection. -/
def offlineWorld (tokenBody deviceBody : Body) : World Binary64 :=
  { quietWorld Binary64 tokenBody deviceBody with
    connect := fun _ => some (.lib "connection refused") }

/-- A device entry whose data fields are all values the decoder can produce. -/
def Device.Decoded {F : Type} (lib : FloatLib F) (d : Device F) : Prop :=
  d.flatten.Decoded lib

/-! ## The end-to-end scenario -/

/-- The token response `{"access_token":"tok123"}`. -/
def scenarioToken : Body := .json (.obj [("access_token", .str "tok123")])

/-- The device response with the single device
`{"info":{"mac":"11:22:33"},"data":{"timestamp":{"Value":1000},"battery":{"value":90},
"temperature":{"value":21.5},"humidity":{"value":40},"tvoc":{"value":0.1},
"co2":{"value":500},"pm25":{"value":5}}}`. -/
def scenarioDevices : Body :=
  .json (.obj [("devices", .arr [
    .obj [("info", .obj [("mac", .str "11:22:33")]),
          ("data", .obj [("timestamp", .obj [("Value", .num (decimalLit 1000 []))]),
                         ("battery", .obj [("value", .num (decimalLit 90 []))]),
                         ("temperature", .obj [("value", .num (decimalLit 21 [5]))]),
                         ("humidity", .obj [("value", .num (decimalLit 40 []))]),
                         ("tvoc", .obj [("value", .num (decimalLit 0 [1]))]),
                         ("co2", .obj [("value", .num (decimalLit 500 []))]),
                         ("pm25", .obj [("value", .num (decimalLit 5 []))])])]])])

/-- The reading of the scenario as `float64` values: 90, 21.5, 40, 0.1, 500
and 5. -/
def scenarioReading : DeviceData Binary64 :=
  { Timestamp := 1000
    Battery := .finite false 6333186975989760 (-46)
    Temperature := .finite false 6051711999279104 (-48)
    Humidity := .finite false 5629499534213120 (-47)
    TVOC := .finite false 7205759403792794 (-56)
    CO2 := .finite false 8796093022208000 (-44)
    PM25 := .finite false 5629499534213120 (-50) }

/-- The payload of the scenario. -/
def scenarioPayload : String :=
  "\x7b\"timestamp\":1000,\"battery\":90,\"temperature\":21.5,\"humidity\":40,\"tvoc\":0.1,\"co2\":500,\"pm25\":5\x7d"

/-! ## Tests on JSON values -/

/-- Whether a value is `null` or a string. -/
def Json.isStringOrNull : Json → Bool
  | .null => true
  | .str _ => true
  | _ => false

/-- Whether a value is `null` or the string `s`. -/
def Json.isNullOr (s : String) : Json → Bool
  | .null => true
  | .str t => decide (t = s)
  | _ => false

/-- Whether a value is `null`. -/
def Json.isNull : Json → Bool
  | .null => true
  | _ => false

/-- The value `j` inside `n` nested arrays. -/
def nestArrays : Nat → Json → Json
  | 0, j => j
  | n + 1, j => .arr [nestArrays n j]

/-- The token response `{"x":[[...]],"access_token":"tok123"}` with 10000
nested arrays under `x`. -/
def deepTokenMembers : List (String × Json) :=
  [("x", nestArrays 10000 .null), ("access_token", .str "tok123")]

/-- The token response `{"Access_Token":"old","access_token":"tok123","ACCESS_TOKEN":null}`. -/
def mixedTokenMembers : List (String × Json) :=
  [("Access_Token", .str "old"), ("access_token", .str "tok123"), ("ACCESS_TOKEN", .null)]

/-! ## JSON text -/

/-- JSON white space. -/
def isSpace (c : Char) : Bool := c = ' ' || c = '\t' || c = '\n' || c = '\r'

/-- Dropping leading white space. -/
def skipSpace : List Char → List Char
  | [] => []
  | c :: rest => if isSpace c then skipSpace rest else c :: rest

/-- The decimal digit a character stands for. -/
def digitOf (c : Char) : Option (Fin 10) :=
  if h : 48 ≤ c.toNat ∧ c.toNat ≤ 57 then some ⟨c.toNat - 48, by omega⟩ else none

/-- The longest run of decimal digits at the start of a text, and the rest. -/
def takeDigits : List Char → List (Fin 10) × List Char
  | [] => ([], [])
  | c :: rest =>
    match digitOf c with
    | some d => (d :: (takeDigits rest).1, (takeDigits rest).2)
    | none => ([], c :: rest)

/-- The exponent part of a number, if the text starts with one: `e` or `E`, an
optional sign and at least one digit. -/
def parseExponent : List Char → Option (Option Int × List Char)
  | [] => some (none, [])
  | c :: rest =>
    if c = 'e' ∨ c = 'E' then
      let signed : Bool × List Char :=
        match rest with
        | s :: rest1 => if s = '-' then (true, rest1) else if s = '+' then (false, rest1)
          else (false, rest)
        | [] => (false, rest)
      let ds := takeDigits signed.2
      if ds.1 = [] then none
      else some (some (if signed.1 then -(digitsValue ds.1 : Int) else (digitsValue ds.1 : Int)), ds.2)
    else some (none, c :: rest)

/-- The fraction part of a number, if the text starts with one: a point and at
least one digit. -/
def parseFraction : List Char → Option (List (Fin 10) × List Char)
  | [] => some ([], [])
  | c :: rest =>
    if c = '.' then
      let ds := takeDigits rest
      if ds.1 = [] then none else some ds
    else some ([], c :: rest)

/-- A JSON number at the start of a text: an optional minus sign, an integer
part without leading zeros, an optional fraction and an optional exponent. -/
def parseNumber (s : List Char) : Option (NumLit × List Char) :=
  let signed : Bool × List Char :=
    match s with
    | c :: rest => if c = '-' then (true, rest) else (false, s)
    | [] => (false, s)
  let ds := takeDigits signed.2
  if ds.1 = [] ∨ (ds.1.head? = some 0 ∧ ds.1.length ≠ 1) then none
  else
    match parseFraction ds.2 with
    | none => none
    | some fr =>
      match parseExponent fr.2 with
      | none => none
      | some ex =>
        some ({ neg := signed.1, int := digitsValue ds.1, frac := fr.1, exp := ex.1 }, ex.2)

/-- The value of a hexadecimal digit. -/
def hexVal (c : Char) : Option Nat :=
  if 48 ≤ c.toNat ∧ c.toNat ≤ 57 then some (c.toNat - 48)
  else if 97 ≤ c.toNat ∧ c.toNat ≤ 102 then some (c.toNat - 87)
  else if 65 ≤ c.toNat ∧ c.toNat ≤ 70 then some (c.toNat - 55)
  else none

/-- The value of four hexadecimal digits. -/
def hex4 (a b c d : Char) : Option Nat :=
  match hexVal a, hexVal b, hexVal c, hexVal d with
  | some x, some y, some z, some w => some (x * 4096 + y * 256 + z * 16 + w)
  | _, _, _, _ => none

/-- The character of a one-letter escape. -/
def simpleEscape (c : Char) : Option Char :=
  if c = '"' then some '"'
  else if c = '\\' then some '\\'
  else if c = '/' then some '/'
  else if c = 'b' then some (Char.ofNat 8)
  else if c = 'f' then some (Char.ofNat 12)
  else if c = 'n' then some '\n'
  else if c = 'r' then some '\r'
  else if c = 't' then some '\t'
  else none

/-- The low surrogate escape `\uXXXX` at the start of a text, if there is one. -/
def lowSurrogate : List Char → Option Nat
  | b :: u :: a1 :: b1 :: c1 :: d1 :: _ =>
    if b = '\\' ∧ u = 'u' then
      match hex4 a1 b1 c1 d1 with
      | some lo => if 0xDC00 ≤ lo ∧ lo < 0xE000 then some lo else none
      | none => none
    else none
  | _ => none

/-- One escape, after its backslash: the character it stands for and what
follows it. Escapes are decoded as `encoding/json` does: a surrogate pair gives
one character, a surrogate that is not part of a pair gives U+FFFD. -/
def parseEscape : List Char → Option (Char × List Char)
  | [] => none
  | e :: rest1 =>
    if e = 'u' then
      match rest1 with
      | a :: b :: c2 :: d :: rest2 =>
        match hex4 a b c2 d with
        | none => none
        | some u =>
          if 0xD800 ≤ u ∧ u < 0xDC00 then
            match lowSurrogate rest2 with
            | some lo =>
              some (Char.ofNat (0x10000 + (u - 0xD800) * 0x400 + (lo - 0xDC00)), rest2.drop 6)
            | none => some (Char.ofNat 0xFFFD, rest2)
          else if 0xDC00 ≤ u ∧ u < 0xE000 then some (Char.ofNat 0xFFFD, rest2)
          else some (Char.ofNat u, rest2)
      | _ => none
    else
      match simpleEscape e with
      | some ch => some (ch, rest1)
      | none => none

/-- The rest of a JSON string after its opening quote, up to the closing quote:
the decoded string and what follows it. `acc` holds the characters read so far,
last first; `fuel` bounds the number of characters and escapes read. -/
def parseStringAux : Nat → List Char → List Char → Option (String × List Char)
  | 0, _, _ => none
  | _, [], _ => none
  | fuel + 1, c :: rest, acc =>
    if c = '"' then some (String.mk acc.reverse, rest)
    else if c = '\\' then
      match parseEscape rest with
      | none => none
      | some r => parseStringAux fuel r.2 (r.1 :: acc)
    else if c.toNat < 0x20 then none
    else parseStringAux fuel rest (c :: acc)

/-- The rest of a JSON string after its opening quote. -/
def parseString (s : List Char) : Option (String × List Char) :=
  parseStringAux s.length s []

/-- Whether a text starts with the given characters; the rest when it does. -/
def dropWord : List Char → List Char → Option (List Char)
  | [], s => some s
  | _ :: _, [] => none
  | w :: ws, c :: rest => if c = w then dropWord ws rest else none

mutual
/-- A JSON value at the start of a text, after optional white space, and what
follows it. `fuel` bounds the number of values, elements and members read. -/
def parseValue : Nat → List Char → Option (Json × List Char)
  | 0, _ => none
  | fuel + 1, s =>
    match skipSpace s with
    | [] => none
    | c :: rest =>
      if c = '{' then
        match skipSpace rest with
        | [] => none
        | c1 :: rest1 =>
          if c1 = '}' then some (.obj [], rest1)
          else
            match parseMembers fuel (c1 :: rest1) with
            | none => none
            | some r => some (.obj r.1, r.2)
      else if c = '[' then
        match skipSpace rest with
        | [] => none
        | c1 :: rest1 =>
          if c1 = ']' then some (.arr [], rest1)
          else
            match parseElems fuel (c1 :: rest1) with
            | none => none
            | some r => some (.arr r.1, r.2)
      else if c = '"' then
        match parseString rest with
        | none => none
        | some r => some (.str r.1, r.2)
      else if c = 't' then (dropWord ['r', 'u', 'e'] rest).map fun r => (.bool true, r)
      else if c = 'f' then (dropWord ['a', 'l', 's', 'e'] rest).map fun r => (.bool false, r)
      else if c = 'n' then (dropWord ['u', 'l', 'l'] rest).map fun r => (.null, r)
      else
        match parseNumber (c :: rest) with
        | none => none
        | some r => some (.num r.1, r.2)
/-- The elements of an array, from its first element to its closing bracket. -/
def parseElems : Nat → List Char → Option (List Json × List Char)
  | 0, _ => none
  | fuel + 1, s =>
    match parseValue fuel s with
    | none => none
    | some v =>
      match skipSpace v.2 with
      | [] => none
      | c :: rest =>
        if c = ',' then
          match parseElems fuel rest with
          | none => none
          | some r => some (v.1 :: r.1, r.2)
        else if c = ']' then some ([v.1], rest)
        else none
/-- The members of an object, from its first key to its closing brace. -/
def parseMembers : Nat → List Char → Option (List (String × Json) × List Char)
  | 0, _ => none
  | fuel + 1, s =>
    match skipSpace s with
    | [] => none
    | q :: rest =>
      if q = '"' then
        match parseString rest with
        | none => none
        | some k =>
          match skipSpace k.2 with
          | [] => none
          | c :: rest1 =>
            if c = ':' then
              match parseValue fuel rest1 with
              | none => none
              | some v =>
                match skipSpace v.2 with
                | [] => none
                | c2 :: rest2 =>
                  if c2 = ',' then
                    match parseMembers fuel rest2 with
                    | none => none
                    | some r => some ((k.1, v.1) :: r.1, r.2)
                  else if c2 = '}' then some ([(k.1, v.1)], rest2)
                  else none
            else none
      else none
end

/-- The JSON value a text is, when it is exactly one JSON document. -/
def parseJson (s : String) : Option Json :=
  match parseValue (s.length + 1) s.data with
  | none => none
  | some r => if skipSpace r.2 = [] then some r.1 else none

/-- A body of bytes as `json.Unmarshal` sees it. -/
def Body.ofText (s : String) : Body :=
  match parseJson s with
  | none => .malformed
  | some j => .json j

/-! ## Properties of the decoder -/

theorem findField_one {T : Type} (f : Field T) (k : String) :
    findField [f] k = if foldName f.name = foldName k then some f else none := by
  by_cases h : f.name = k
  · simp [findField, List.find?, h]
  · by_cases h2 : foldName f.name = foldName k <;> simp [findField, List.find?, h, h2]

theorem objectInto_append {T : Type} (fields : List (Field T)) (cur : T)
    (a b : List (String × Json)) :
    objectInto fields cur (a ++ b) = (objectInto fields cur a).bind fun c => objectInto fields c b := by
  induction a generalizing cur with
  | nil => simp [objectInto]
  | cons m rest ih =>
    obtain ⟨k, v⟩ := m
    simp only [List.cons_append, objectInto]
    cases hf : findField fields k with
    | none => simpa using ih cur
    | some f =>
      cases hs : f.set cur v with
      | none => simp [hs]
      | some next => simpa [hs] using ih next

theorem objectInto_skip {T : Type} (fields : List (Field T)) (cur : T)
    (ms : List (String × Json)) (h : ∀ m ∈ ms, findField fields m.1 = none) :
    objectInto fields cur ms = some cur := by
  induction ms with
  | nil => rfl
  | cons m rest ih =>
    obtain ⟨k, v⟩ := m
    have hk : findField fields k = none := h (k, v) (List.mem_cons_self _ _)
    simp only [objectInto, hk]
    exact ih fun m hm => h m (List.mem_cons_of_mem _ hm)

theorem depth_nestArrays (n : Nat) (j : Json) : (nestArrays n j).depth = n + j.depth := by
  induction n with
  | zero => simp [nestArrays]
  | succ n ih =>
    simp only [nestArrays, Json.depth, depthElems, ih]
    omega

theorem depth_obj (ms : List (String × Json)) : (Json.obj ms).depth = depthMembers ms + 1 := by
  simp [Json.depth]

theorem depth_arr (js : List Json) : (Json.arr js).depth = depthElems js + 1 := by
  simp [Json.depth]

theorem depthMembers_cons (k : String) (j : Json) (rest : List (String × Json)) :
    depthMembers ((k, j) :: rest) = max j.depth (depthMembers rest) := by
  simp [depthMembers]

theorem depthElems_cons (j : Json) (rest : List Json) :
    depthElems (j :: rest) = max j.depth (depthElems rest) := by
  simp [depthElems]

theorem jsonUnmarshal_json {T : Type} (fields : List (Field T)) (cur : T) (j : Json)
    (hd : j.depth ≤ maxNestingDepth) :
    jsonUnmarshal fields cur (.json j) =
      match unmarshalStruct fields cur j with
      | none => .error (.lib "json: cannot unmarshal value into Go value")
      | some v => .ok v := by
  simp only [jsonUnmarshal]
  rw [if_neg (Nat.not_lt.mpr hd)]

theorem jsonUnmarshal_ok {T : Type} (fields : List (Field T)) (cur : T) (b : Body) (v : T)
    (h : jsonUnmarshal fields cur b = .ok v) :
    ∃ j, b = .json j ∧ j.depth ≤ maxNestingDepth ∧ unmarshalStruct fields cur j = some v := by
  cases b with
  | malformed => simp [jsonUnmarshal] at h
  | json j =>
    by_cases hd : maxNestingDepth < j.depth
    · simp [jsonUnmarshal, hd] at h
    · rw [jsonUnmarshal_json fields cur j (Nat.le_of_not_lt hd)] at h
      cases hu : unmarshalStruct fields cur j with
      | none => simp [hu] at h
      | some u =>
        simp only [hu, Except.ok.injEq] at h
        exact ⟨j, rfl, Nat.le_of_not_lt hd, h ▸ hu⟩

theorem token_step (cur : TokenResp) (k : String) (v : Json) (rest : List (String × Json)) :
    objectInto TokenResp.fields cur ((k, v) :: rest) =
      if foldName k = foldName "access_token" then
        match unmarshalString cur.AccessToken v with
        | none => none
        | some t => objectInto TokenResp.fields { AccessToken := t } rest
      else objectInto TokenResp.fields cur rest := by
  simp only [objectInto, TokenResp.fields, findField_one]
  by_cases h : foldName k = foldName "access_token"
  · rw [if_pos h, if_pos h.symm]
    cases hu : unmarshalString cur.AccessToken v <;> simp [hu]
  · rw [if_neg h, if_neg fun e => h e.symm]

/-- Members matching `access_token` that are all `null` leave the field as it
is. -/
theorem token_nulls (cur : TokenResp) (ms : List (String × Json))
    (h : ∀ m ∈ ms, foldName m.1 = foldName "access_token" → m.2.isNull = true) :
    objectInto TokenResp.fields cur ms = some cur := by
  induction ms with
  | nil => rfl
  | cons m rest ih =>
    obtain ⟨k, v⟩ := m
    rw [token_step]
    have hrest := ih fun m hm => h m (List.mem_cons_of_mem _ hm)
    by_cases hk : foldName k = foldName "access_token"
    · have hv := h (k, v) (List.mem_cons_self _ _) hk
      rw [if_pos hk]
      cases v <;> simp [Json.isNull] at hv
      simpa [unmarshalString] using hrest
    · rw [if_neg hk]
      exact hrest

/-- Members matching `access_token` that are `null` or the string `s` keep the
field at `s`. -/
theorem token_keeps (s : String) (ms : List (String × Json))
    (h : ∀ m ∈ ms, foldName m.1 = foldName "access_token" → m.2.isNullOr s = true) :
    objectInto TokenResp.fields { AccessToken := s } ms = some { AccessToken := s } := by
  induction ms with
  | nil => rfl
  | cons m rest ih =>
    obtain ⟨k, v⟩ := m
    rw [token_step]
    have hrest := ih fun m hm => h m (List.mem_cons_of_mem _ hm)
    by_cases hk : foldName k = foldName "access_token"
    · have hv := h (k, v) (List.mem_cons_self _ _) hk
      rw [if_pos hk]
      cases v <;> simp [Json.isNullOr] at hv
      · simpa [unmarshalString] using hrest
      · subst hv
        simpa [unmarshalString] using hrest
    · rw [if_neg hk]
      exact hrest

/-- Members matching `access_token` that are strings or `null` never make the
decoder fail. -/
theorem token_strings (cur : TokenResp) (ms : List (String × Json))
    (h : ∀ m ∈ ms, foldName m.1 = foldName "access_token" → m.2.isStringOrNull = true) :
    ∃ t, objectInto TokenResp.fields cur ms = some { AccessToken := t } := by
  induction ms generalizing cur with
  | nil => exact ⟨cur.AccessToken, rfl⟩
  | cons m rest ih =>
    obtain ⟨k, v⟩ := m
    rw [token_step]
    have hrest := fun c => ih c fun m hm => h m (List.mem_cons_of_mem _ hm)
    by_cases hk : foldName k = foldName "access_token"
    · have hv := h (k, v) (List.mem_cons_self _ _) hk
      rw [if_pos hk]
      cases v <;> simp [Json.isStringOrNull] at hv
      · simpa [unmarshalString] using hrest cur
      · simpa [unmarshalString] using hrest _
    · rw [if_neg hk]
      exact hrest cur

theorem token_decode (s : String) (pre post : List (String × Json))
    (hpre : ∀ m ∈ pre, foldName m.1 = foldName "access_token" → m.2.isStringOrNull = true)
    (hpost : ∀ m ∈ post, foldName m.1 = foldName "access_token" → m.2.isNullOr s = true) :
    unmarshalStruct TokenResp.fields TokenResp.zero
      (.obj (pre ++ ("access_token", .str s) :: post)) = some { AccessToken := s } := by
  obtain ⟨t, ht⟩ := token_strings TokenResp.zero pre hpre
  simp only [unmarshalStruct, objectInto_append, ht, Option.some_bind, token_step, if_true,
    unmarshalString]
  exact token_keeps s post hpost

/-! ## `accessToken` -/

/-- C3 (amended): when the token response is a JSON object, nested no deeper
than the decoder's limit, with a member `access_token` holding a non-empty
string `s`, in which every earlier member whose name matches `access_token`
case-insensitively is a string or null and every later such member is null or
the string `s`, `accessToken` returns exactly `s` and a nil error, whatever
the key, the secret and the other members are. -/
theorem accessToken_returns_token {F : Type} (w : World F) (appKey appSecret s : String)
    (pre post : List (String × Json))
    (hreq : w.newRequest "POST" tokenURL = none)
    (hbody : w.httpDo (accessTokenRequest appKey appSecret) =
      .body (.json (.obj (pre ++ ("access_token", .str s) :: post))))
    (hdepth : (Json.obj (pre ++ ("access_token", .str s) :: post)).depth ≤ maxNestingDepth)
    (hs : s ≠ "")
    (hpre : ∀ m ∈ pre, foldName m.1 = foldName "access_token" → m.2.isStringOrNull = true)
    (hpost : ∀ m ∈ post, foldName m.1 = foldName "access_token" → m.2.isNullOr s = true) :
    (accessToken w appKey appSecret).1 = (s, none) := by
  simp [accessToken, hreq, hbody, jsonUnmarshal_json _ _ _ hdepth,
    token_decode s pre post hpre hpost, hs]

theorem accessToken_returns_token_witness :
    (accessToken (quietWorld Binary64 (.json (.obj mixedTokenMembers)) .malformed)
      "key" "secret").1 = ("tok123", none) :=
  accessToken_returns_token _ "key" "secret" "tok123" [("Access_Token", .str "old")]
    [("ACCESS_TOKEN", .null)] rfl rfl (by decide) (by decide) (by decide) (by decide)

theorem deepToken_depth : maxNestingDepth < (Json.obj deepTokenMembers).depth := by
  rw [deepTokenMembers, depth_obj, depthMembers_cons, depth_nestArrays]
  exact Nat.lt_succ_of_le (le_max_of_le_left (Nat.le_add_right _ _))

theorem accessToken_too_deep {F : Type} (w : World F) (appKey appSecret : String) (j : Json)
    (hreq : w.newRequest "POST" tokenURL = none)
    (hbody : w.httpDo (accessTokenRequest appKey appSecret) = .body (.json j))
    (hd : maxNestingDepth < j.depth) :
    (accessToken w appKey appSecret).1 =
      ("", some (.wrap (.lib "json: exceeded max depth") "response body decode error")) := by
  simp [accessToken, hreq, hbody, jsonUnmarshal, hd]

/-- C3 fails as stated, in two ways. With the response
`{"access_token":"tok123","ACCESS_TOKEN":"other"}` the member `access_token`
is the non-empty string `tok123`, yet `accessToken` returns `other`. With the
response `{"x":[[...]],"access_token":"tok123"}`, 10000 arrays deep under `x`,
`accessToken` returns a decode error and the empty token. -/
theorem accessToken_other_member_counterexample :
    (twoTokenMembers.lookup "access_token" = some (Json.str "tok123") ∧
      (accessToken (quietWorld Binary64 (.json (.obj twoTokenMembers)) .malformed)
        "key" "secret").1 = ("other", none)) ∧
    (deepTokenMembers.lookup "access_token" = some (Json.str "tok123") ∧
      (accessToken (quietWorld Binary64 (.json (.obj deepTokenMembers)) .malformed)
        "key" "secret").1 =
        ("", some (.wrap (.lib "json: exceeded max depth") "response body decode error"))) :=
  ⟨⟨rfl, by decide⟩, rfl, accessToken_too_deep _ _ _ _ rfl rfl deepToken_depth⟩

theorem accessToken_error_token {F : Type} (w : World F) (appKey appSecret : String)
    (h : (accessToken w appKey appSecret).1.2 ≠ none) :
    (accessToken w appKey appSecret).1.1 = "" := by
  revert h
  unfold accessToken
  cases h1 : w.newRequest "POST" tokenURL with
  | some err => simp
  | none =>
    cases h2 : w.httpDo (accessTokenRequest appKey appSecret) with
    | doError err => simp [h2]
    | readError err => simp [h2]
    | body respBody =>
      cases h3 : jsonUnmarshal TokenResp.fields TokenResp.zero respBody with
      | error err => simp [h2, h3]
      | ok respData =>
        by_cases he : respData.AccessToken = "" <;> simp [h2, h3, he]

theorem accessToken_decoded {F : Type} (w : World F) (appKey appSecret : String) (b : Body)
    (resp : TokenResp)
    (hreq : w.newRequest "POST" tokenURL = none)
    (hbody : w.httpDo (accessTokenRequest appKey appSecret) = .body b)
    (hdec : jsonUnmarshal TokenResp.fields TokenResp.zero b = .ok resp) :
    (accessToken w appKey appSecret).1 =
      if resp.AccessToken = "" then ("", some (.new "access token not found"))
      else (resp.AccessToken, none) := by
  simp only [accessToken, hreq, hbody, hdec]
  by_cases h : resp.AccessToken = "" <;> simp [h]

/-- C4 (amended): whenever the token response decodes without error and
leaves the decoded `access_token` empty, `accessToken` returns the error
"access token not found" and the empty token. This is the case for the body
`null`; for a JSON object, nested no deeper than the decoder's limit, in which
every member whose name matches `access_token` case-insensitively is null (in
particular when there is none); and for such an object whose member
`access_token` is the empty string, when every earlier matching member is a
string or null and every later one is null or the empty string. On every
error path of `accessToken` the returned token is the empty string. -/
theorem accessToken_not_found {F : Type} (w : World F) (appKey appSecret : String) :
    (∀ (b : Body) (resp : TokenResp),
      w.newRequest "POST" tokenURL = none →
      w.httpDo (accessTokenRequest appKey appSecret) = .body b →
      jsonUnmarshal TokenResp.fields TokenResp.zero b = .ok resp →
      resp.AccessToken = "" →
      (accessToken w appKey appSecret).1 = ("", some (.new "access token not found"))) ∧
    jsonUnmarshal TokenResp.fields TokenResp.zero (.json .null) = .ok { AccessToken := "" } ∧
    (∀ members : List (String × Json),
      (Json.obj members).depth ≤ maxNestingDepth →
      (∀ m ∈ members, foldName m.1 = foldName "access_token" → m.2.isNull = true) →
      jsonUnmarshal TokenResp.fields TokenResp.zero (.json (.obj members)) =
        .ok { AccessToken := "" }) ∧
    (∀ pre post : List (String × Json),
      (Json.obj (pre ++ ("access_token", .str "") :: post)).depth ≤ maxNestingDepth →
      (∀ m ∈ pre, foldName m.1 = foldName "access_token" → m.2.isStringOrNull = true) →
      (∀ m ∈ post, foldName m.1 = foldName "access_token" → m.2.isNullOr "" = true) →
      jsonUnmarshal TokenResp.fields TokenResp.zero
        (.json (.obj (pre ++ ("access_token", .str "") :: post))) =
        .ok { AccessToken := "" }) ∧
    ((accessToken w appKey appSecret).1.2 ≠ none → (accessToken w appKey appSecret).1.1 = "") := by
  refine ⟨?_, ?_, ?_, ?_, accessToken_error_token w appKey appSecret⟩
  · intro b resp hreq hbody hdec hempty
    rw [accessToken_decoded w appKey appSecret b resp hreq hbody hdec, if_pos hempty]
  · rfl
  · intro members hdepth habsent
    rw [jsonUnmarshal_json _ _ _ hdepth]
    simp only [unmarshalStruct, token_nulls TokenResp.zero members habsent]
    rfl
  · intro pre post hdepth hpre hpost
    rw [jsonUnmarshal_json _ _ _ hdepth, token_decode "" pre post hpre hpost]

theorem accessToken_not_found_witness :
    (accessToken (quietWorld Binary64 (.json (.obj [("error", .str "invalid_client")])) .malformed)
      "key" "secret").1 = ("", some (.new "access token not found")) ∧
    jsonUnmarshal TokenResp.fields TokenResp.zero
      (.json (.obj [("error", .str "invalid_client"), ("Access_Token", .null)])) =
        .ok { AccessToken := "" } ∧
    jsonUnmarshal TokenResp.fields TokenResp.zero
      (.json (.obj ([("ACCESS_TOKEN", .str "old")] ++ ("access_token", .str "") :: []))) =
        .ok { AccessToken := "" } ∧
    (accessToken (quietWorld Binary64 .malformed .malformed) "key" "secret").1.1 = "" :=
  ⟨(accessToken_not_found _ "key" "secret").1 _ { AccessToken := "" } rfl rfl rfl rfl,
    (accessToken_not_found (quietWorld Binary64 .malformed .malformed) "key" "secret").2.2.1
      [("error", .str "invalid_client"), ("Access_Token", .null)] (by decide) (by decide),
    (accessToken_not_found (quietWorld Binary64 .malformed .malformed) "key" "secret").2.2.2.1
      [("ACCESS_TOKEN", .str "old")] [] (by decide) (by decide) (by decide),
    (accessToken_not_found (quietWorld Binary64 .malformed .malformed) "key" "secret").2.2.2.2
      (by decide)⟩

/-- C4 fails as stated: the response `{"ACCESS_TOKEN":"x"}` decodes and has no
member named `access_token`, yet `accessToken` returns the token `x` and a nil
error. -/
theorem accessToken_absent_member_counterexample :
    (∀ m ∈ upperTokenMembers, m.1 ≠ "access_token") ∧
    (accessToken (quietWorld Binary64 (.json (.obj upperTokenMembers)) .malformed)
      "key" "secret").1 = ("x", none) ∧
    ¬ ((accessToken (quietWorld Binary64 (.json (.obj upperTokenMembers)) .malformed)
      "key" "secret").1.2 ≠ none) :=
  ⟨by decide, by decide, by decide⟩

/-! ## Go maps -/

theorem GoMap.len_set_pos {V : Type} (m : GoMap V) (k : String) (v : V) :
    1 ≤ (m.set k v).len := by
  cases m with
  | nil => simp [GoMap.set, GoMap.len]
  | cons e rest =>
    obtain ⟨k0, v0⟩ := e
    by_cases h : k0 = k <;> simp [GoMap.set, GoMap.len, h]

theorem GoMap.len_le_set {V : Type} (m : GoMap V) (k : String) (v : V) :
    m.len ≤ (m.set k v).len := by
  induction m with
  | nil => simp [GoMap.len]
  | cons e rest ih =>
    obtain ⟨k0, v0⟩ := e
    by_cases h : k0 = k
    · simp [GoMap.set, GoMap.len, h]
    · simpa [GoMap.set, GoMap.len, h] using ih

theorem GoMap.get?_set {V : Type} (m : GoMap V) (k : String) (v : V) (k1 : String) :
    (m.set k v).get? k1 = if k = k1 then some v else m.get? k1 := by
  induction m with
  | nil => simp [GoMap.set, GoMap.get?]
  | cons e rest ih =>
    obtain ⟨k0, v0⟩ := e
    by_cases h : k0 = k
    · subst h
      by_cases h1 : k0 = k1 <;> simp [GoMap.set, GoMap.get?, h1]
    · by_cases h1 : k0 = k1
      · subst h1
        have : ¬ k = k0 := fun e => h e.symm
        simp [GoMap.set, GoMap.get?, h, this]
      · simp [GoMap.set, GoMap.get?, h, h1, ih]

theorem GoMap.keys_set {V : Type} (m : GoMap V) (k : String) (v : V) :
    (m.set k v).keys = if k ∈ m.keys then m.keys else m.keys ++ [k] := by
  induction m with
  | nil => simp [GoMap.set, GoMap.keys]
  | cons e rest ih =>
    obtain ⟨k0, v0⟩ := e
    by_cases h : k0 = k
    · subst h
      simp [GoMap.set, GoMap.keys]
    · have h2 : ¬ k = k0 := fun e => h e.symm
      simp only [GoMap.keys] at ih
      by_cases hm : k ∈ List.map Prod.fst rest
      · simp [GoMap.set, GoMap.keys, h, h2, hm, ih]
      · simp [GoMap.set, GoMap.keys, h, h2, hm, ih]

theorem GoMap.nodup_set {V : Type} (m : GoMap V) (k : String) (v : V) (h : m.keys.Nodup) :
    (m.set k v).keys.Nodup := by
  rw [GoMap.keys_set]
  by_cases hm : k ∈ m.keys
  · simpa [hm] using h
  · simp only [hm, if_false]
    exact List.Nodup.append h (List.nodup_singleton k) (by simpa using hm)

theorem GoMap.mem_iff_get? {V : Type} (m : GoMap V) (h : m.keys.Nodup) (k : String) (v : V) :
    (k, v) ∈ m ↔ m.get? k = some v := by
  induction m with
  | nil => simp [GoMap.get?]
  | cons e rest ih =>
    obtain ⟨k0, v0⟩ := e
    simp only [GoMap.keys, List.map_cons, List.nodup_cons] at h
    by_cases h1 : k0 = k
    · subst h1
      have hn : (k0, v) ∉ rest := fun hmem => h.1 (List.mem_map.mpr ⟨(k0, v), hmem, rfl⟩)
      simp only [List.mem_cons, Prod.mk.injEq, true_and, GoMap.get?, if_true, Option.some.injEq, hn, or_false]
      exact eq_comm
    · simp only [List.mem_cons, Prod.mk.injEq, GoMap.get?, h1, if_false]
      rw [← ih h.2]
      constructor
      · rintro (⟨e, -⟩ | hmem)
        · exact absurd e.symm h1
        · exact hmem
      · exact fun hmem => Or.inr hmem

/-! ## The map built by `deviceData` -/

theorem fillMap_len_le {F : Type} (m : GoMap (DeviceData F)) (l : List (Device F)) :
    m.len ≤ (fillMap m l).len := by
  induction l generalizing m with
  | nil => exact Nat.le_refl _
  | cons v rest ih => exact Nat.le_trans (GoMap.len_le_set m _ _) (ih _)

theorem fillMap_len_pos {F : Type} (m : GoMap (DeviceData F)) (l : List (Device F))
    (h : l ≠ []) : 1 ≤ (fillMap m l).len := by
  cases l with
  | nil => exact absurd rfl h
  | cons v rest => exact Nat.le_trans (GoMap.len_set_pos m _ _) (fillMap_len_le _ rest)

theorem fillMap_nodup {F : Type} (m : GoMap (DeviceData F)) (l : List (Device F))
    (h : m.keys.Nodup) : (fillMap m l).keys.Nodup := by
  induction l generalizing m with
  | nil => exact h
  | cons v rest ih => exact ih _ (GoMap.nodup_set m _ _ h)

theorem fillMap_append {F : Type} (m : GoMap (DeviceData F)) (a b : List (Device F)) :
    fillMap m (a ++ b) = fillMap (fillMap m a) b := by
  induction a generalizing m with
  | nil => rfl
  | cons v rest ih => exact ih _

theorem fillMap_mem_keys {F : Type} (m : GoMap (DeviceData F)) (l : List (Device F))
    (k : String) :
    k ∈ (fillMap m l).keys ↔ k ∈ m.keys ∨ k ∈ l.map fun v => v.Info.Mac := by
  induction l generalizing m with
  | nil => simp [fillMap]
  | cons v rest ih =>
    simp only [fillMap, ih, GoMap.keys_set, List.map_cons, List.mem_cons]
    by_cases hm : v.Info.Mac ∈ GoMap.keys m
    · simp only [hm, if_true]
      constructor
      · rintro (h | h)
        · exact Or.inl h
        · exact Or.inr (Or.inr h)
      · rintro (h | h | h)
        · exact Or.inl h
        · exact Or.inl (h ▸ hm)
        · exact Or.inr h
    · simp only [hm, if_false, List.mem_append, List.mem_singleton]
      tauto

theorem fillMap_get? {F : Type} (m : GoMap (DeviceData F)) (l : List (Device F)) (k : String) :
    (fillMap m l).get? k =
      match l.reverse.find? fun v => decide (v.Info.Mac = k) with
      | some v => some v.flatten
      | none => m.get? k := by
  induction l generalizing m with
  | nil => simp [fillMap]
  | cons v rest ih =>
    simp only [fillMap, ih, List.reverse_cons, List.find?_append]
    cases hf : List.find? (fun v => decide (v.Info.Mac = k)) rest.reverse with
    | some u => simp
    | none =>
      by_cases hk : v.Info.Mac = k
      · simp [List.find?, hk, GoMap.get?_set]
      · simp [List.find?, hk, GoMap.get?_set]

theorem fillMap_len_distinct {F : Type} (l : List (Device F)) :
    (fillMap [] l).len = (l.map fun v => v.Info.Mac).dedup.length := by
  have hn : (fillMap ([] : GoMap (DeviceData F)) l).keys.Nodup :=
    fillMap_nodup [] l (by simp [GoMap.keys])
  have hp : (fillMap ([] : GoMap (DeviceData F)) l).keys.Perm
      (l.map fun v => v.Info.Mac).dedup := by
    apply (List.perm_ext_iff_of_nodup hn (List.nodup_dedup _)).mpr
    intro k
    rw [fillMap_mem_keys, List.mem_dedup]
    simp [GoMap.keys]
  have := hp.length_eq
  simpa [GoMap.keys, GoMap.len] using this

/-! ## `deviceData` -/

theorem deviceData_decoded {F : Type} (lib : FloatLib F) (w : World F) (tok : String)
    (b : Body) (resp : DevicesResp F)
    (hreq : w.newRequest "GET" (deviceDataRequest w.nowUnixNano tok).url = none)
    (hbody : w.httpDo (deviceDataRequest w.nowUnixNano tok) = .body b)
    (hdec : jsonUnmarshal (DevicesResp.fields lib) DevicesResp.zero b = .ok resp) :
    (deviceData lib w tok).1 =
      if resp.Devices.length = 0 then (none, some (.new "device not found"))
      else (some (fillMap [] resp.Devices), none) := by
  simp only [deviceData, hreq, hbody, hdec]
  by_cases h : resp.Devices.length = 0 <;> simp [h]

theorem deviceData_ok_inv {F : Type} (lib : FloatLib F) (w : World F) (tok : String)
    (h : (deviceData lib w tok).1.2 = none) :
    ∃ j resp, unmarshalStruct (DevicesResp.fields lib) DevicesResp.zero j = some resp ∧
      resp.Devices ≠ [] ∧ (deviceData lib w tok).1 = (some (fillMap [] resp.Devices), none) := by
  revert h
  unfold deviceData
  cases h1 : w.newRequest "GET" (deviceDataRequest w.nowUnixNano tok).url with
  | some err => simp [h1]
  | none =>
    cases h2 : w.httpDo (deviceDataRequest w.nowUnixNano tok) with
    | doError err => simp [h1, h2]
    | readError err => simp [h1, h2]
    | body respBody =>
      cases h3 : jsonUnmarshal (DevicesResp.fields lib) DevicesResp.zero respBody with
      | error err => simp [h1, h2, h3]
      | ok resp =>
        obtain ⟨j, -, -, hu⟩ := jsonUnmarshal_ok _ _ _ _ h3
        by_cases he : resp.Devices.length = 0
        · simp [h1, h2, h3, he]
        · intro _
          refine ⟨j, resp, hu, ?_, ?_⟩
          · intro hnil
            exact he (by simp [hnil])
          · simp [h1, h2, h3, he]

theorem devices_skip {F : Type} (lib : FloatLib F) (cur : DevicesResp F)
    (ms : List (String × Json)) (h : ∀ m ∈ ms, foldName m.1 ≠ foldName "devices") :
    objectInto (DevicesResp.fields lib) cur ms = some cur := by
  apply objectInto_skip
  intro m hm
  have := h m hm
  simp only [DevicesResp.fields, findField_one]
  rw [if_neg]
  exact fun e => this e.symm

/-- C2: when the device response decodes and yields zero device entries,
`deviceData` returns the nil map and the error "device not found"; an empty
`devices` array, a null one and an absent `devices` key all decode to zero
entries; and whenever `deviceData` returns a nil error, the returned map has
at least one entry. -/
theorem deviceData_no_devices {F : Type} (lib : FloatLib F) (w : World F) (tok : String) :
    (∀ (b : Body) (resp : DevicesResp F),
      w.newRequest "GET" (deviceDataRequest w.nowUnixNano tok).url = none →
      w.httpDo (deviceDataRequest w.nowUnixNano tok) = .body b →
      jsonUnmarshal (DevicesResp.fields lib) DevicesResp.zero b = .ok resp →
      resp.Devices.length = 0 →
      (deviceData lib w tok).1 = (none, some (.new "device not found"))) ∧
    (jsonUnmarshal (DevicesResp.fields lib) DevicesResp.zero
        (.json (.obj [("devices", .arr [])])) = .ok { Devices := [] } ∧
      jsonUnmarshal (DevicesResp.fields lib) DevicesResp.zero
        (.json (.obj [("devices", .null)])) = .ok { Devices := [] } ∧
      ∀ members : List (String × Json), (Json.obj members).depth ≤ maxNestingDepth →
        (∀ m ∈ members, foldName m.1 ≠ foldName "devices") →
        jsonUnmarshal (DevicesResp.fields lib) DevicesResp.zero (.json (.obj members)) =
          .ok { Devices := [] }) ∧
    ((deviceData lib w tok).1.2 = none →
      ∃ m, (deviceData lib w tok).1.1 = some m ∧ 1 ≤ m.len) := by
  refine ⟨?_, ⟨?_, ?_, ?_⟩, ?_⟩
  · intro b resp hreq hbody hdec hlen
    rw [deviceData_decoded lib w tok b resp hreq hbody hdec]
    simp [hlen]
  · rw [jsonUnmarshal_json _ _ _ (by decide)]
    simp [unmarshalStruct, objectInto, DevicesResp.fields, findField_one, unmarshalSlice]
  · rw [jsonUnmarshal_json _ _ _ (by decide)]
    simp [unmarshalStruct, objectInto, DevicesResp.fields, findField_one, unmarshalSlice]
  · intro members hdepth habsent
    have hd := devices_skip lib DevicesResp.zero members habsent
    rw [jsonUnmarshal_json _ _ _ hdepth]
    simp only [unmarshalStruct, hd]
    rfl
  · intro h
    obtain ⟨j, resp, -, hne, hres⟩ := deviceData_ok_inv lib w tok h
    exact ⟨_, by rw [hres], fillMap_len_pos [] resp.Devices hne⟩

theorem deviceData_no_devices_witness :
    (deviceData strconv64 (quietWorld Binary64 .malformed (.json (.obj [("devices", .arr [])])))
      "tok123").1 = (none, some (.new "device not found")) :=
  (deviceData_no_devices strconv64 _ "tok123").1 _ { Devices := [] } rfl rfl rfl rfl

theorem fillMap_get?_last {F : Type} (m : GoMap (DeviceData F)) (pre post : List (Device F))
    (v : Device F) (h : ∀ u ∈ post, u.Info.Mac ≠ v.Info.Mac) :
    (fillMap m (pre ++ v :: post)).get? v.Info.Mac = some v.flatten := by
  rw [fillMap_get?]
  have hnone : List.find? (fun u => decide (u.Info.Mac = v.Info.Mac)) post.reverse = none := by
    rw [List.find?_eq_none]
    intro u hu
    simpa using h u (List.mem_reverse.mp hu)
  simp [List.reverse_append, List.find?_append, hnone, List.find?]

/-- C5: for every non-empty list of decoded device entries, the map returned
by `deviceData` has as keys exactly the `mac` values of the list, one entry
per key; the value under a mac is the flattened record of the last entry
carrying that mac; and the size of the map is the number of distinct macs. -/
theorem deviceData_last_wins {F : Type} (lib : FloatLib F) (w : World F) (tok : String)
    (b : Body) (resp : DevicesResp F)
    (hreq : w.newRequest "GET" (deviceDataRequest w.nowUnixNano tok).url = none)
    (hbody : w.httpDo (deviceDataRequest w.nowUnixNano tok) = .body b)
    (hdec : jsonUnmarshal (DevicesResp.fields lib) DevicesResp.zero b = .ok resp)
    (hne : resp.Devices ≠ []) :
    ∃ m, (deviceData lib w tok).1 = (some m, none) ∧
      (∀ k, k ∈ m.keys ↔ ∃ v ∈ resp.Devices, v.Info.Mac = k) ∧
      m.keys.Nodup ∧
      (∀ pre v post, resp.Devices = pre ++ v :: post →
        (∀ u ∈ post, u.Info.Mac ≠ v.Info.Mac) → m.get? v.Info.Mac = some v.flatten) ∧
      m.len = (resp.Devices.map fun v => v.Info.Mac).dedup.length := by
  refine ⟨fillMap [] resp.Devices, ?_, ?_, ?_, ?_, ?_⟩
  · rw [deviceData_decoded lib w tok b resp hreq hbody hdec]
    have : resp.Devices.length ≠ 0 := fun h => hne (List.length_eq_zero.mp h)
    simp [this]
  · intro k
    rw [fillMap_mem_keys]
    simp [GoMap.keys]
  · exact fillMap_nodup [] _ (by simp [GoMap.keys])
  · intro pre v post hsplit hlast
    rw [hsplit]
    exact fillMap_get?_last [] pre post v hlast
  · exact fillMap_len_distinct _

theorem foldName_Value : foldName "Value" = foldName "value" := by decide

theorem entry_decode {F : Type} (lib : FloatLib F) (e : EntryShape) (r : DeviceData F)
    (h : e.record lib = some r) :
    unmarshalStruct (Device.fields lib) (Device.zero lib) e.json =
      some (Device.ofRecord e.mac r) := by
  unfold EntryShape.record at h
  split at h
  · rename_i t b te hu v c p ht hb hte hhu hv hc hp
    simp only [Option.some.injEq] at h
    subst h
    simp [EntryShape.json, unmarshalStruct, objectInto, findField, List.find?, Device.fields,
      DeviceInfo.fields, DeviceFields.fields, IntValue.fields, FloatValue.fields,
      unmarshalString, unmarshalInt64, unmarshalFloat64, Device.zero, DeviceFields.zero,
      FloatValue.zero, Device.ofRecord, foldName_Value, ht, hb, hte, hhu, hv, hc, hp]
  · exact absurd h (by simp)

theorem deviceData_last_wins_witness :
    ∃ m, (deviceData strconv64 (quietWorld Binary64 .malformed (devicesBody sampleEntries))
        "tok123").1 = (some m, none) ∧
      (∀ k, k ∈ m.keys ↔ ∃ v ∈ decodedEntries strconv64 sampleEntries, v.Info.Mac = k) ∧
      m.keys.Nodup ∧
      (∀ pre v post, decodedEntries strconv64 sampleEntries = pre ++ v :: post →
        (∀ u ∈ post, u.Info.Mac ≠ v.Info.Mac) → m.get? v.Info.Mac = some v.flatten) ∧
      m.len = ((decodedEntries strconv64 sampleEntries).map fun v => v.Info.Mac).dedup.length :=
  deviceData_last_wins strconv64 _ "tok123" (devicesBody sampleEntries)
    { Devices := decodedEntries strconv64 sampleEntries } rfl rfl rfl (by decide)

theorem elems_decode {F : Type} (lib : FloatLib F) (es : List EntryShape)
    (g : EntryShape → Device F)
    (h : ∀ e ∈ es, unmarshalStruct (Device.fields lib) (Device.zero lib) e.json = some (g e)) :
    decodeElems (unmarshalStruct (Device.fields lib)) (Device.zero lib) []
      (es.map EntryShape.json) = some (es.map g) := by
  induction es with
  | nil => rfl
  | cons e rest ih =>
    have h1 := h e (List.mem_cons_self _ _)
    have h2 := ih fun x hx => h x (List.mem_cons_of_mem _ hx)
    simp [decodeElems, h1, h2]

theorem entry_depth (e : EntryShape) : e.json.depth = 3 := by
  simp [EntryShape.json, Json.depth, depthMembers]

theorem entries_depth (es : List EntryShape) : depthElems (es.map EntryShape.json) ≤ 3 := by
  induction es with
  | nil => simp [depthElems]
  | cons e rest ih =>
    simp only [List.map_cons, depthElems_cons, entry_depth]
    exact max_le (Nat.le_refl _) ih

theorem devicesBody_depth (es : List EntryShape) :
    (Json.obj [("devices", .arr (es.map EntryShape.json))]).depth ≤ maxNestingDepth := by
  have h := entries_depth es
  simp only [depth_obj, depthMembers_cons, depth_arr, depthMembers, maxNestingDepth]
  omega

/-- C1: for a device response `{"devices":[...]}` with N ≥ 1 entries of the
API shape whose macs are pairwise distinct and whose literals are values of
their fields, `deviceData` succeeds and returns a map with exactly N keys in
which the value under each entry's mac is the record made of that entry's
seven values, field by field. -/
theorem deviceData_distinct_macs {F : Type} (lib : FloatLib F) (w : World F) (tok : String)
    (entries : List EntryShape)
    (hreq : w.newRequest "GET" (deviceDataRequest w.nowUnixNano tok).url = none)
    (hbody : w.httpDo (deviceDataRequest w.nowUnixNano tok) = .body (devicesBody entries))
    (hval : ∀ e ∈ entries, (e.record lib).isSome)
    (hne : entries ≠ [])
    (hdist : (entries.map fun e => e.mac).Nodup) :
    ∃ m, (deviceData lib w tok).1 = (some m, none) ∧
      m.len = entries.length ∧
      m.keys.Nodup ∧
      (∀ k, k ∈ m.keys ↔ k ∈ entries.map fun e => e.mac) ∧
      ∀ e ∈ entries, (m.get? e.mac) = e.record lib := by
  let g : EntryShape → Device F :=
    fun e => Device.ofRecord e.mac ((e.record lib).getD (DeviceData.zero lib))
  have hg : ∀ e ∈ entries,
      unmarshalStruct (Device.fields lib) (Device.zero lib) e.json = some (g e) := by
    intro e he
    obtain ⟨r, hr⟩ := Option.isSome_iff_exists.mp (hval e he)
    rw [entry_decode lib e r hr]
    simp [g, hr]
  have hmac : ∀ e, (g e).Info.Mac = e.mac := fun e => rfl
  have hmacs : (entries.map g).map (fun v => v.Info.Mac) = entries.map fun e => e.mac := by
    simp [List.map_map, Function.comp_def, g, Device.ofRecord]
  have hdec : jsonUnmarshal (DevicesResp.fields lib) DevicesResp.zero (devicesBody entries) =
      .ok { Devices := entries.map g } := by
    rw [devicesBody, jsonUnmarshal_json _ _ _ (devicesBody_depth entries)]
    have hd := elems_decode lib entries g hg
    cases hes : entries.map EntryShape.json with
    | nil => exact absurd (List.map_eq_nil_iff.mp hes) hne
    | cons j0 js =>
      rw [hes] at hd
      simp [unmarshalStruct, objectInto, DevicesResp.fields, findField_one, unmarshalSlice,
        DevicesResp.zero, hd]
  have hne2 : (entries.map g).length ≠ 0 := by
    simpa using hne
  have hm : (deviceData lib w tok).1 = (some (fillMap [] (entries.map g)), none) := by
    rw [deviceData_decoded lib w tok _ _ hreq hbody hdec]
    simp only [hne2, if_false]
  have hlast : ∀ pre v post, entries.map g = pre ++ v :: post →
      (∀ u ∈ post, u.Info.Mac ≠ v.Info.Mac) →
      (fillMap [] (entries.map g)).get? v.Info.Mac = some v.flatten := by
    intro pre v post hsplit hl
    rw [hsplit]
    exact fillMap_get?_last [] pre post v hl
  refine ⟨fillMap [] (entries.map g), hm, ?_, fillMap_nodup [] _ (by simp [GoMap.keys]), ?_, ?_⟩
  · rw [fillMap_len_distinct, hmacs, List.Nodup.dedup hdist, List.length_map]
  · intro k
    rw [fillMap_mem_keys, hmacs]
    simp [GoMap.keys]
  · intro e he
    obtain ⟨pre, post, hsplit⟩ := List.append_of_mem he
    obtain ⟨r, hr⟩ := Option.isSome_iff_exists.mp (hval e he)
    have hpost : ∀ u ∈ post.map g, u.Info.Mac ≠ (g e).Info.Mac := by
      intro u hu hEq
      obtain ⟨x, hx, rfl⟩ := List.mem_map.mp hu
      rw [hsplit] at hdist
      simp only [List.map_append, List.map_cons] at hdist
      have hd2 := (List.nodup_append.mp hdist).2.1
      have hxmac : x.mac = e.mac := hEq
      exact (List.nodup_cons.mp hd2).1 (List.mem_map.mpr ⟨x, hx, hxmac⟩)
    have := hlast (pre.map g) (g e) (post.map g) (by simp [hsplit]) hpost
    rw [hmac] at this
    rw [this, hr]
    simp [g, hr, Device.flatten, Device.ofRecord]

theorem deviceData_distinct_macs_witness :
    ∃ m, (deviceData strconv64 (quietWorld Binary64 .malformed
        (devicesBody (sampleEntries.take 2))) "tok123").1 = (some m, none) ∧
      m.len = (sampleEntries.take 2).length ∧
      m.keys.Nodup ∧
      (∀ k, k ∈ m.keys ↔ k ∈ (sampleEntries.take 2).map fun e => e.mac) ∧
      ∀ e ∈ sampleEntries.take 2, (m.get? e.mac) = e.record strconv64 :=
  deviceData_distinct_macs strconv64 _ "tok123" (sampleEntries.take 2) rfl rfl
    (by decide) (by decide) (by decide)

/-! ## The publish loop -/

theorem topicOf_injective (a b : String) (h : topicOf a = topicOf b) : a = b := by
  have := congrArg String.data h
  simp only [topicOf, String.data_append] at this
  exact String.ext (List.append_cancel_left this)

theorem publishes_append (a b : List Event) :
    publishes (a ++ b) = publishes a ++ publishes b := by
  induction a with
  | nil => rfl
  | cons e rest ih => cases e <;> simp [publishes, ih]

theorem publishes_loop {F : Type} (lib : FloatLib F) (w : World F)
    (l : List (String × DeviceData F)) :
    publishes (publishLoop lib w l) = l.filterMap (attemptOf lib w) := by
  induction l with
  | nil => rfl
  | cons e rest ih =>
    obtain ⟨mac, d⟩ := e
    cases hm : jsonMarshal lib d with
    | none => simp [publishLoop, hm, publishes, ih, attemptOf]
    | some data =>
      cases hp : w.publish { topic := topicOf mac, qos := 1, retained := false, payload := data } with
      | none => simp [publishLoop, hm, hp, publishes, ih, attemptOf, messageOf]
      | some err => simp [publishLoop, hm, hp, publishes, ih, attemptOf, messageOf]

theorem attempts_other_topic {F : Type} (lib : FloatLib F) (w : World F)
    (l : List (String × DeviceData F)) (mac : String) (h : mac ∉ l.map Prod.fst) :
    (l.filterMap (attemptOf lib w)).filter (fun p => decide (p.1.topic = topicOf mac)) = [] := by
  rw [List.filter_eq_nil_iff]
  intro p hp
  obtain ⟨e, he, hpe⟩ := List.mem_filterMap.mp hp
  simp only [attemptOf, Option.map_eq_some'] at hpe
  obtain ⟨data, -, rfl⟩ := hpe
  simp only [messageOf, decide_eq_true_eq]
  intro ht
  exact h (List.mem_map.mpr ⟨e, he, topicOf_injective _ _ ht⟩)

theorem attempts_topic {F : Type} (lib : FloatLib F) (w : World F)
    (l : List (String × DeviceData F)) (hn : (l.map Prod.fst).Nodup) (mac : String)
    (d : DeviceData F) (hmem : (mac, d) ∈ l) :
    (l.filterMap (attemptOf lib w)).filter (fun p => decide (p.1.topic = topicOf mac)) =
      (attemptOf lib w (mac, d)).toList := by
  induction l with
  | nil => exact absurd hmem (List.not_mem_nil _)
  | cons e rest ih =>
    simp only [List.map_cons, List.nodup_cons] at hn
    rcases List.mem_cons.mp hmem with heq | hrest
    · subst heq
      have hrestnil := attempts_other_topic lib w rest mac hn.1
      cases ha : attemptOf lib w (mac, d) with
      | none => simp [List.filterMap_cons, ha, hrestnil]
      | some p =>
        have hp : p.1.topic = topicOf mac := by
          simp only [attemptOf, Option.map_eq_some'] at ha
          obtain ⟨data, -, rfl⟩ := ha
          rfl
        simp [List.filterMap_cons, ha, List.filter_cons, hp, hrestnil]
    · have hne : e.1 ≠ mac := by
        intro he
        exact hn.1 (he ▸ List.mem_map.mpr ⟨(mac, d), hrest, rfl⟩)
      cases ha : attemptOf lib w e with
      | none => simpa [List.filterMap_cons, ha] using ih hn.2 hrest
      | some p =>
        have hp : ¬ p.1.topic = topicOf mac := by
          simp only [attemptOf, Option.map_eq_some'] at ha
          obtain ⟨data, -, rfl⟩ := ha
          exact fun ht => hne (topicOf_injective _ _ ht)
        simpa [List.filterMap_cons, ha, List.filter_cons, hp] using ih hn.2 hrest

theorem delivered_loop_perm {F : Type} (lib : FloatLib F) (w : World F)
    (a b : List (String × DeviceData F)) (h : a.Perm b) :
    (delivered (publishLoop lib w a)).Perm (delivered (publishLoop lib w b)) := by
  simp only [delivered, publishes_loop]
  exact ((h.filterMap _).filter _).map _

theorem mem_delivered_loop {F : Type} (lib : FloatLib F) (w : World F)
    (l : List (String × DeviceData F)) (msg : Message) :
    msg ∈ delivered (publishLoop lib w l) ↔
      ∃ mac d data, (mac, d) ∈ l ∧ jsonMarshal lib d = some data ∧
        msg = messageOf mac data ∧ w.publish msg = none := by
  simp only [delivered, publishes_loop, List.mem_map, List.mem_filter, List.mem_filterMap,
    attemptOf, Option.map_eq_some']
  constructor
  · rintro ⟨p, ⟨⟨e, he, data, hdata, rfl⟩, hnone⟩, rfl⟩
    refine ⟨e.1, e.2, data, he, hdata, rfl, ?_⟩
    simpa using hnone
  · rintro ⟨mac, d, data, hmem, hdata, rfl, hpub⟩
    exact ⟨(messageOf mac data, w.publish (messageOf mac data)),
      ⟨⟨(mac, d), hmem, data, hdata, rfl⟩, by simp [hpub]⟩, rfl⟩

/-- C6: in the publish loop, for every map of devices, every iteration order
and every assignment of serialization and publish outcomes, a device whose
serialization succeeds is published exactly once (with its own topic and
payload), a device whose serialization fails is not published, the delivered
messages are exactly those of the devices whose serialization and publish
both succeed, and they are the same for every iteration order. -/
theorem publishLoop_isolation {F : Type} (lib : FloatLib F) (w : World F)
    (m : GoMap (DeviceData F)) (order : List (String × DeviceData F))
    (hperm : order.Perm m) (hnodup : m.keys.Nodup) :
    (∀ mac d data, (mac, d) ∈ m → jsonMarshal lib d = some data →
      (publishes (publishLoop lib w order)).filter (fun p => decide (p.1.topic = topicOf mac)) =
        [(messageOf mac data, w.publish (messageOf mac data))]) ∧
    (∀ mac d, (mac, d) ∈ m → jsonMarshal lib d = none →
      (publishes (publishLoop lib w order)).filter (fun p => decide (p.1.topic = topicOf mac)) =
        []) ∧
    (∀ msg, msg ∈ delivered (publishLoop lib w order) ↔
      ∃ mac d data, (mac, d) ∈ m ∧ jsonMarshal lib d = some data ∧
        msg = messageOf mac data ∧ w.publish msg = none) ∧
    (∀ order2 : List (String × DeviceData F), order2.Perm m →
      (delivered (publishLoop lib w order)).Perm (delivered (publishLoop lib w order2))) := by
  have hn : (order.map Prod.fst).Nodup := (hperm.map Prod.fst).nodup_iff.mpr hnodup
  refine ⟨?_, ?_, ?_, ?_⟩
  · intro mac d data hmem hdata
    rw [publishes_loop, attempts_topic lib w order hn mac d (hperm.mem_iff.mpr hmem)]
    simp [attemptOf, hdata]
  · intro mac d hmem hdata
    rw [publishes_loop, attempts_topic lib w order hn mac d (hperm.mem_iff.mpr hmem)]
    simp [attemptOf, hdata]
  · intro msg
    rw [mem_delivered_loop]
    constructor
    · rintro ⟨mac, d, data, hmem, h⟩
      exact ⟨mac, d, data, hperm.mem_iff.mp hmem, h⟩
    · rintro ⟨mac, d, data, hmem, h⟩
      exact ⟨mac, d, data, hperm.mem_iff.mpr hmem, h⟩
  · intro order2 hperm2
    exact delivered_loop_perm lib w order order2 (hperm.trans hperm2.symm)

theorem publishLoop_isolation_witness :
    (∀ mac d data, (mac, d) ∈ sampleMap → jsonMarshal strconv64 d = some data →
      (publishes (publishLoop strconv64 (rejectingWorld .malformed .malformed)
          sampleMap.reverse)).filter (fun p => decide (p.1.topic = topicOf mac)) =
        [(messageOf mac data, (rejectingWorld .malformed .malformed).publish
          (messageOf mac data))]) ∧
    (∀ mac d, (mac, d) ∈ sampleMap → jsonMarshal strconv64 d = none →
      (publishes (publishLoop strconv64 (rejectingWorld .malformed .malformed)
          sampleMap.reverse)).filter (fun p => decide (p.1.topic = topicOf mac)) = []) ∧
    (∀ msg, msg ∈ delivered (publishLoop strconv64 (rejectingWorld .malformed .malformed)
          sampleMap.reverse) ↔
      ∃ mac d data, (mac, d) ∈ sampleMap ∧ jsonMarshal strconv64 d = some data ∧
        msg = messageOf mac data ∧
        (rejectingWorld .malformed .malformed).publish msg = none) ∧
    (∀ order2 : List (String × DeviceData Binary64), order2.Perm sampleMap →
      (delivered (publishLoop strconv64 (rejectingWorld .malformed .malformed)
          sampleMap.reverse)).Perm
        (delivered (publishLoop strconv64 (rejectingWorld .malformed .malformed) order2))) :=
  publishLoop_isolation strconv64 (rejectingWorld .malformed .malformed) sampleMap
    sampleMap.reverse (List.reverse_perm _) (by decide)

/-! ## The cycle -/

theorem requests_append (a b : List Event) : requests (a ++ b) = requests a ++ requests b := by
  induction a with
  | nil => rfl
  | cons e rest ih => cases e <;> simp [requests, ih]

theorem connects_append (a b : List Event) : connects (a ++ b) = connects a ++ connects b := by
  induction a with
  | nil => rfl
  | cons e rest ih => cases e <;> simp [connects, ih]

theorem accessToken_events {F : Type} (w : World F) (appKey appSecret : String) :
    (accessToken w appKey appSecret).2 = [] ∨
    (accessToken w appKey appSecret).2 = [.httpDo (accessTokenRequest appKey appSecret)] ∨
    (accessToken w appKey appSecret).2 =
      [.httpDo (accessTokenRequest appKey appSecret), .logInfo "access token response:%v"] := by
  unfold accessToken
  cases h1 : w.newRequest "POST" tokenURL with
  | some err => simp
  | none =>
    cases h2 : w.httpDo (accessTokenRequest appKey appSecret) with
    | doError err => simp [h2]
    | readError err => simp [h2]
    | body respBody =>
      cases h3 : jsonUnmarshal TokenResp.fields TokenResp.zero respBody with
      | error err => simp [h2, h3]
      | ok respData =>
        by_cases he : respData.AccessToken = "" <;> simp [h2, h3, he]

theorem deviceData_events {F : Type} (lib : FloatLib F) (w : World F) (tok : String) :
    (deviceData lib w tok).2 = [] ∨
    (deviceData lib w tok).2 = [.httpDo (deviceDataRequest w.nowUnixNano tok)] ∨
    (deviceData lib w tok).2 =
      [.httpDo (deviceDataRequest w.nowUnixNano tok), .logInfo "device list response:%v"] := by
  unfold deviceData
  cases h1 : w.newRequest "GET" (deviceDataRequest w.nowUnixNano tok).url with
  | some err => simp [h1]
  | none =>
    cases h2 : w.httpDo (deviceDataRequest w.nowUnixNano tok) with
    | doError err => simp [h1, h2]
    | readError err => simp [h1, h2]
    | body respBody =>
      cases h3 : jsonUnmarshal (DevicesResp.fields lib) DevicesResp.zero respBody with
      | error err => simp [h1, h2, h3]
      | ok respData =>
        by_cases he : respData.Devices.length = 0 <;> simp [h1, h2, h3, he]

theorem accessToken_quiet {F : Type} (w : World F) (appKey appSecret : String) :
    connects (accessToken w appKey appSecret).2 = [] ∧
    publishes (accessToken w appKey appSecret).2 = [] ∧
    ∀ r ∈ requests (accessToken w appKey appSecret).2, r = accessTokenRequest appKey appSecret := by
  rcases accessToken_events w appKey appSecret with h | h | h <;>
    simp [h, connects, publishes, requests]

theorem deviceData_quiet {F : Type} (lib : FloatLib F) (w : World F) (tok : String) :
    connects (deviceData lib w tok).2 = [] ∧ publishes (deviceData lib w tok).2 = [] := by
  rcases deviceData_events lib w tok with h | h | h <;> simp [h, connects, publishes]

theorem cycle_token_error {F : Type} (lib : FloatLib F) (cfg : Config) (w : World F)
    (err : GoError) (h : (accessToken w cfg.appKey cfg.appSecret).1.2 = some err) :
    cycle lib cfg w = .logInfo "fetch data begin" ::
      (accessToken w cfg.appKey cfg.appSecret).2 ++ [.logError err "fetch access token error"] := by
  simp only [cycle, h]

theorem cycle_device_error {F : Type} (lib : FloatLib F) (cfg : Config) (w : World F)
    (err : GoError) (h : (accessToken w cfg.appKey cfg.appSecret).1.2 = none)
    (hd : (deviceData lib w (accessToken w cfg.appKey cfg.appSecret).1.1).1.2 = some err) :
    cycle lib cfg w = .logInfo "fetch data begin" ::
      (accessToken w cfg.appKey cfg.appSecret).2 ++ .logInfo "access token:%v" ::
      (deviceData lib w (accessToken w cfg.appKey cfg.appSecret).1.1).2 ++
      [.logError err "fetch device data error"] := by
  simp [cycle, h, hd]

theorem cycle_connect_error {F : Type} (lib : FloatLib F) (cfg : Config) (w : World F)
    (err : GoError) (h : (accessToken w cfg.appKey cfg.appSecret).1.2 = none)
    (hd : (deviceData lib w (accessToken w cfg.appKey cfg.appSecret).1.1).1.2 = none)
    (hc : w.connect (clientOptions cfg w) = some err) :
    cycle lib cfg w = .logInfo "fetch data begin" ::
      (accessToken w cfg.appKey cfg.appSecret).2 ++ .logInfo "access token:%v" ::
      (deviceData lib w (accessToken w cfg.appKey cfg.appSecret).1.1).2 ++
      [.logInfo "device data:%+v", .mqttConnect (clientOptions cfg w),
       .logError err "mqtt connect error"] := by
  simp [cycle, h, hd, hc]

theorem cycle_publishing {F : Type} (lib : FloatLib F) (cfg : Config) (w : World F)
    (h : (accessToken w cfg.appKey cfg.appSecret).1.2 = none)
    (hd : (deviceData lib w (accessToken w cfg.appKey cfg.appSecret).1.1).1.2 = none)
    (hc : w.connect (clientOptions cfg w) = none) :
    cycle lib cfg w = .logInfo "fetch data begin" ::
      (accessToken w cfg.appKey cfg.appSecret).2 ++ .logInfo "access token:%v" ::
      (deviceData lib w (accessToken w cfg.appKey cfg.appSecret).1.1).2 ++
      .logInfo "device data:%+v" :: .mqttConnect (clientOptions cfg w) ::
      .logInfo "mqtt connect done" ::
      publishLoop lib w
        (rangeOf w (deviceData lib w (accessToken w cfg.appKey cfg.appSecret).1.1).1.1) ++
      [.logInfo "fetch data end"] := by
  simp [cycle, h, hd, hc]

theorem publishLoop_quiet {F : Type} (lib : FloatLib F) (w : World F)
    (l : List (String × DeviceData F)) :
    connects (publishLoop lib w l) = [] ∧ requests (publishLoop lib w l) = [] := by
  induction l with
  | nil => exact ⟨rfl, rfl⟩
  | cons e rest ih =>
    obtain ⟨mac, d⟩ := e
    cases hm : jsonMarshal lib d with
    | none => simpa [publishLoop, hm, connects, requests] using ih
    | some data =>
      cases hp : w.publish { topic := topicOf mac, qos := 1, retained := false, payload := data } with
      | none => simpa [publishLoop, hm, hp, connects, requests] using ih
      | some err => simpa [publishLoop, hm, hp, connects, requests] using ih

theorem request_methods (appKey appSecret tok : String) (now : Int) :
    deviceDataRequest now tok ≠ accessTokenRequest appKey appSecret := by
  intro h
  have := congrArg Request.method h
  simp [deviceDataRequest, accessTokenRequest, Request.addHeader] at this

/-- C8: cycle-level failures abort the rest of the cycle. When `accessToken`
returns an error, the only request of the cycle is the token request (no
device fetch), and there is no connection and no publish; when `deviceData`
returns an error there is no connection and no publish; when the connection
fails there is no publish. Conversely a cycle with a publish is one in which
the token, the device fetch and the connection all succeeded. -/
theorem cycle_aborts {F : Type} (lib : FloatLib F) (cfg : Config) (w : World F) :
    (∀ err, (accessToken w cfg.appKey cfg.appSecret).1.2 = some err →
      (∀ r ∈ requests (cycle lib cfg w), r = accessTokenRequest cfg.appKey cfg.appSecret) ∧
      (∀ tok, deviceDataRequest w.nowUnixNano tok ∉ requests (cycle lib cfg w)) ∧
      connects (cycle lib cfg w) = [] ∧ publishes (cycle lib cfg w) = []) ∧
    (∀ err, (accessToken w cfg.appKey cfg.appSecret).1.2 = none →
      (deviceData lib w (accessToken w cfg.appKey cfg.appSecret).1.1).1.2 = some err →
      connects (cycle lib cfg w) = [] ∧ publishes (cycle lib cfg w) = []) ∧
    (∀ err, (accessToken w cfg.appKey cfg.appSecret).1.2 = none →
      (deviceData lib w (accessToken w cfg.appKey cfg.appSecret).1.1).1.2 = none →
      w.connect (clientOptions cfg w) = some err →
      publishes (cycle lib cfg w) = []) ∧
    (publishes (cycle lib cfg w) ≠ [] →
      (accessToken w cfg.appKey cfg.appSecret).1.2 = none ∧
      (deviceData lib w (accessToken w cfg.appKey cfg.appSecret).1.1).1.2 = none ∧
      w.connect (clientOptions cfg w) = none) := by
  have hA := accessToken_quiet w cfg.appKey cfg.appSecret
  have hD := deviceData_quiet lib w (accessToken w cfg.appKey cfg.appSecret).1.1
  have h1 : ∀ err, (accessToken w cfg.appKey cfg.appSecret).1.2 = some err →
      (∀ r ∈ requests (cycle lib cfg w), r = accessTokenRequest cfg.appKey cfg.appSecret) ∧
      connects (cycle lib cfg w) = [] ∧ publishes (cycle lib cfg w) = [] := by
    intro err h
    rw [cycle_token_error lib cfg w err h]
    refine ⟨?_, ?_, ?_⟩
    · intro r hr
      apply hA.2.2 r
      simpa [requests, requests_append] using hr
    · simp [connects, connects_append, hA.1]
    · simp [publishes, publishes_append, hA.2.1]
  have h2 : ∀ err, (accessToken w cfg.appKey cfg.appSecret).1.2 = none →
      (deviceData lib w (accessToken w cfg.appKey cfg.appSecret).1.1).1.2 = some err →
      connects (cycle lib cfg w) = [] ∧ publishes (cycle lib cfg w) = [] := by
    intro err h hd
    rw [cycle_device_error lib cfg w err h hd]
    constructor
    · simp [connects, connects_append, hA.1, hD.1]
    · simp [publishes, publishes_append, hA.2.1, hD.2]
  have h3 : ∀ err, (accessToken w cfg.appKey cfg.appSecret).1.2 = none →
      (deviceData lib w (accessToken w cfg.appKey cfg.appSecret).1.1).1.2 = none →
      w.connect (clientOptions cfg w) = some err → publishes (cycle lib cfg w) = [] := by
    intro err h hd hc
    rw [cycle_connect_error lib cfg w err h hd hc]
    simp [publishes, publishes_append, hA.2.1, hD.2]
  refine ⟨?_, h2, h3, ?_⟩
  · intro err h
    obtain ⟨ha, hb, hc⟩ := h1 err h
    refine ⟨ha, ?_, hb, hc⟩
    intro tok hmem
    exact request_methods _ _ _ _ (ha _ hmem)
  · intro hne
    cases ht : (accessToken w cfg.appKey cfg.appSecret).1.2 with
    | some err => exact absurd (h1 err ht).2.2 hne
    | none =>
      cases hd : (deviceData lib w (accessToken w cfg.appKey cfg.appSecret).1.1).1.2 with
      | some err => exact absurd (h2 err ht hd).2 hne
      | none =>
        cases hc : w.connect (clientOptions cfg w) with
        | some err => exact absurd (h3 err ht hd hc) hne
        | none => exact ⟨rfl, rfl, rfl⟩

theorem cycle_aborts_witness :
    ((∀ r ∈ requests (cycle strconv64 sampleConfig (quietWorld Binary64 .malformed .malformed)),
        r = accessTokenRequest sampleConfig.appKey sampleConfig.appSecret) ∧
      (∀ tok, deviceDataRequest (quietWorld Binary64 .malformed .malformed).nowUnixNano tok ∉
        requests (cycle strconv64 sampleConfig (quietWorld Binary64 .malformed .malformed))) ∧
      connects (cycle strconv64 sampleConfig (quietWorld Binary64 .malformed .malformed)) = [] ∧
      publishes (cycle strconv64 sampleConfig (quietWorld Binary64 .malformed .malformed)) = []) ∧
    (connects (cycle strconv64 sampleConfig
        (quietWorld Binary64 (.json (.obj plainTokenMembers)) (devicesBody []))) = [] ∧
      publishes (cycle strconv64 sampleConfig
        (quietWorld Binary64 (.json (.obj plainTokenMembers)) (devicesBody []))) = []) ∧
    publishes (cycle strconv64 sampleConfig
      (offlineWorld (.json (.obj plainTokenMembers)) (devicesBody sampleEntries))) = [] :=
  ⟨(cycle_aborts strconv64 sampleConfig (quietWorld Binary64 .malformed .malformed)).1
      (.wrap (.lib "json: syntax error") "response body decode error") rfl,
    (cycle_aborts strconv64 sampleConfig
      (quietWorld Binary64 (.json (.obj plainTokenMembers)) (devicesBody []))).2.1
      (.new "device not found") rfl rfl,
    (cycle_aborts strconv64 sampleConfig
      (offlineWorld (.json (.obj plainTokenMembers)) (devicesBody sampleEntries))).2.2.1
      (.lib "connection refused") rfl rfl rfl⟩

/-! ## The `float64` conversions -/
/-! ## The binary64 conversions round-trip -/

theorem log2Aux_spec (fuel n : Nat) (hf : n ≤ fuel) (hn : 0 < n) :
    2 ^ log2Aux fuel n ≤ n ∧ n < 2 ^ (log2Aux fuel n + 1) := by
  induction fuel generalizing n with
  | zero => omega
  | succ fuel ih =>
    unfold log2Aux
    by_cases h2 : 2 ≤ n
    · rw [if_pos h2]
      have := ih (n / 2) (by omega) (by omega)
      rw [pow_succ, pow_succ]
      omega
    · rw [if_neg h2]
      simp
      omega

theorem log2_spec (n : Nat) (hn : 0 < n) : 2 ^ log2 n ≤ n ∧ n < 2 ^ (log2 n + 1) :=
  log2Aux_spec n n (Nat.le_refl _) hn

theorem gePow_iff (b num den : Nat) (k : Int) (hb : 0 < b) (hd : 0 < den) :
    gePow b num den k = true ↔ (b : ℚ) ^ k ≤ (num : ℚ) / den := by
  have hbq : (0 : ℚ) < b := by exact_mod_cast hb
  have hdq : (0 : ℚ) < den := by exact_mod_cast hd
  unfold gePow
  by_cases hk : 0 ≤ k
  · obtain ⟨m, rfl⟩ := Int.eq_ofNat_of_zero_le hk
    simp only [hk, if_true, Int.toNat_ofNat, decide_eq_true_eq, zpow_natCast]
    rw [le_div_iff₀ hdq]
    constructor
    · intro h
      have h2 : ((den * b ^ m : ℕ) : ℚ) ≤ num := by exact_mod_cast h
      push_cast at h2
      linarith
    · intro h
      have h2 : ((den * b ^ m : ℕ) : ℚ) ≤ num := by
        push_cast
        linarith
      exact_mod_cast h2
  · have hk2 : 0 ≤ -k := by omega
    obtain ⟨m, hm⟩ := Int.eq_ofNat_of_zero_le hk2
    have hkm : k = -(m : ℤ) := by omega
    subst hkm
    simp only [hk, if_false, neg_neg, Int.toNat_ofNat, decide_eq_true_eq, zpow_neg,
      zpow_natCast]
    have hpow : (0 : ℚ) < (b : ℚ) ^ m := pow_pos hbq m
    rw [inv_eq_one_div, div_le_div_iff₀ hpow hdq]
    constructor
    · intro h
      have h2 : ((den : ℕ) : ℚ) ≤ ((num * b ^ m : ℕ) : ℚ) := by exact_mod_cast h
      push_cast at h2
      linarith
    · intro h
      have h2 : ((den : ℕ) : ℚ) ≤ ((num * b ^ m : ℕ) : ℚ) := by
        push_cast
        linarith
      exact_mod_cast h2

theorem two_zpow_unique (x : ℚ) (e1 e2 : Int)
    (h1 : (2 : ℚ) ^ e1 ≤ x) (h1u : x < (2 : ℚ) ^ (e1 + 1))
    (h2 : (2 : ℚ) ^ e2 ≤ x) (h2u : x < (2 : ℚ) ^ (e2 + 1)) : e1 = e2 := by
  have a : e1 < e2 + 1 := (zpow_lt_zpow_iff_right₀ (by norm_num : (1 : ℚ) < 2)).mp (lt_of_le_of_lt h1 h2u)
  have b : e2 < e1 + 1 := (zpow_lt_zpow_iff_right₀ (by norm_num : (1 : ℚ) < 2)).mp (lt_of_le_of_lt h2 h1u)
  omega

theorem floorLog2_spec (num den : Nat) (hn : 0 < num) (hd : 0 < den) :
    (2 : ℚ) ^ floorLog2 num den ≤ (num : ℚ) / den ∧
    (num : ℚ) / den < (2 : ℚ) ^ (floorLog2 num den + 1) := by
  have hnq : (0 : ℚ) < num := by exact_mod_cast hn
  have hdq : (0 : ℚ) < den := by exact_mod_cast hd
  obtain ⟨ha1, ha2⟩ := log2_spec num hn
  obtain ⟨hb1, hb2⟩ := log2_spec den hd
  have ha1q : (2 : ℚ) ^ (log2 num) ≤ num := by exact_mod_cast ha1
  have ha2q : (num : ℚ) < (2 : ℚ) ^ (log2 num + 1) := by exact_mod_cast ha2
  have hb1q : (2 : ℚ) ^ (log2 den) ≤ den := by exact_mod_cast hb1
  have hb2q : (den : ℚ) < (2 : ℚ) ^ (log2 den + 1) := by exact_mod_cast hb2
  have h2 : (2 : ℚ) ≠ 0 := by norm_num
  have hpa : (0 : ℚ) < (2 : ℚ) ^ (log2 num) := pow_pos (by norm_num) _
  have hpb : (0 : ℚ) < (2 : ℚ) ^ (log2 den) := pow_pos (by norm_num) _
  -- upper bound: x < 2 ^ (l + 1)
  have hup : (num : ℚ) / den < (2 : ℚ) ^ ((log2 num : ℤ) - (log2 den : ℤ) + 1) := by
    have e : (2 : ℚ) ^ ((log2 num : ℤ) - (log2 den : ℤ) + 1) =
        (2 : ℚ) ^ (log2 num + 1) / (2 : ℚ) ^ (log2 den) := by
      rw [show (log2 num : ℤ) - (log2 den : ℤ) + 1 = ((log2 num + 1 : ℕ) : ℤ) - ((log2 den : ℕ) : ℤ)
        by push_cast; ring, zpow_sub₀ h2, zpow_natCast, zpow_natCast]
    rw [e, div_lt_div_iff₀ hdq hpb]
    calc (num : ℚ) * 2 ^ log2 den ≤ num * den := by
          exact mul_le_mul_of_nonneg_left hb1q hnq.le
      _ < 2 ^ (log2 num + 1) * den := by
          exact mul_lt_mul_of_pos_right ha2q hdq
  -- lower bound: 2 ^ (l - 1) ≤ x
  have hlow : (2 : ℚ) ^ ((log2 num : ℤ) - (log2 den : ℤ) - 1) ≤ (num : ℚ) / den := by
    have e : (2 : ℚ) ^ ((log2 num : ℤ) - (log2 den : ℤ) - 1) =
        (2 : ℚ) ^ (log2 num) / (2 : ℚ) ^ (log2 den + 1) := by
      rw [show (log2 num : ℤ) - (log2 den : ℤ) - 1 = ((log2 num : ℕ) : ℤ) - ((log2 den + 1 : ℕ) : ℤ)
        by push_cast; ring, zpow_sub₀ h2, zpow_natCast, zpow_natCast]
    rw [e, div_le_div_iff₀ (pow_pos (by norm_num) _) hdq]
    calc (2 : ℚ) ^ log2 num * den ≤ num * den := by
          exact mul_le_mul_of_nonneg_right ha1q hdq.le
      _ ≤ num * 2 ^ (log2 den + 1) := by
          exact mul_le_mul_of_nonneg_left hb2q.le hnq.le
  unfold floorLog2
  simp only
  by_cases hg : gePow 2 num den ((log2 num : ℤ) - (log2 den : ℤ)) = true
  · rw [if_pos hg]
    exact ⟨by simpa using (gePow_iff 2 num den _ (by norm_num) hd).mp hg, hup⟩
  · rw [if_neg hg]
    refine ⟨hlow, ?_⟩
    have := (gePow_iff 2 num den ((log2 num : ℤ) - (log2 den : ℤ)) (by norm_num) hd).not.mp hg
    simpa using this

theorem scaleBy_pos (num den : Nat) (ex : Int) (hd : 0 < den) : 0 < (scaleBy num den ex).2 := by
  unfold scaleBy
  by_cases h : 0 ≤ ex
  · simp only [h, if_true]
    exact Nat.mul_pos hd (pow_pos (by norm_num) _)
  · simpa only [h, if_false] using hd

theorem scaleBy_ratio (num den : Nat) (ex : Int) (hd : 0 < den) :
    ((scaleBy num den ex).1 : ℚ) / ((scaleBy num den ex).2 : ℚ) =
      (num : ℚ) / den * (2 : ℚ) ^ (-ex) := by
  have hdq : (den : ℚ) ≠ 0 := by exact_mod_cast hd.ne'
  unfold scaleBy
  by_cases h : 0 ≤ ex
  · obtain ⟨m, rfl⟩ := Int.eq_ofNat_of_zero_le h
    simp only [h, if_true, Int.toNat_ofNat, zpow_neg, zpow_natCast]
    push_cast
    field_simp
  · have hk2 : 0 ≤ -ex := by omega
    obtain ⟨m, hm⟩ := Int.eq_ofNat_of_zero_le hk2
    simp only [h, if_false, hm, Int.toNat_ofNat, zpow_natCast]
    push_cast
    field_simp

theorem scaleBy_mul (c num den : Nat) (ex : Int) :
    scaleBy (c * num) (c * den) ex = (c * (scaleBy num den ex).1, c * (scaleBy num den ex).2) := by
  unfold scaleBy
  by_cases h : 0 ≤ ex
  · simp [h, Nat.mul_assoc]
  · simp [h, Nat.mul_assoc]

theorem roundQuotient_mul (c n d : Nat) (ex : Int) (hc : 0 < c) :
    roundQuotient (c * n) (c * d) ex = roundQuotient n d ex := by
  unfold roundQuotient
  have h1 : c * n / (c * d) = n / d := Nat.mul_div_mul_left n d hc
  have h2 : c * n % (c * d) = c * (n % d) := Nat.mul_mod_mul_left c n d
  have h3 : (c * d < 2 * (c * (n % d))) ↔ (d < 2 * (n % d)) := by
    rw [show 2 * (c * (n % d)) = c * (2 * (n % d)) by ring]
    exact Nat.mul_lt_mul_left hc
  have h4 : (2 * (c * (n % d)) = c * d) ↔ (2 * (n % d) = d) := by
    rw [show 2 * (c * (n % d)) = c * (2 * (n % d)) by ring]
    exact Nat.mul_right_inj hc.ne'
  simp only [h1, h2, h3, h4]

theorem floorLog2_mul (c num den : Nat) (hc : 0 < c) (hn : 0 < num) (hd : 0 < den) :
    floorLog2 (c * num) (c * den) = floorLog2 num den := by
  have hcq : (c : ℚ) ≠ 0 := by exact_mod_cast hc.ne'
  have hr : ((c * num : ℕ) : ℚ) / ((c * den : ℕ) : ℚ) = (num : ℚ) / den := by
    push_cast
    exact mul_div_mul_left _ _ hcq
  obtain ⟨a1, a2⟩ := floorLog2_spec (c * num) (c * den) (Nat.mul_pos hc hn) (Nat.mul_pos hc hd)
  obtain ⟨b1, b2⟩ := floorLog2_spec num den hn hd
  rw [hr] at a1 a2
  exact two_zpow_unique _ _ _ a1 a2 b1 b2

theorem roundMagnitude_mul (c num den : Nat) (hc : 0 < c) (hd : 0 < den) :
    roundMagnitude (c * num) (c * den) = roundMagnitude num den := by
  unfold roundMagnitude
  by_cases hn : num = 0
  · simp [hn]
  · have hn2 : c * num ≠ 0 := Nat.mul_ne_zero hc.ne' hn
    simp only [hn, hn2, if_false]
    rw [floorLog2_mul c num den hc (Nat.pos_of_ne_zero hn) hd, scaleBy_mul]
    exact roundQuotient_mul c _ _ _ hc

theorem roundQuotient_normal (n d : Nat) (ex : Int) (q : Nat) (e1 : Int) (hd : 0 < d)
    (hhi : n < 2 ^ 53 * d) (hlo : 2 ^ 52 * d ≤ n ∨ ex = -1074) (hex : -1074 ≤ ex)
    (h : roundQuotient n d ex = some (q, e1)) : IsBinary64 q e1 := by
  have hq0 : n / d < 2 ^ 53 := (Nat.div_lt_iff_lt_mul hd).mpr hhi
  have hq1 : 2 ^ 52 ≤ n / d ∨ ex = -1074 := by
    rcases hlo with h1 | h1
    · exact Or.inl ((Nat.le_div_iff_mul_le hd).mpr h1)
    · exact Or.inr h1
  unfold roundQuotient at h
  unfold IsBinary64
  norm_num at hq0 hq1 h ⊢
  generalize n / d = q0 at hq0 hq1 h
  by_cases hc : (d < 2 * (n % d) ∨ 2 * (n % d) = d ∧ q0 % 2 = 1)
  · simp only [hc, if_true] at h
    split_ifs at h <;> omega
  · simp only [hc, if_false] at h
    split_ifs at h <;> omega

theorem roundMagnitude_normal (num den : Nat) (q : Nat) (ex : Int) (hd : 0 < den)
    (h : roundMagnitude num den = some (q, ex)) : IsBinary64 q ex := by
  unfold roundMagnitude at h
  by_cases hn : num = 0
  · simp only [hn, if_true, Option.some.injEq, Prod.mk.injEq] at h
    obtain ⟨rfl, rfl⟩ := h
    unfold IsBinary64
    norm_num
  · simp only [hn, if_false] at h
    obtain ⟨s1, s2⟩ := floorLog2_spec num den (Nat.pos_of_ne_zero hn) hd
    have hpos := scaleBy_pos num den (max (floorLog2 num den - 52) (-1074)) hd
    have hratio := scaleBy_ratio num den (max (floorLog2 num den - 52) (-1074)) hd
    obtain ⟨ex0, hex0⟩ : ∃ ex0, ex0 = max (floorLog2 num den - 52) (-1074) := ⟨_, rfl⟩
    rw [← hex0] at h hpos hratio
    have hge1 : floorLog2 num den - 52 ≤ ex0 := hex0 ▸ le_max_left _ _
    have hge2 : -1074 ≤ ex0 := hex0 ▸ le_max_right _ _
    have hch : ex0 = floorLog2 num den - 52 ∨ ex0 = -1074 := by
      rcases max_choice (floorLog2 num den - 52) (-1074) with h1 | h1
      · left
        rw [hex0, h1]
      · right
        rw [hex0, h1]
    have hdq : (0 : ℚ) < ((scaleBy num den ex0).2 : ℚ) := by exact_mod_cast hpos
    have h2pos : (0 : ℚ) < (2 : ℚ) ^ (-ex0) := zpow_pos (by norm_num) _
    have h2ne : (2 : ℚ) ≠ 0 := by norm_num
    have hy_hi : ((scaleBy num den ex0).1 : ℚ) / ((scaleBy num den ex0).2 : ℚ) < 2 ^ 53 := by
      rw [hratio]
      calc (num : ℚ) / den * (2 : ℚ) ^ (-ex0)
          < (2 : ℚ) ^ (floorLog2 num den + 1) * (2 : ℚ) ^ (-ex0) :=
            mul_lt_mul_of_pos_right s2 h2pos
        _ = (2 : ℚ) ^ (floorLog2 num den + 1 + -ex0) := (zpow_add₀ h2ne _ _).symm
        _ ≤ (2 : ℚ) ^ (53 : ℤ) := zpow_le_zpow_right₀ (by norm_num) (by omega)
        _ = 2 ^ 53 := by norm_cast
    have hhi : (scaleBy num den ex0).1 < 2 ^ 53 * (scaleBy num den ex0).2 := by
      have := (div_lt_iff₀ hdq).mp hy_hi
      exact_mod_cast this
    have hlo : 2 ^ 52 * (scaleBy num den ex0).2 ≤ (scaleBy num den ex0).1 ∨ ex0 = -1074 := by
      rcases hch with h1 | h1
      · left
        have hy : (2 : ℚ) ^ 52 ≤
            ((scaleBy num den ex0).1 : ℚ) / ((scaleBy num den ex0).2 : ℚ) := by
          rw [hratio]
          calc (2 : ℚ) ^ 52 = (2 : ℚ) ^ (52 : ℤ) := by norm_cast
            _ = (2 : ℚ) ^ (floorLog2 num den + -ex0) := by
                congr 1
                omega
            _ = (2 : ℚ) ^ (floorLog2 num den) * (2 : ℚ) ^ (-ex0) := zpow_add₀ h2ne _ _
            _ ≤ (num : ℚ) / den * (2 : ℚ) ^ (-ex0) := mul_le_mul_of_nonneg_right s1 h2pos.le
        have := (le_div_iff₀ hdq).mp hy
        exact_mod_cast this
      · exact Or.inr h1
    exact roundQuotient_normal _ _ ex0 q ex hpos hhi hlo hge2 h

theorem roundQuotient_exact (q d : Nat) (ex : Int) (hd : 0 < d) (hq : q < 2 ^ 53)
    (hex : ex ≤ 971) : roundQuotient (q * d) d ex = some (q, ex) := by
  unfold roundQuotient
  have h1 : q * d / d = q := Nat.mul_div_cancel q hd
  have h2 : q * d % d = 0 := Nat.mul_mod_left q d
  have h3 : ¬ (d < 2 * 0 ∨ 2 * 0 = d ∧ q % 2 = 1) := by omega
  have h4 : ¬ q = 2 ^ 53 := by omega
  have h5 : ¬ 971 < ex := by omega
  simp only [h1, h2, h3, h4, h5, if_false]

theorem roundMagnitude_exact (num den q : Nat) (ex : Int) (hd : 0 < den) (hq : 0 < q)
    (hnorm : IsBinary64 q ex) (hx : (num : ℚ) / den = (q : ℚ) * (2 : ℚ) ^ ex) :
    roundMagnitude num den = some (q, ex) := by
  obtain ⟨hq53, hexlo, hexhi, hdisj⟩ := hnorm
  have hdq : (0 : ℚ) < den := by exact_mod_cast hd
  have hqq : (0 : ℚ) < q := by exact_mod_cast hq
  have h2ne : (2 : ℚ) ≠ 0 := by norm_num
  have h1lt : (1 : ℚ) < 2 := by norm_num
  have hxpos : (0 : ℚ) < (num : ℚ) / den := by
    rw [hx]
    exact mul_pos hqq (zpow_pos (by norm_num) _)
  have hn : num ≠ 0 := by
    intro h0
    rw [h0] at hxpos
    simp at hxpos
  obtain ⟨s1, s2⟩ := floorLog2_spec num den (Nat.pos_of_ne_zero hn) hd
  have hexp : (0 : ℚ) < (2 : ℚ) ^ ex := zpow_pos (by norm_num) _
  -- the value is below 2 ^ (53 + ex)
  have hup : (num : ℚ) / den < (2 : ℚ) ^ (53 + ex) := by
    rw [hx, zpow_add₀ h2ne]
    apply mul_lt_mul_of_pos_right _ hexp
    have : ((q : ℕ) : ℚ) < ((2 ^ 53 : ℕ) : ℚ) := by exact_mod_cast hq53
    calc (q : ℚ) < ((2 ^ 53 : ℕ) : ℚ) := this
      _ = (2 : ℚ) ^ (53 : ℤ) := by norm_cast
  have he1 : floorLog2 num den < 53 + ex :=
    (zpow_lt_zpow_iff_right₀ h1lt).mp (lt_of_le_of_lt s1 hup)
  have hex0 : max (floorLog2 num den - 52) (-1074) = ex := by
    rcases hdisj with h52 | hsub
    · have hlow : (2 : ℚ) ^ (52 + ex) ≤ (num : ℚ) / den := by
        rw [hx, zpow_add₀ h2ne]
        apply mul_le_mul_of_nonneg_right _ hexp.le
        have : ((2 ^ 52 : ℕ) : ℚ) ≤ ((q : ℕ) : ℚ) := by exact_mod_cast h52
        calc (2 : ℚ) ^ (52 : ℤ) = ((2 ^ 52 : ℕ) : ℚ) := by norm_cast
          _ ≤ (q : ℚ) := this
      have he2 : 52 + ex < floorLog2 num den + 1 :=
        (zpow_lt_zpow_iff_right₀ h1lt).mp (lt_of_le_of_lt hlow s2)
      have : floorLog2 num den - 52 = ex := by omega
      rw [this]
      exact max_eq_left hexlo
    · have : floorLog2 num den - 52 ≤ -1074 := by omega
      rw [max_eq_right this, hsub]
  unfold roundMagnitude
  simp only [hn, if_false, hex0]
  have hpos := scaleBy_pos num den ex hd
  have hratio := scaleBy_ratio num den ex hd
  have hsq : (0 : ℚ) < ((scaleBy num den ex).2 : ℚ) := by exact_mod_cast hpos
  have hnq : ((scaleBy num den ex).1 : ℚ) / ((scaleBy num den ex).2 : ℚ) = q := by
    rw [hratio, hx, mul_assoc, ← zpow_add₀ h2ne]
    simp
  have hnat : (scaleBy num den ex).1 = q * (scaleBy num den ex).2 := by
    have := (div_eq_iff hsq.ne').mp hnq
    exact_mod_cast this
  rw [hnat]
  exact roundQuotient_exact q _ ex hpos hq53 hexhi

theorem roundDecimal_eq_some (neg : Bool) (d : Nat) (k : Int) (q : Nat) (ex : Int) :
    roundDecimal neg d k = some (.finite neg q ex) ↔ decimalMagnitude d k = some (q, ex) := by
  unfold roundDecimal
  cases h : decimalMagnitude d k with
  | none => simp
  | some m =>
    obtain ⟨a, b⟩ := m
    simp

theorem decimalMagnitude_normal (d : Nat) (k : Int) (q : Nat) (ex : Int)
    (h : decimalMagnitude d k = some (q, ex)) : IsBinary64 q ex := by
  unfold decimalMagnitude at h
  by_cases hk : 0 ≤ k
  · rw [if_pos hk] at h
    exact roundMagnitude_normal _ 1 q ex (by norm_num) h
  · rw [if_neg hk] at h
    exact roundMagnitude_normal _ _ q ex (pow_pos (by norm_num) _) h

theorem decimalMagnitude_strip (d : Nat) (k : Int) (h10 : d % 10 = 0) :
    decimalMagnitude (d / 10) (k + 1) = decimalMagnitude d k := by
  have hd : d = 10 * (d / 10) := by omega
  unfold decimalMagnitude
  by_cases hk : 0 ≤ k
  · have hk1 : 0 ≤ k + 1 := by omega
    obtain ⟨m, rfl⟩ := Int.eq_ofNat_of_zero_le hk
    rw [if_pos hk1, if_pos hk]
    have : ((m : ℤ) + 1).toNat = m + 1 := by omega
    rw [this, Int.toNat_ofNat]
    congr 1
    rw [pow_succ]
    nth_rewrite 2 [hd]
    ring
  · rw [if_neg hk]
    have hk2 : 0 ≤ -k := by omega
    obtain ⟨m, hm⟩ := Int.eq_ofNat_of_zero_le hk2
    have hmpos : 0 < m := by omega
    obtain ⟨m1, rfl⟩ : ∃ m1, m = m1 + 1 := ⟨m - 1, by omega⟩
    have e1 : (-k).toNat = m1 + 1 := by omega
    rw [e1]
    by_cases hk1 : 0 ≤ k + 1
    · have hm1 : m1 = 0 := by omega
      subst hm1
      have e2 : (k + 1).toNat = 0 := by omega
      rw [if_pos hk1, e2]
      simp only [pow_zero, Nat.mul_one, zero_add, pow_one]
      nth_rewrite 2 [hd]
      have := roundMagnitude_mul 10 (d / 10) 1 (by norm_num) (by norm_num)
      simpa using this.symm
    · rw [if_neg hk1]
      have e2 : (-(k + 1)).toNat = m1 := by omega
      rw [e2]
      nth_rewrite 2 [hd]
      rw [pow_succ, Nat.mul_comm (10 ^ m1) 10]
      exact (roundMagnitude_mul 10 (d / 10) (10 ^ m1) (by norm_num)
        (pow_pos (by norm_num) _)).symm

/-- The exact decimal expansion of `q * 2 ^ ex`. -/
theorem decimalMagnitude_exact (q : Nat) (ex : Int) (hq : 0 < q) (hnorm : IsBinary64 q ex) :
    decimalMagnitude
      (if 0 ≤ ex then (q * 2 ^ ex.toNat, (0 : Int)) else (q * 5 ^ (-ex).toNat, ex)).1
      (if 0 ≤ ex then (q * 2 ^ ex.toNat, (0 : Int)) else (q * 5 ^ (-ex).toNat, ex)).2 =
      some (q, ex) := by
  by_cases hk : 0 ≤ ex
  · obtain ⟨m, rfl⟩ := Int.eq_ofNat_of_zero_le hk
    simp only [hk, if_true, decimalMagnitude, le_refl, Int.toNat_zero, pow_zero, Nat.mul_one,
      Int.toNat_ofNat]
    apply roundMagnitude_exact _ 1 q _ (by norm_num) hq hnorm
    push_cast
    simp [zpow_natCast]
  · have hk2 : 0 ≤ -ex := by omega
    obtain ⟨m, hm⟩ := Int.eq_ofNat_of_zero_le hk2
    have hexm : ex = -(m : ℤ) := by omega
    simp only [hk, if_false, decimalMagnitude, hm, Int.toNat_ofNat]
    apply roundMagnitude_exact _ _ q _ (pow_pos (by norm_num) _) hq hnorm
    rw [hexm, zpow_neg, zpow_natCast]
    push_cast
    have h10 : (10 : ℚ) ^ m = 2 ^ m * 5 ^ m := by
      rw [← mul_pow]
      norm_num
    rw [h10]
    have h5 : (5 : ℚ) ^ m ≠ 0 := pow_ne_zero _ (by norm_num)
    have h2 : (2 : ℚ) ^ m ≠ 0 := pow_ne_zero _ (by norm_num)
    field_simp
    ring

theorem pick_ok (P : Nat × Int → Prop) (a b c : Bool) (x y z : Nat × Int)
    (hx : a = true → P x) (hy : b = true → P y) (hz : P z) :
    P (if (a && b) = true then (if c = true then y else x)
       else if a = true then x else if b = true then y else z) := by
  cases a <;> cases b <;> cases c <;> simp_all

theorem shortestAux_ok (mant : Nat) (exp p : Int) (hm : 0 < mant) (hnorm : IsBinary64 mant exp)
    (fuel n : Nat) :
    decimalMagnitude (shortestAux mant exp p fuel n).1 (shortestAux mant exp p fuel n).2 =
      some (mant, exp) := by
  induction fuel generalizing n with
  | zero =>
    unfold shortestAux
    exact decimalMagnitude_exact mant exp hm hnorm
  | succ fuel ih =>
    unfold shortestAux
    simp only
    refine pick_ok (fun dk => decimalMagnitude dk.1 dk.2 = some (mant, exp)) _ _ _ _ _ _
      ?_ ?_ (ih (n + 1))
    · intro h1
      simp only [decide_eq_true_eq] at h1
      exact (roundDecimal_eq_some false _ _ _ _).mp h1
    · intro h1
      simp only [decide_eq_true_eq] at h1
      exact (roundDecimal_eq_some false _ _ _ _).mp h1

theorem stripZeros_ok (fuel d : Nat) (k : Int) :
    decimalMagnitude (stripZeros fuel d k).1 (stripZeros fuel d k).2 = decimalMagnitude d k := by
  induction fuel generalizing d k with
  | zero => rfl
  | succ fuel ih =>
    unfold stripZeros
    split_ifs with h
    · rw [ih, decimalMagnitude_strip d k h.2]
    · rfl

theorem shortest_ok (mant : Nat) (exp : Int) (hm : 0 < mant) (hnorm : IsBinary64 mant exp) :
    decimalMagnitude (shortest mant exp).1 (shortest mant exp).2 = some (mant, exp) := by
  unfold shortest
  simp only
  rw [stripZeros_ok]
  exact shortestAux_ok mant exp _ hm hnorm 17 1

/-! ### Decimal digits -/

theorem digitsValue_foldl (ds : List (Fin 10)) (a : Nat) :
    ds.foldl (fun a d => a * 10 + d.val) a = a * 10 ^ ds.length + digitsValue ds := by
  induction ds generalizing a with
  | nil => simp [digitsValue]
  | cons d rest ih =>
    simp only [List.foldl_cons, List.length_cons, digitsValue]
    rw [ih, ih (0 * 10 + d.val)]
    ring

theorem digitsValue_append (a b : List (Fin 10)) :
    digitsValue (a ++ b) = digitsValue a * 10 ^ b.length + digitsValue b := by
  unfold digitsValue
  rw [List.foldl_append, digitsValue_foldl]
  rfl

theorem digitsValue_cons (d : Fin 10) (rest : List (Fin 10)) :
    digitsValue (d :: rest) = d.val * 10 ^ rest.length + digitsValue rest := by
  have := digitsValue_append [d] rest
  simpa [digitsValue] using this

theorem digitsValue_zeros (m : Nat) (ds : List (Fin 10)) :
    digitsValue (List.replicate m 0 ++ ds) = digitsValue ds := by
  induction m with
  | zero => simp
  | succ m ih =>
    rw [List.replicate_succ, List.cons_append, digitsValue_cons, ih]
    simp

theorem decDigitsAux_spec (fuel n : Nat) (acc : List (Fin 10)) (h : n < fuel) :
    ∃ d l, decDigitsAux fuel n acc = d :: l ++ acc ∧ digitsValue (d :: l) = n ∧
      (n ≠ 0 → d.val ≠ 0) := by
  induction fuel generalizing n acc with
  | zero => omega
  | succ fuel ih =>
    unfold decDigitsAux
    by_cases h10 : n < 10
    · rw [if_pos h10]
      refine ⟨⟨n % 10, Nat.mod_lt _ (by decide)⟩, [], rfl, ?_, ?_⟩
      · simp [digitsValue]
        omega
      · intro hn
        simp
        omega
    · rw [if_neg h10]
      obtain ⟨d, l, h1, h2, h3⟩ := ih (n / 10) (⟨n % 10, Nat.mod_lt _ (by decide)⟩ :: acc)
        (by omega)
      refine ⟨d, l ++ [⟨n % 10, Nat.mod_lt _ (by decide)⟩], ?_, ?_, ?_⟩
      · rw [h1]
        simp
      · have := digitsValue_append (d :: l) [⟨n % 10, Nat.mod_lt _ (by decide)⟩]
        rw [List.cons_append] at this
        rw [this, h2]
        simp [digitsValue]
        omega
      · intro _
        exact h3 (by omega)

theorem decDigits_spec (n : Nat) :
    ∃ d l, decDigits n = d :: l ∧ digitsValue (d :: l) = n ∧ (n ≠ 0 → d.val ≠ 0) := by
  obtain ⟨d, l, h1, h2, h3⟩ := decDigitsAux_spec (n + 1) n [] (by omega)
  exact ⟨d, l, by simpa [decDigits] using h1, h2, h3⟩

theorem digitsValue_decDigits (n : Nat) : digitsValue (decDigits n) = n := by
  obtain ⟨d, l, h1, h2, -⟩ := decDigits_spec n
  rw [h1, h2]

theorem parse_layoutDigits (neg : Bool) (d : Nat) (k : Int) :
    parseFloat64 (layoutDigits neg d k) = roundDecimal neg d k := by
  obtain ⟨d0, l0, hds, hval, -⟩ := decDigits_spec d
  have hval2 : d0.val * 10 ^ l0.length + digitsValue l0 = d := by
    rw [← digitsValue_cons]
    exact hval
  unfold layoutDigits
  simp only [hds, List.length_cons, List.headD_cons, List.drop_succ_cons, List.drop_zero]
  split_ifs with h1 h2 h3
  · simp only [parseFloat64, Option.getD_some, hval2]
    congr 1
    push_cast
    omega
  · have hz := digitsValue_zeros (-(k + ((l0.length + 1 : ℕ) : ℤ))).toNat (d0 :: l0)
    simp only [parseFloat64, Option.getD_none, Nat.zero_mul, Nat.zero_add, hz, hval,
      List.length_append, List.length_replicate, List.length_cons]
    congr 1
    push_cast at h2 ⊢
    omega
  · have hk : 0 ≤ k := by
      push_cast at h3
      omega
    simp only [parseFloat64, Option.getD_none, List.length_nil, pow_zero, Nat.mul_one,
      digitsValue, List.foldl_nil, Nat.add_zero, Nat.cast_zero, sub_zero]
    unfold roundDecimal decimalMagnitude
    simp [hk]
  · have hsplit := digitsValue_append ((d0 :: l0).take (k + ((l0.length + 1 : ℕ) : ℤ)).toNat)
      ((d0 :: l0).drop (k + ((l0.length + 1 : ℕ) : ℤ)).toNat)
    rw [List.take_append_drop, hval] at hsplit
    simp only [parseFloat64, Option.getD_none, ← hsplit]
    congr 1
    rw [List.length_drop, List.length_cons]
    push_cast at h2 h3 ⊢
    omega

theorem format_parse (neg : Bool) (mant : Nat) (exp : Int) (hnorm : IsBinary64 mant exp) :
    ∃ l, formatFloat64 (.finite neg mant exp) = some l ∧
      parseFloat64 l = some (.finite neg mant exp) := by
  by_cases hm : mant = 0
  · subst hm
    have hexp : exp = -1074 := by
      obtain ⟨-, -, -, h⟩ := hnorm
      rcases h with h | h
      · norm_num at h
      · exact h
    subst hexp
    refine ⟨{ neg := neg, int := 0, frac := [], exp := none }, by simp [formatFloat64], ?_⟩
    simp [parseFloat64, roundDecimal, decimalMagnitude, roundMagnitude, digitsValue]
  · refine ⟨layoutDigits neg (shortest mant exp).1 (shortest mant exp).2,
      by simp [formatFloat64, hm], ?_⟩
    rw [parse_layoutDigits, roundDecimal_eq_some]
    exact shortest_ok mant exp (Nat.pos_of_ne_zero hm) hnorm

theorem parse_normal (lit : NumLit) (f : Binary64) (h : parseFloat64 lit = some f) :
    ∃ mant exp, f = .finite lit.neg mant exp ∧ IsBinary64 mant exp := by
  unfold parseFloat64 roundDecimal at h
  cases hd : decimalMagnitude (lit.int * 10 ^ lit.frac.length + digitsValue lit.frac)
      (lit.exp.getD 0 - (lit.frac.length : ℤ)) with
  | none => simp [hd] at h
  | some m =>
    obtain ⟨q, ex⟩ := m
    simp only [hd, Option.map_some', Option.some.injEq] at h
    exact ⟨q, ex, h.symm, decimalMagnitude_normal _ _ q ex hd⟩

/-- The conversions of `strconv64` round-trip: the zero value and every parsed
value have a formatted literal that parses back to them. -/
theorem strconv64_lawful : strconv64.Lawful := by
  constructor
  · exact format_parse false 0 (-1074) (by unfold IsBinary64; norm_num)
  · intro lit f h
    obtain ⟨mant, exp, rfl, hnorm⟩ := parse_normal lit f h
    exact format_parse lit.neg mant exp hnorm

/-! ## Reading back the text of a payload -/

theorem digitOf_digitChar : ∀ d : Fin 10, digitOf (digitChar d) = some d := by decide

theorem digitChar_ne_minus : ∀ d : Fin 10, digitChar d ≠ '-' := by decide

theorem digitChar_plain : ∀ d : Fin 10, isSpace (digitChar d) = false ∧ digitChar d ≠ '\x7b' ∧
    digitChar d ≠ '[' ∧ digitChar d ≠ '"' ∧ digitChar d ≠ 't' ∧ digitChar d ≠ 'f' ∧
    digitChar d ≠ 'n' := by decide

theorem takeDigits_digits (ds : List (Fin 10)) (x : Char) (tl : List Char)
    (hx : digitOf x = none) :
    takeDigits (ds.map digitChar ++ x :: tl) = (ds, x :: tl) := by
  induction ds with
  | nil => simp [takeDigits, hx]
  | cons d ds ih =>
    have h : takeDigits (digitChar d :: (ds.map digitChar ++ x :: tl)) =
        (d :: (takeDigits (ds.map digitChar ++ x :: tl)).1,
          (takeDigits (ds.map digitChar ++ x :: tl)).2) := by
      simp only [takeDigits, digitOf_digitChar]
    rw [List.map_cons, List.cons_append, h, ih]

theorem parseExponent_none (x : Char) (tl : List Char) (h1 : x ≠ 'e') (h2 : x ≠ 'E') :
    parseExponent (x :: tl) = some (none, x :: tl) := by
  simp [parseExponent, h1, h2]

theorem decDigits_ne_nil (n : Nat) : decDigits n ≠ [] := by
  obtain ⟨d, l, h, -⟩ := decDigits_spec n
  simp [h]

theorem parseExponent_some (e : Int) (x : Char) (tl : List Char) (hx : digitOf x = none) :
    parseExponent ('e' :: (if e < 0 then '-' else '+') :: natText e.natAbs ++ x :: tl) =
      some (some e, x :: tl) := by
  by_cases he : e < 0
  · have hv : -|e| = e := by rw [abs_of_neg he]; omega
    simp [parseExponent, he, natText, takeDigits_digits _ x tl hx, decDigits_ne_nil,
      digitsValue_decDigits, hv]
  · have hv : |e| = e := abs_of_nonneg (by omega)
    simp [parseExponent, he, natText, takeDigits_digits _ x tl hx, decDigits_ne_nil,
      digitsValue_decDigits, hv]

theorem parseFraction_digits (frac : List (Fin 10)) (x : Char) (tl : List Char)
    (hx : digitOf x = none) (hp : x ≠ '.') :
    parseFraction ((if frac = [] then [] else '.' :: frac.map digitChar) ++ x :: tl) =
      some (frac, x :: tl) := by
  by_cases hf : frac = []
  · simp [hf, parseFraction, hp]
  · simp [hf, parseFraction, takeDigits_digits frac x tl hx]

theorem parseNumber_render (n : NumLit) (x : Char) (tl : List Char)
    (hx : digitOf x = none) (hp : x ≠ '.') (h1 : x ≠ 'e') (h2 : x ≠ 'E') :
    parseNumber (n.render ++ x :: tl) = some (n, x :: tl) := by
  obtain ⟨d, l, hds, hval, hlead⟩ := decDigits_spec n.int
  have hexp : ∃ y tl1, (match n.exp with
      | none => []
      | some e => 'e' :: (if e < 0 then '-' else '+') :: natText e.natAbs) ++ x :: tl = y :: tl1 ∧
      digitOf y = none ∧ y ≠ '.' ∧ parseExponent (y :: tl1) = some (n.exp, x :: tl) := by
    cases hn : n.exp with
    | none => exact ⟨x, tl, rfl, hx, hp, parseExponent_none x tl h1 h2⟩
    | some e =>
      exact ⟨'e', _, rfl, by decide, by decide, parseExponent_some e x tl hx⟩
  obtain ⟨y, tl1, hy, hyd, hyp, hye⟩ := hexp
  have hfr : ∃ z tl2, (if n.frac = [] then [] else '.' :: n.frac.map digitChar) ++ y :: tl1 =
      z :: tl2 ∧ digitOf z = none ∧ parseFraction (z :: tl2) = some (n.frac, y :: tl1) := by
    have h := parseFraction_digits n.frac y tl1 hyd hyp
    by_cases hf : n.frac = []
    · exact ⟨y, tl1, by simp [hf], hyd, by simpa [hf] using h⟩
    · exact ⟨'.', n.frac.map digitChar ++ y :: tl1, by simp [hf], by decide,
        by simpa [hf] using h⟩
  obtain ⟨z, tl2, hz, hzd, hzf⟩ := hfr
  have htext : n.render ++ x :: tl =
      (if n.neg then ['-'] else []) ++ (digitChar d :: (l.map digitChar ++ z :: tl2)) := by
    have hnt : natText n.int = digitChar d :: l.map digitChar := by simp [natText, hds]
    simp only [NumLit.render, hnt, List.append_assoc, List.cons_append]
    rw [hy, hz]
  have hdig : takeDigits (digitChar d :: (l.map digitChar ++ z :: tl2)) = (d :: l, z :: tl2) := by
    have := takeDigits_digits (d :: l) z tl2 hzd
    simpa using this
  have hzero : ¬ ((d :: l).head? = some 0 ∧ (d :: l).length ≠ 1) := by
    rintro ⟨h0, hlen⟩
    simp only [List.head?_cons, Option.some.injEq] at h0
    by_cases hi : n.int = 0
    · rw [hi] at hds
      have : decDigits 0 = [0] := by decide
      rw [this] at hds
      simp only [List.cons.injEq] at hds
      rw [← hds.2] at hlen
      simp at hlen
    · exact hlead hi (by rw [h0]; rfl)
  rw [htext]
  cases hneg : n.neg with
  | false =>
    simp only [Bool.false_eq_true, if_false, List.nil_append, parseNumber, digitChar_ne_minus,
      hdig, hzero, hzf, hye, or_false, reduceCtorEq, hval]
    cases n
    simp_all
  | true =>
    simp only [if_true, List.cons_append, List.nil_append, parseNumber, hdig, hzero, hzf, hye,
      or_false, reduceCtorEq, hval]
    cases n
    simp_all

theorem parseStringAux_plain (k : List Char)
    (hk : ∀ c ∈ k, c ≠ '"' ∧ c ≠ '\\' ∧ ¬ c.toNat < 0x20) :
    ∀ (fuel : Nat) (acc rest : List Char), k.length < fuel →
      parseStringAux fuel (k ++ '"' :: rest) acc = some (String.mk (acc.reverse ++ k), rest) := by
  induction k with
  | nil =>
    intro fuel acc rest hf
    obtain ⟨f, rfl⟩ : ∃ f, fuel = f + 1 := ⟨fuel - 1, by simp at hf; omega⟩
    simp [parseStringAux]
  | cons c k ih =>
    intro fuel acc rest hf
    obtain ⟨f, rfl⟩ : ∃ f, fuel = f + 1 := ⟨fuel - 1, by simp at hf; omega⟩
    obtain ⟨h1, h2, h3⟩ := hk c (List.mem_cons_self _ _)
    have hlen : k.length < f := by simp at hf; omega
    have := ih (fun c hc => hk c (List.mem_cons_of_mem _ hc)) f (c :: acc) rest hlen
    simp [parseStringAux, h1, h2, h3, this]

theorem parseString_plain (k : String) (rest : List Char)
    (hk : ∀ c ∈ k.data, c ≠ '"' ∧ c ≠ '\\' ∧ ¬ c.toNat < 0x20) :
    parseString (k.data ++ '"' :: rest) = some (k, rest) := by
  have := parseStringAux_plain k.data hk (k.data ++ '"' :: rest).length [] rest (by simp)
  simpa [parseString] using this

theorem render_head (n : NumLit) : ∃ c tl, n.render = c :: tl ∧ isSpace c = false ∧
    c ≠ '\x7b' ∧ c ≠ '[' ∧ c ≠ '"' ∧ c ≠ 't' ∧ c ≠ 'f' ∧ c ≠ 'n' := by
  obtain ⟨d, l, hds, -, -⟩ := decDigits_spec n.int
  have hnt : natText n.int = digitChar d :: l.map digitChar := by simp [natText, hds]
  cases hneg : n.neg with
  | true =>
    refine ⟨'-', _, by simp only [NumLit.render, hneg, if_true, List.cons_append,
      List.nil_append, List.append_assoc]; rfl, by decide⟩
  | false =>
    refine ⟨digitChar d, _, by simp only [NumLit.render, hneg, hnt, Bool.false_eq_true, if_false,
      List.cons_append, List.nil_append, List.append_assoc]; rfl, digitChar_plain d⟩

theorem parseValue_number (fuel : Nat) (n : NumLit) (x : Char) (tl : List Char)
    (hx : digitOf x = none) (hp : x ≠ '.') (h1 : x ≠ 'e') (h2 : x ≠ 'E') :
    parseValue (fuel + 1) (n.render ++ x :: tl) = some (.num n, x :: tl) := by
  have hnum := parseNumber_render n x tl hx hp h1 h2
  obtain ⟨c, tl0, hr, hs, c1, c2, c3, c4, c5, c6⟩ := render_head n
  rw [hr] at hnum ⊢
  rw [List.cons_append] at hnum ⊢
  simp only [parseValue, skipSpace, hs, Bool.false_eq_true, if_false, c1, c2, c3, c4, c5, c6,
    hnum]

theorem parseMembers_step (f : Nat) (k : String) (n : NumLit) (x : Char) (tl : List Char)
    (hk : ∀ c ∈ k.data, c ≠ '"' ∧ c ≠ '\\' ∧ ¬ c.toNat < 0x20) (hx : x = ',' ∨ x = '\x7d') :
    parseMembers (f + 2) ('"' :: (k.data ++ '"' :: ':' :: (n.render ++ x :: tl))) =
      if x = ',' then
        match parseMembers (f + 1) tl with
        | none => none
        | some r => some ((k, Json.num n) :: r.1, r.2)
      else some ([(k, Json.num n)], tl) := by
  have hxs : digitOf x = none ∧ x ≠ '.' ∧ x ≠ 'e' ∧ x ≠ 'E' ∧ isSpace x = false := by
    rcases hx with rfl | rfl <;> decide
  obtain ⟨a1, a2, a3, a4, a5⟩ := hxs
  have hv := parseValue_number f n x tl a1 a2 a3 a4
  have hs := parseString_plain k (':' :: (n.render ++ x :: tl)) hk
  have hq : isSpace '"' = false := by decide
  have hc : isSpace ':' = false := by decide
  rw [parseMembers]
  simp only [skipSpace, hq, hc, Bool.false_eq_true, if_false, if_true, hs, hv, a5]
  rcases hx with rfl | rfl
  · simp
  · simp

theorem renderMembers_cons (k : String) (n : NumLit) (m : String × NumLit)
    (rest : List (String × NumLit)) (tl : List Char) :
    renderMembers ((k, n) :: m :: rest) ++ tl =
      '"' :: (k.data ++ '"' :: ':' :: (n.render ++ ',' :: (renderMembers (m :: rest) ++ tl))) := by
  simp [renderMembers]

theorem renderMembers_one (k : String) (n : NumLit) (tl : List Char) :
    renderMembers [(k, n)] ++ tl = '"' :: (k.data ++ '"' :: ':' :: (n.render ++ tl)) := by
  simp [renderMembers]

theorem parseMembers_render (ms : List (String × NumLit)) (hne : ms ≠ [])
    (hk : ∀ m ∈ ms, ∀ c ∈ m.1.data, c ≠ '"' ∧ c ≠ '\\' ∧ ¬ c.toNat < 0x20) :
    ∀ (fuel : Nat) (tl : List Char), ms.length < fuel →
      parseMembers fuel (renderMembers ms ++ '\x7d' :: tl) =
        some (ms.map fun m => (m.1, Json.num m.2), tl) := by
  induction ms with
  | nil => exact absurd rfl hne
  | cons m rest ih =>
    intro fuel tl hf
    obtain ⟨k, n⟩ := m
    cases rest with
    | nil =>
      obtain ⟨f, rfl⟩ : ∃ f, fuel = f + 2 := ⟨fuel - 2, by simp at hf; omega⟩
      rw [renderMembers_one, parseMembers_step f k n _ tl (hk _ (List.mem_cons_self _ _))
        (Or.inr rfl)]
      simp
    | cons m2 rest2 =>
      obtain ⟨f, rfl⟩ : ∃ f, fuel = f + 2 := ⟨fuel - 2, by simp at hf; omega⟩
      have hrec := ih (by simp) (fun m hm => hk m (List.mem_cons_of_mem _ hm)) (f + 1) tl
        (by simp at hf ⊢; omega)
      rw [renderMembers_cons, parseMembers_step f k n _ _ (hk _ (List.mem_cons_self _ _))
        (Or.inl rfl), hrec]
      simp

theorem renderMembers_length (ms : List (String × NumLit)) :
    ms.length ≤ (renderMembers ms).length := by
  induction ms with
  | nil => simp
  | cons m rest ih =>
    obtain ⟨k, n⟩ := m
    cases rest with
    | nil => simp [renderMembers]
    | cons m2 rest2 =>
      have := renderMembers_cons k n m2 rest2 []
      simp only [List.append_nil] at this
      rw [this]
      simp only [List.length_cons, List.length_append] at ih ⊢
      omega

theorem renderMembers_head (ms : List (String × NumLit)) (hne : ms ≠ []) :
    ∃ tl, renderMembers ms = '"' :: tl := by
  cases ms with
  | nil => exact absurd rfl hne
  | cons m rest =>
    obtain ⟨k, n⟩ := m
    cases rest with
    | nil => exact ⟨_, by simpa using renderMembers_one k n []⟩
    | cons m2 rest2 => exact ⟨_, by simpa using renderMembers_cons k n m2 rest2 []⟩

theorem parseJson_renderObject (ms : List (String × NumLit)) (hne : ms ≠ [])
    (hk : ∀ m ∈ ms, ∀ c ∈ m.1.data, c ≠ '"' ∧ c ≠ '\\' ∧ ¬ c.toNat < 0x20) :
    parseJson (renderObject ms) = some (objectValue ms) := by
  have hlen := renderMembers_length ms
  have hmem := parseMembers_render ms hne hk ((renderMembers ms).length + 2) []
    (by omega)
  obtain ⟨tl0, h0⟩ := renderMembers_head ms hne
  have hb : isSpace '\x7b' = false := by decide
  have hq : isSpace '"' = false := by decide
  have hqb : ('"' = '\x7d') = False := by decide
  have hfuel : (renderObject ms).length + 1 = (renderMembers ms).length + 1 + 1 + 1 := by
    simp [renderObject, String.length]
  rw [parseJson, hfuel]
  simp only [renderObject, parseValue, skipSpace, hb, Bool.false_eq_true, if_false, if_true]
  rw [h0] at hmem ⊢
  simp only [List.cons_append, skipSpace, hq, Bool.false_eq_true, if_false, hqb]
  rw [List.cons_append] at hmem
  simp only [List.append_eq]
  rw [hmem]
  simp [skipSpace, objectValue]

theorem ofText_renderObject (ms : List (String × NumLit)) (hne : ms ≠ [])
    (hk : ∀ m ∈ ms, ∀ c ∈ m.1.data, c ≠ '"' ∧ c ≠ '\\' ∧ ¬ c.toNat < 0x20) :
    Body.ofText (renderObject ms) = .json (objectValue ms) := by
  simp [Body.ofText, parseJson_renderObject ms hne hk]

/-! ## Decoded readings -/

theorem findField_mem {T : Type} (fields : List (Field T)) (k : String) (f : Field T)
    (h : findField fields k = some f) : f ∈ fields := by
  unfold findField at h
  split at h
  · rename_i g hg
    simp only [Option.some.injEq] at h
    exact h ▸ List.mem_of_find?_eq_some hg
  · exact List.mem_of_find?_eq_some h

theorem objectInto_preserves {T : Type} (P : T → Prop) (fields : List (Field T))
    (hf : ∀ f ∈ fields, ∀ s j s1, P s → f.set s j = some s1 → P s1)
    (ms : List (String × Json)) (cur res : T) (hcur : P cur)
    (h : objectInto fields cur ms = some res) : P res := by
  induction ms generalizing cur with
  | nil =>
    simp only [objectInto, Option.some.injEq] at h
    exact h ▸ hcur
  | cons m rest ih =>
    obtain ⟨k, v⟩ := m
    simp only [objectInto] at h
    cases hfind : findField fields k with
    | none =>
      rw [hfind] at h
      exact ih cur hcur h
    | some f =>
      rw [hfind] at h
      cases hset : f.set cur v with
      | none => simp [hset] at h
      | some next =>
        simp only [hset] at h
        exact ih next (hf f (findField_mem fields k f hfind) cur v next hcur hset) h

theorem unmarshalStruct_preserves {T : Type} (P : T → Prop) (fields : List (Field T))
    (hf : ∀ f ∈ fields, ∀ s j s1, P s → f.set s j = some s1 → P s1)
    (j : Json) (cur res : T) (hcur : P cur)
    (h : unmarshalStruct fields cur j = some res) : P res := by
  cases j with
  | null =>
    simp only [unmarshalStruct, Option.some.injEq] at h
    exact h ▸ hcur
  | obj ms => exact objectInto_preserves P fields hf ms cur res hcur h
  | bool b => simp [unmarshalStruct] at h
  | num n => simp [unmarshalStruct] at h
  | str s => simp [unmarshalStruct] at h
  | arr l => simp [unmarshalStruct] at h

theorem parseInt64_range (n : NumLit) (t : Int) (h : parseInt64 n = some t) : IsInt64 t := by
  unfold parseInt64 at h
  by_cases hc : n.frac = [] ∧ n.exp = none
  · rw [if_pos hc] at h
    simp only at h
    generalize (if n.neg = true then -(n.int : Int) else (n.int : Int)) = v at h
    by_cases hr : -(2 : Int) ^ 63 ≤ v ∧ v < (2 : Int) ^ 63
    · rw [if_pos hr] at h
      injection h with h
      exact h ▸ hr
    · rw [if_neg hr] at h
      cases h
  · rw [if_neg hc] at h
    cases h

theorem unmarshalInt64_range (cur t : Int) (j : Json) (hcur : IsInt64 cur)
    (h : unmarshalInt64 cur j = some t) : IsInt64 t := by
  cases j with
  | null =>
    simp only [unmarshalInt64, Option.some.injEq] at h
    exact h ▸ hcur
  | num n => exact parseInt64_range n t h
  | bool b => simp [unmarshalInt64] at h
  | obj ms => simp [unmarshalInt64] at h
  | str s => simp [unmarshalInt64] at h
  | arr l => simp [unmarshalInt64] at h

theorem unmarshalFloat64_decoded {F : Type} (lib : FloatLib F) (cur x : F) (j : Json)
    (hcur : IsDecoded lib cur) (h : unmarshalFloat64 lib cur j = some x) : IsDecoded lib x := by
  cases j with
  | null =>
    simp only [unmarshalFloat64, Option.some.injEq] at h
    exact h ▸ hcur
  | num n => exact Or.inr ⟨n, h⟩
  | bool b => simp [unmarshalFloat64] at h
  | obj ms => simp [unmarshalFloat64] at h
  | str s => simp [unmarshalFloat64] at h
  | arr l => simp [unmarshalFloat64] at h

theorem intValue_preserves (j : Json) (cur res : IntValue) (hcur : IsInt64 cur.Value)
    (h : unmarshalStruct IntValue.fields cur j = some res) : IsInt64 res.Value := by
  refine unmarshalStruct_preserves (fun s => IsInt64 s.Value) IntValue.fields ?_ j cur res hcur h
  intro f hf s j s1 hs hset
  simp only [IntValue.fields, List.mem_singleton] at hf
  subst hf
  simp only [Option.map_eq_some'] at hset
  obtain ⟨t, ht, rfl⟩ := hset
  exact unmarshalInt64_range _ _ _ hs ht

theorem floatValue_preserves {F : Type} (lib : FloatLib F) (j : Json) (cur res : FloatValue F)
    (hcur : IsDecoded lib cur.Value)
    (h : unmarshalStruct (FloatValue.fields lib) cur j = some res) : IsDecoded lib res.Value := by
  refine unmarshalStruct_preserves (fun s => IsDecoded lib s.Value) (FloatValue.fields lib) ?_
    j cur res hcur h
  intro f hf s j s1 hs hset
  simp only [FloatValue.fields, List.mem_singleton] at hf
  subst hf
  simp only [Option.map_eq_some'] at hset
  obtain ⟨t, ht, rfl⟩ := hset
  exact unmarshalFloat64_decoded lib _ _ _ hs ht

theorem deviceFields_preserves {F : Type} (lib : FloatLib F) (j : Json)
    (cur res : DeviceFields F) (info info1 : DeviceInfo)
    (hcur : Device.Decoded lib { Info := info, Data := cur })
    (h : unmarshalStruct (DeviceFields.fields lib) cur j = some res) :
    Device.Decoded lib { Info := info1, Data := res } := by
  refine unmarshalStruct_preserves
    (fun s => Device.Decoded lib { Info := info1, Data := s }) (DeviceFields.fields lib) ?_
    j cur res hcur h
  intro f hf s j s1 hs hset
  obtain ⟨h0, h1, h2, h3, h4, h5, h6⟩ := hs
  simp only [DeviceFields.fields, List.mem_cons, List.mem_singleton, List.not_mem_nil,
    or_false] at hf
  rcases hf with rfl | rfl | rfl | rfl | rfl | rfl | rfl <;>
    simp only [Option.map_eq_some'] at hset <;>
    obtain ⟨t, ht, rfl⟩ := hset
  · exact ⟨intValue_preserves _ _ _ h0 ht, h1, h2, h3, h4, h5, h6⟩
  · exact ⟨h0, floatValue_preserves lib _ _ _ h1 ht, h2, h3, h4, h5, h6⟩
  · exact ⟨h0, h1, floatValue_preserves lib _ _ _ h2 ht, h3, h4, h5, h6⟩
  · exact ⟨h0, h1, h2, floatValue_preserves lib _ _ _ h3 ht, h4, h5, h6⟩
  · exact ⟨h0, h1, h2, h3, floatValue_preserves lib _ _ _ h4 ht, h5, h6⟩
  · exact ⟨h0, h1, h2, h3, h4, floatValue_preserves lib _ _ _ h5 ht, h6⟩
  · exact ⟨h0, h1, h2, h3, h4, h5, floatValue_preserves lib _ _ _ h6 ht⟩

theorem device_zero_decoded {F : Type} (lib : FloatLib F) : Device.Decoded lib (Device.zero lib) := by
  refine ⟨?_, Or.inl rfl, Or.inl rfl, Or.inl rfl, Or.inl rfl, Or.inl rfl, Or.inl rfl⟩
  simp [Device.flatten, Device.zero, DeviceFields.zero, IsInt64]

theorem device_preserves {F : Type} (lib : FloatLib F) (j : Json) (cur res : Device F)
    (hcur : Device.Decoded lib cur)
    (h : unmarshalStruct (Device.fields lib) cur j = some res) :
    Device.Decoded lib res := by
  refine unmarshalStruct_preserves (Device.Decoded lib) (Device.fields lib) ?_ j
    cur res hcur h
  intro f hf s j s1 hs hset
  simp only [Device.fields, List.mem_cons, List.mem_singleton, List.not_mem_nil,
    or_false] at hf
  rcases hf with rfl | rfl <;>
    simp only [Option.map_eq_some'] at hset <;>
    obtain ⟨t, ht, rfl⟩ := hset
  · exact hs
  · exact deviceFields_preserves lib j s.Data t s.Info s.Info hs ht

theorem decodeElems_all {T : Type} (P : T → Prop) (elem : T → Json → Option T) (zero : T)
    (hzero : P zero) (hp : ∀ cur j x, P cur → elem cur j = some x → P x)
    (js : List Json) (backing xs : List T) (hb : ∀ x ∈ backing, P x)
    (h : decodeElems elem zero backing js = some xs) : ∀ x ∈ xs, P x := by
  induction js generalizing backing xs with
  | nil =>
    simp only [decodeElems, Option.some.injEq] at h
    subst h
    simp
  | cons j rest ih =>
    have key : ∀ (hd0 : T) (tl0 : List T), P hd0 → (∀ x ∈ tl0, P x) →
        (match elem hd0 j with
          | none => none
          | some x =>
            match decodeElems elem zero tl0 rest with
            | none => none
            | some xs => some (x :: xs)) = some xs → ∀ x ∈ xs, P x := by
      intro hd0 tl0 hhead htail h
      cases hj : elem hd0 j with
      | none => simp [hj] at h
      | some x0 =>
        cases hr : decodeElems elem zero tl0 rest with
        | none => simp [hj, hr] at h
        | some xs0 =>
          simp only [hj, hr, Option.some.injEq] at h
          subst h
          intro x hx
          rcases List.mem_cons.mp hx with rfl | hx
          · exact hp _ j _ hhead hj
          · exact ih tl0 xs0 htail hr x hx
    cases backing with
    | nil => exact key zero [] hzero (by simp) h
    | cons b0 bs =>
      exact key b0 bs (hb b0 (List.mem_cons_self _ _))
        (fun x hx => hb x (List.mem_cons_of_mem _ hx)) h

theorem devicesResp_decoded {F : Type} (lib : FloatLib F) (j : Json) (resp : DevicesResp F)
    (h : unmarshalStruct (DevicesResp.fields lib) DevicesResp.zero j = some resp) :
    ∀ d ∈ resp.Devices, Device.Decoded lib d := by
  have hall : ∀ d ∈ resp.Devices ++ resp.spare, Device.Decoded lib d := by
    refine unmarshalStruct_preserves
      (fun s => ∀ d ∈ s.Devices ++ s.spare, Device.Decoded lib d)
      (DevicesResp.fields lib) ?_ j DevicesResp.zero resp (by simp [DevicesResp.zero]) h
    intro f hf s j s1 hs hset
    simp only [DevicesResp.fields, List.mem_singleton] at hf
    subst hf
    simp only [Option.map_eq_some'] at hset
    obtain ⟨ds, hds, rfl⟩ := hset
    cases j with
    | null =>
      simp only [unmarshalSlice, Option.some.injEq] at hds
      subst hds
      simp
    | arr elems =>
      cases elems with
      | nil =>
        simp only [unmarshalSlice, Option.some.injEq] at hds
        subst hds
        simp
      | cons j0 js =>
        simp only [unmarshalSlice] at hds
        cases hde : decodeElems (unmarshalStruct (Device.fields lib)) (Device.zero lib)
            (s.Devices ++ s.spare) (j0 :: js) with
        | none => simp [hde] at hds
        | some xs =>
          simp only [hde, Option.some.injEq] at hds
          subst hds
          intro d hd
          rcases List.mem_append.mp hd with hd | hd
          · exact decodeElems_all (Device.Decoded lib) _ _ (device_zero_decoded lib)
              (fun cur j x hc hx => device_preserves lib j cur x hc hx) _ _ _ hs hde d hd
          · exact hs d (List.mem_of_mem_drop hd)
    | bool b => simp [unmarshalSlice] at hds
    | num n => simp [unmarshalSlice] at hds
    | str s => simp [unmarshalSlice] at hds
    | obj ms => simp [unmarshalSlice] at hds
  exact fun d hd => hall d (List.mem_append_left _ hd)

theorem fillMap_values {F : Type} (l : List (Device F)) (k : String) (r : DeviceData F)
    (h : (fillMap [] l).get? k = some r) : ∃ v ∈ l, r = v.flatten := by
  rw [fillMap_get?] at h
  cases hf : List.find? (fun v => decide (v.Info.Mac = k)) l.reverse with
  | none => simp [hf, GoMap.get?] at h
  | some v =>
    simp only [hf, Option.some.injEq] at h
    exact ⟨v, List.mem_reverse.mp (List.mem_of_find?_eq_some hf), h.symm⟩

/-- Every reading of a map returned by `deviceData` holds decoded values only,
and the map has one entry per key. -/
theorem deviceData_readings {F : Type} (lib : FloatLib F) (w : World F) (tok : String)
    (m : GoMap (DeviceData F)) (h : (deviceData lib w tok).1 = (some m, none)) :
    m.keys.Nodup ∧ ∀ k r, m.get? k = some r → r.Decoded lib := by
  have herr : (deviceData lib w tok).1.2 = none := by rw [h]
  obtain ⟨j, resp, hdec, -, hres⟩ := deviceData_ok_inv lib w tok herr
  rw [hres] at h
  simp only [Prod.mk.injEq, Option.some.injEq, and_true] at h
  subst h
  refine ⟨fillMap_nodup [] _ (by simp [GoMap.keys]), ?_⟩
  intro k r hr
  obtain ⟨v, hv, rfl⟩ := fillMap_values resp.Devices k r hr
  exact devicesResp_decoded lib j resp hdec v hv

theorem parseInt64_ofInt (t : Int) (h : IsInt64 t) : parseInt64 (NumLit.ofInt t) = some t := by
  obtain ⟨h1, h2⟩ := h
  have hv : (if decide (t < 0) = true then -(t.natAbs : Int) else (t.natAbs : Int)) = t := by
    by_cases hneg : t < 0
    · simp only [hneg, decide_True, if_true]
      omega
    · simp only [hneg, decide_False, Bool.false_eq_true, if_false]
      omega
  simp only [parseInt64, NumLit.ofInt, and_self, if_true, hv]
  rw [if_pos ⟨h1, h2⟩]

theorem lawful_decoded {F : Type} (lib : FloatLib F) (hl : lib.Lawful) (x : F)
    (hx : IsDecoded lib x) : ∃ l, lib.format x = some l ∧ lib.parse l = some x := by
  rcases hx with rfl | ⟨lit, hlit⟩
  · exact hl.1
  · exact hl.2 lit x hlit

theorem reading_decode {F : Type} (lib : FloatLib F) (r : DeviceData F)
    (b te h v c p : NumLit) (ht : IsInt64 r.Timestamp)
    (hb : lib.parse b = some r.Battery) (hte : lib.parse te = some r.Temperature)
    (hh : lib.parse h = some r.Humidity) (hv : lib.parse v = some r.TVOC)
    (hc : lib.parse c = some r.CO2) (hp : lib.parse p = some r.PM25) :
    unmarshalStruct (DeviceData.fields lib) (DeviceData.zero lib)
      (objectValue (readingMembers r.Timestamp b te h v c p)) = some r := by
  simp [objectValue, readingMembers, unmarshalStruct, objectInto, findField, List.find?,
    DeviceData.fields, unmarshalInt64, unmarshalFloat64, parseInt64_ofInt r.Timestamp ht,
    hb, hte, hh, hv, hc, hp]

theorem marshal_roundtrip {F : Type} (lib : FloatLib F) (hl : lib.Lawful) (r : DeviceData F)
    (hr : r.Decoded lib) :
    ∃ b te h v c p, lib.format r.Battery = some b ∧ lib.format r.Temperature = some te ∧
      lib.format r.Humidity = some h ∧ lib.format r.TVOC = some v ∧
      lib.format r.CO2 = some c ∧ lib.format r.PM25 = some p ∧
      jsonMarshal lib r = some (renderObject (readingMembers r.Timestamp b te h v c p)) ∧
      unmarshalStruct (DeviceData.fields lib) (DeviceData.zero lib)
        (objectValue (readingMembers r.Timestamp b te h v c p)) = some r := by
  obtain ⟨h0, h1, h2, h3, h4, h5, h6⟩ := hr
  obtain ⟨b, fb, pb⟩ := lawful_decoded lib hl _ h1
  obtain ⟨te, fte, pte⟩ := lawful_decoded lib hl _ h2
  obtain ⟨h, fh, ph⟩ := lawful_decoded lib hl _ h3
  obtain ⟨v, fv, pv⟩ := lawful_decoded lib hl _ h4
  obtain ⟨c, fc, pc⟩ := lawful_decoded lib hl _ h5
  obtain ⟨p, fp, pp⟩ := lawful_decoded lib hl _ h6
  refine ⟨b, te, h, v, c, p, fb, fte, fh, fv, fc, fp, ?_,
    reading_decode lib r b te h v c p h0 pb pte ph pv pc pp⟩
  simp [jsonMarshal, DeviceData.members, fb, fte, fh, fv, fc, fp, readingMembers]

theorem cycle_publishes_eq {F : Type} (lib : FloatLib F) (cfg : Config) (w : World F)
    (h : (accessToken w cfg.appKey cfg.appSecret).1.2 = none)
    (hd : (deviceData lib w (accessToken w cfg.appKey cfg.appSecret).1.1).1.2 = none)
    (hc : w.connect (clientOptions cfg w) = none) :
    publishes (cycle lib cfg w) = publishes (publishLoop lib w
      (rangeOf w (deviceData lib w (accessToken w cfg.appKey cfg.appSecret).1.1).1.1)) := by
  rw [cycle_publishing lib cfg w h hd hc]
  have hA := accessToken_quiet w cfg.appKey cfg.appSecret
  have hD := deviceData_quiet lib w (accessToken w cfg.appKey cfg.appSecret).1.1
  simp [publishes, publishes_append, hA.2.1, hD.2]

theorem readingMembers_plain (t : Int) (b te h v c p : NumLit) :
    ∀ m ∈ readingMembers t b te h v c p, ∀ x ∈ m.1.data,
      x ≠ '"' ∧ x ≠ '\\' ∧ ¬ x.toNat < 0x20 := by
  intro m hm
  simp only [readingMembers, List.mem_cons, List.mem_singleton, List.not_mem_nil, or_false] at hm
  rcases hm with rfl | rfl | rfl | rfl | rfl | rfl | rfl <;> dsimp only <;> decide

theorem payload_unmarshal (r : DeviceData Binary64) (b te h v c p : NumLit)
    (hback : unmarshalStruct (DeviceData.fields strconv64) (DeviceData.zero strconv64)
      (objectValue (readingMembers r.Timestamp b te h v c p)) = some r) :
    parseJson (renderObject (readingMembers r.Timestamp b te h v c p)) =
        some (objectValue (readingMembers r.Timestamp b te h v c p)) ∧
      jsonUnmarshal (DeviceData.fields strconv64) (DeviceData.zero strconv64)
        (Body.ofText (renderObject (readingMembers r.Timestamp b te h v c p))) = .ok r := by
  have hne : readingMembers r.Timestamp b te h v c p ≠ [] := by simp [readingMembers]
  have hk := readingMembers_plain r.Timestamp b te h v c p
  refine ⟨parseJson_renderObject _ hne hk, ?_⟩
  have hd : (objectValue (readingMembers r.Timestamp b te h v c p)).depth ≤ maxNestingDepth := by
    simp [objectValue, readingMembers, Json.depth, depthMembers, maxNestingDepth]
  rw [ofText_renderObject _ hne hk, jsonUnmarshal_json _ _ _ hd, hback]

/-- C7: in a cycle whose token, device fetch and connection succeed, for every
address `mac` and reading `r` of the map the cycle issues exactly one publish
on the topic `qingping/data/` followed by `mac`, with QoS 1 and retain flag
false; its payload is the text of the JSON object with the seven members
timestamp, battery, temperature, humidity, tvoc, co2, pm25, in that order,
holding the timestamp and the `float64` encodings of the other fields of `r`
(every field of a fetched reading can be encoded); the payload text parses to
that object, and `json.Unmarshal` of the payload text into a zero reading
gives back `r`. -/
theorem cycle_publishes_reading (cfg : Config) (w : World Binary64)
    (m : GoMap (DeviceData Binary64))
    (hrange : (w.rangeOrder m).Perm m)
    (htok : (accessToken w cfg.appKey cfg.appSecret).1.2 = none)
    (hdev : (deviceData strconv64 w (accessToken w cfg.appKey cfg.appSecret).1.1).1 =
      (some m, none))
    (hconn : w.connect (clientOptions cfg w) = none)
    (mac : String) (r : DeviceData Binary64) (hr : m.get? mac = some r) :
    ∃ b te h v c p, formatFloat64 r.Battery = some b ∧ formatFloat64 r.Temperature = some te ∧
      formatFloat64 r.Humidity = some h ∧ formatFloat64 r.TVOC = some v ∧
      formatFloat64 r.CO2 = some c ∧ formatFloat64 r.PM25 = some p ∧
      (publishes (cycle strconv64 cfg w)).filter (fun q => decide (q.1.topic = topicOf mac)) =
        [(Message.mk ("qingping/data/" ++ mac) 1 false
            (renderObject (readingMembers r.Timestamp b te h v c p)),
          w.publish (Message.mk ("qingping/data/" ++ mac) 1 false
            (renderObject (readingMembers r.Timestamp b te h v c p))))] ∧
      (readingMembers r.Timestamp b te h v c p).map Prod.fst =
        ["timestamp", "battery", "temperature", "humidity", "tvoc", "co2", "pm25"] ∧
      parseJson (renderObject (readingMembers r.Timestamp b te h v c p)) =
        some (objectValue (readingMembers r.Timestamp b te h v c p)) ∧
      jsonUnmarshal (DeviceData.fields strconv64) (DeviceData.zero strconv64)
        (Body.ofText (renderObject (readingMembers r.Timestamp b te h v c p))) = .ok r := by
  obtain ⟨hnodup, hdecoded⟩ := deviceData_readings strconv64 w _ m hdev
  obtain ⟨b, te, h, v, c, p, fb, fte, fh, fv, fc, fp, hmarshal, hback⟩ :=
    marshal_roundtrip strconv64 strconv64_lawful r (hdecoded mac r hr)
  obtain ⟨hparse, hun⟩ := payload_unmarshal r b te h v c p hback
  refine ⟨b, te, h, v, c, p, fb, fte, fh, fv, fc, fp, ?_, rfl, hparse, hun⟩
  have hderr : (deviceData strconv64 w (accessToken w cfg.appKey cfg.appSecret).1.1).1.2 =
      none := by
    rw [hdev]
  have hmap : (deviceData strconv64 w (accessToken w cfg.appKey cfg.appSecret).1.1).1.1 =
      some m := by
    rw [hdev]
  rw [cycle_publishes_eq strconv64 cfg w htok hderr hconn, hmap]
  simp only [rangeOf]
  have hn : ((w.rangeOrder m).map Prod.fst).Nodup := (hrange.map Prod.fst).nodup_iff.mpr hnodup
  have hmem : (mac, r) ∈ w.rangeOrder m :=
    hrange.mem_iff.mpr ((GoMap.mem_iff_get? m hnodup mac r).mpr hr)
  rw [publishes_loop, attempts_topic strconv64 w _ hn mac r hmem]
  simp [attemptOf, hmarshal, messageOf, topicOf]

theorem cycle_publishes_reading_witness :
    ∃ b te h v c p, formatFloat64 scenarioReading.Battery = some b ∧
      formatFloat64 scenarioReading.Temperature = some te ∧
      formatFloat64 scenarioReading.Humidity = some h ∧
      formatFloat64 scenarioReading.TVOC = some v ∧
      formatFloat64 scenarioReading.CO2 = some c ∧
      formatFloat64 scenarioReading.PM25 = some p ∧
      (publishes (cycle strconv64 sampleConfig
          (quietWorld Binary64 scenarioToken scenarioDevices))).filter
          (fun q => decide (q.1.topic = topicOf "11:22:33")) =
        [(Message.mk ("qingping/data/" ++ "11:22:33") 1 false
            (renderObject (readingMembers scenarioReading.Timestamp b te h v c p)),
          (quietWorld Binary64 scenarioToken scenarioDevices).publish
            (Message.mk ("qingping/data/" ++ "11:22:33") 1 false
              (renderObject (readingMembers scenarioReading.Timestamp b te h v c p))))] ∧
      (readingMembers scenarioReading.Timestamp b te h v c p).map Prod.fst =
        ["timestamp", "battery", "temperature", "humidity", "tvoc", "co2", "pm25"] ∧
      parseJson (renderObject (readingMembers scenarioReading.Timestamp b te h v c p)) =
        some (objectValue (readingMembers scenarioReading.Timestamp b te h v c p)) ∧
      jsonUnmarshal (DeviceData.fields strconv64) (DeviceData.zero strconv64)
        (Body.ofText (renderObject (readingMembers scenarioReading.Timestamp b te h v c p))) =
        .ok scenarioReading :=
  cycle_publishes_reading sampleConfig (quietWorld Binary64 scenarioToken scenarioDevices)
    [("11:22:33", scenarioReading)] (List.Perm.refl _) rfl rfl rfl
    "11:22:33" scenarioReading rfl

/-! ## The end-to-end scenario -/

theorem scenario_decode :
    jsonUnmarshal (DevicesResp.fields strconv64) DevicesResp.zero scenarioDevices =
      .ok { Devices := [Device.ofRecord "11:22:33" scenarioReading] } := rfl

set_option maxRecDepth 20000 in
theorem scenario_marshal : jsonMarshal strconv64 scenarioReading = some scenarioPayload := by
  decide

/-- C9: with the token response `{"access_token":"tok123"}`, the device
response holding the single device of the scenario (timestamp under the key
`Value`), and a broker that accepts the connection and the publish, one cycle
makes exactly one publish, on the topic `qingping/data/11:22:33`, with QoS 1,
not retained, acknowledged, and with the payload
`{"timestamp":1000,"battery":90,"temperature":21.5,"humidity":40,"tvoc":0.1,"co2":500,"pm25":5}`. -/
theorem cycle_scenario (cfg : Config) (w : World Binary64)
    (hnew : ∀ method url, w.newRequest method url = none)
    (htoken : w.httpDo (accessTokenRequest cfg.appKey cfg.appSecret) = .body scenarioToken)
    (hdevices : w.httpDo (deviceDataRequest w.nowUnixNano "tok123") = .body scenarioDevices)
    (hconnect : w.connect (clientOptions cfg w) = none)
    (hpublish : ∀ msg, w.publish msg = none)
    (hrange : ∀ m, (w.rangeOrder m).Perm m) :
    publishes (cycle strconv64 cfg w) =
      [(Message.mk "qingping/data/11:22:33" 1 false scenarioPayload, none)] := by
  have htok : (accessToken w cfg.appKey cfg.appSecret).1 = ("tok123", none) := by
    have hd := token_decode "tok123" [] [] (by simp) (by simp)
    simp only [List.nil_append] at hd
    simp [accessToken, hnew, htoken, scenarioToken,
      jsonUnmarshal_json TokenResp.fields TokenResp.zero
        (.obj [("access_token", .str "tok123")]) (by decide), hd]
  have ht1 : (accessToken w cfg.appKey cfg.appSecret).1.1 = "tok123" := by rw [htok]
  have ht2 : (accessToken w cfg.appKey cfg.appSecret).1.2 = none := by rw [htok]
  have hdev : (deviceData strconv64 w "tok123").1 =
      (some [("11:22:33", scenarioReading)], none) := by
    rw [deviceData_decoded strconv64 w "tok123" scenarioDevices _ (hnew _ _) hdevices
      scenario_decode]
    rfl
  have hd1 : (deviceData strconv64 w (accessToken w cfg.appKey cfg.appSecret).1.1).1.1 =
      some [("11:22:33", scenarioReading)] := by rw [ht1, hdev]
  have hd2 : (deviceData strconv64 w (accessToken w cfg.appKey cfg.appSecret).1.1).1.2 =
      none := by rw [ht1, hdev]
  rw [cycle_publishes_eq strconv64 cfg w ht2 hd2 hconnect, hd1]
  have hord : w.rangeOrder [("11:22:33", scenarioReading)] = [("11:22:33", scenarioReading)] :=
    List.perm_singleton.mp (hrange _)
  simp only [rangeOf, hord, publishes_loop, List.filterMap_cons, List.filterMap_nil, attemptOf,
    scenario_marshal, Option.map_some', hpublish]
  rfl

theorem cycle_scenario_witness :
    publishes (cycle strconv64 sampleConfig (quietWorld Binary64 scenarioToken scenarioDevices)) =
      [(Message.mk "qingping/data/11:22:33" 1 false scenarioPayload, none)] :=
  cycle_scenario sampleConfig (quietWorld Binary64 scenarioToken scenarioDevices)
    (fun _ _ => rfl) rfl rfl rfl (fun _ => rfl) (fun _ => List.Perm.refl _)

/-! ## The token request -/

theorem decChar_encodeStd : ∀ k, k < 64 → decChar (encodeStd.getD k 'A') = some k := by
  decide

theorem encodeStd_ne_pad : ∀ k, k < 64 → encodeStd.getD k 'A' ≠ '=' := by
  decide

theorem decChar_encChar (i : Nat) : decChar (encChar i) = some (i % 64) :=
  decChar_encodeStd (i % 64) (Nat.mod_lt _ (by decide))

theorem encChar_ne_pad (i : Nat) : encChar i ≠ '=' :=
  encodeStd_ne_pad (i % 64) (Nat.mod_lt _ (by decide))

theorem base64_roundtrip (bs : List Nat) (h : ∀ b ∈ bs, b < 256) :
    base64Decode (base64Encode bs) = some bs := by
  induction bs using base64Encode.induct with
  | case1 a b c rest ih =>
    have ha : a < 256 := h a (by simp)
    have hb : b < 256 := h b (by simp)
    have hc : c < 256 := h c (by simp)
    have hrest := ih fun x hx => h x (by simp [hx])
    simp only [base64Encode, base64Decode, decChar_encChar, encChar_ne_pad, false_and,
      if_false, hrest]
    have e1 : ((a * 65536 + b * 256 + c) / 262144 % 64 * 262144 +
        (a * 65536 + b * 256 + c) / 4096 % 64 * 4096 +
        (a * 65536 + b * 256 + c) / 64 % 64 * 64 + (a * 65536 + b * 256 + c) % 64) =
        a * 65536 + b * 256 + c := by omega
    rw [e1]
    have e2 : (a * 65536 + b * 256 + c) / 65536 = a := by omega
    have e3 : (a * 65536 + b * 256 + c) / 256 % 256 = b := by omega
    have e4 : (a * 65536 + b * 256 + c) % 256 = c := by omega
    rw [e2, e3, e4]
  | case2 a b =>
    have ha : a < 256 := h a (by simp)
    have hb : b < 256 := h b (by simp)
    simp only [base64Encode, base64Decode, decChar_encChar, encChar_ne_pad, and_self, if_true,
      if_false]
    have e1 : ((a * 65536 + b * 256) / 262144 % 64 * 4096 +
        (a * 65536 + b * 256) / 4096 % 64 * 64 + (a * 65536 + b * 256) / 64 % 64) / 1024 = a := by
      omega
    have e2 : ((a * 65536 + b * 256) / 262144 % 64 * 4096 +
        (a * 65536 + b * 256) / 4096 % 64 * 64 + (a * 65536 + b * 256) / 64 % 64) / 4 % 256 =
        b := by
      omega
    rw [e1, e2]
  | case3 a =>
    have ha : a < 256 := h a (by simp)
    simp only [base64Encode, base64Decode, decChar_encChar, and_self, if_true]
    have e1 : (a * 65536 / 262144 % 64 * 64 + a * 65536 / 4096 % 64) / 16 = a := by omega
    rw [e1]
  | case4 => rfl

theorem goBytes_lt (s : String) : ∀ b ∈ goBytes s, b < 256 := by
  intro b hb
  simp only [goBytes, List.mem_flatten, List.mem_map] at hb
  obtain ⟨l, ⟨c, -, rfl⟩, hb⟩ := hb
  obtain ⟨u, -, rfl⟩ := List.mem_map.mp hb
  exact u.val.isLt

theorem goBytes_append (a b : String) : goBytes (a ++ b) = goBytes a ++ goBytes b := by
  simp [goBytes, String.data_append]

theorem accessToken_requests {F : Type} (w : World F) (appKey appSecret : String)
    (h : w.newRequest "POST" tokenURL = none) :
    requests (accessToken w appKey appSecret).2 = [accessTokenRequest appKey appSecret] := by
  unfold accessToken
  rw [h]
  cases h2 : w.httpDo (accessTokenRequest appKey appSecret) with
  | doError err => simp [h2, requests]
  | readError err => simp [h2, requests]
  | body respBody =>
    cases h3 : jsonUnmarshal TokenResp.fields TokenResp.zero respBody with
    | error err => simp [h2, h3, requests]
    | ok respData =>
      by_cases he : respData.AccessToken = "" <;> simp [h2, h3, he, requests]

/-- C10: for every key and secret, the token request built by `accessToken`
is a POST to the token endpoint whose body is exactly
`grant_type=client_credentials&scope=device_full_access` and whose only
Authorization header value is `Basic ` followed by the padded standard
base64 encoding of the bytes of the key, a colon and the secret; decoding
that encoding gives back these bytes; and it is the request `accessToken`
sends whenever the request can be constructed. -/
theorem accessTokenRequest_shape (appKey appSecret : String) :
    (accessTokenRequest appKey appSecret).method = "POST" ∧
    (accessTokenRequest appKey appSecret).url = "https://oauth.cleargrass.com/oauth2/token" ∧
    (accessTokenRequest appKey appSecret).body =
      some "grant_type=client_credentials&scope=device_full_access" ∧
    (accessTokenRequest appKey appSecret).headerValues "Authorization" =
      ["Basic " ++ String.mk (base64Encode (goBytes appKey ++ 58 :: goBytes appSecret))] ∧
    base64Decode (base64Encode (goBytes appKey ++ 58 :: goBytes appSecret)) =
      some (goBytes appKey ++ 58 :: goBytes appSecret) ∧
    goBytes (appKey ++ ":" ++ appSecret) = goBytes appKey ++ 58 :: goBytes appSecret ∧
    ∀ (F : Type) (w : World F), w.newRequest "POST" tokenURL = none →
      requests (accessToken w appKey appSecret).2 = [accessTokenRequest appKey appSecret] := by
  have hbytes : goBytes (appKey ++ ":" ++ appSecret) =
      goBytes appKey ++ 58 :: goBytes appSecret := by
    rw [goBytes_append, goBytes_append]
    have : goBytes ":" = [58] := by decide
    rw [this]
    simp
  have hbody : Values.encode (Values.set (Values.set [] "grant_type" "client_credentials")
      "scope" "device_full_access") =
      "grant_type=client_credentials&scope=device_full_access" := by decide
  refine ⟨rfl, rfl, ?_, ?_, ?_, hbytes, fun F w h => accessToken_requests w _ _ h⟩
  · simp only [accessTokenRequest, Request.addHeader, hbody]
  · simp [accessTokenRequest, Request.addHeader, Request.headerValues, List.filter, hbytes]
  · apply base64_roundtrip
    intro b hb
    rw [← hbytes] at hb
    exact goBytes_lt _ b hb

theorem accessTokenRequest_shape_witness :
    requests (accessToken (quietWorld Binary64 scenarioToken scenarioDevices) "key" "secret").2 =
      [accessTokenRequest "key" "secret"] :=
  (accessTokenRequest_shape "key" "secret").2.2.2.2.2.2 Binary64 _ rfl

end Qingping
